import Mathlib

/-!
# MPC.cpp: problem formulation, evaluator and output extraction

A shallow embedding of `src/MPC.cpp`.

* `double` and `AD<double>` values are elements of an arbitrary linearly ordered
  field `R` (exact arithmetic, no rounding).
* Where rounding decides a property (the closed form of the speed, the zeros of
  the cost), the evaluator is given once more over a record of operations,
  `operator_in`: with the operations of a field it is the evaluator above
  (`operator_in_exact`), with `binary64` it computes on finite `double` values,
  every result rounded to nearest, ties to even, with gradual underflow.
* The library primitives the file calls (`CppAD::cos`, `CppAD::sin`,
  `CppAD::atan`, `M_PI`) are the fields of a record `Lib R`.
* `size_t` and `int` values are natural numbers; every statement below is about
  horizons `N ≥ 2`, for which no subtraction in the file wraps around.
* A C++ vector is a `Dvector`: its size and its cells. Indexing is unchecked, as
  in C++; that the indices used are in range is a property of the layout.
* The solver `CppAD::ipopt::solve` is a parameter of `Solve`.
* `assert` is active: a failed assertion ends the call without a return value.
-/

namespace MPC

/-! ## Vectors and loops -/

/-- Vector of numbers addressed by index (`CPPAD_TESTVECTOR`, `Eigen::VectorXd`). -/
structure Dvector (R : Type) where
  /-- Number of cells, fixed at construction. -/
  size : Nat
  /-- Content of each cell. -/
  data : Nat → R

namespace Dvector

variable {R : Type}

/-- Construction `Dvector v(n)`: `n` cells whose content `junk` is not specified. -/
def alloc (n : Nat) (junk : Nat → R) : Dvector R := ⟨n, junk⟩

/-- Read `v[i]`. -/
def get (v : Dvector R) (i : Nat) : R := v.data i

/-- Write `v[i] = x`. -/
def set (v : Dvector R) (i : Nat) (x : R) : Dvector R :=
  ⟨v.size, fun j => if j = i then x else v.data j⟩

end Dvector

/-- Loop `for (int i = lo; i < hi; i++) body`, threading the state `s`. -/
def forLoop {σ : Type} (lo hi : Nat) (body : Nat → σ → σ) (s : σ) : σ :=
  (List.range' lo (hi - lo)).foldl (fun s i => body i s) s

/-! ## Library primitives and file-scope globals -/

/-- Library primitives used by the file: `CppAD::cos`, `CppAD::sin`, `CppAD::atan`, `M_PI`. -/
structure Lib (R : Type) where
  /-- Function `CppAD::cos`. -/
  cos : R → R
  /-- Function `CppAD::sin`. -/
  sin : R → R
  /-- Function `CppAD::atan`. -/
  atan : R → R
  /-- Constant `M_PI`. -/
  M_PI : R

/-- Mutable file-scope globals `N`, `dt`, `Lf`, `ref_v`. -/
structure Params (R : Type) where
  /-- Number of time steps. -/
  N : Nat
  /-- Duration of a time step. -/
  dt : R
  /-- Distance from the front axle to the centre of gravity. -/
  Lf : R
  /-- Reference speed. -/
  ref_v : R

section Model

variable {R : Type} [LinearOrderedField R]

/-- Globals as initialised in the file (`dt = 0.1`, `Lf = 2.67`, `ref_v = 30`), for horizon `N`
(the file sets `N = 10`). -/
def globals (N : Nat) : Params R :=
  { N := N, dt := 0.1, Lf := 2.67, ref_v := 30 }

/-- Value `std::numeric_limits<double>::max()`. -/
def numeric_limits_max : R := 2 ^ 1024 - 2 ^ 971

/-- Value `std::numeric_limits<double>::lowest()`. -/
def numeric_limits_lowest : R := -(2 ^ 1024 - 2 ^ 971)

/-! ## Variable layout (lines 17-25)

The counter `seq` takes the values 0, 1, ..., 7 in the eight initialisers. -/

/-- Global `x_start = N * (seq++)` with `seq = 0`. -/
def x_start (N : Nat) : Nat := N * 0
/-- Global `y_start = N * (seq++)` with `seq = 1`. -/
def y_start (N : Nat) : Nat := N * 1
/-- Global `psi_start = N * (seq++)` with `seq = 2`. -/
def psi_start (N : Nat) : Nat := N * 2
/-- Global `v_start = N * (seq++)` with `seq = 3`. -/
def v_start (N : Nat) : Nat := N * 3
/-- Global `cte_start = N * (seq++)` with `seq = 4`. -/
def cte_start (N : Nat) : Nat := N * 4
/-- Global `epsi_start = N * (seq++)` with `seq = 5`. -/
def epsi_start (N : Nat) : Nat := N * 5
/-- Global `delta_start = N * (seq++)` with `seq = 6`. -/
def delta_start (N : Nat) : Nat := N * 6
/-- Global `a_start = N * (seq++) - 1` with `seq = 7`. -/
def a_start (N : Nat) : Nat := N * 7 - 1

/-- Local `n_vars = N * seq + (N - 1) * 2` of `MPC::Solve`, where `seq = 6`. -/
def n_vars (N : Nat) : Nat := N * 6 + (N - 1) * 2

/-- Local `n_constraints = N * seq` of `MPC::Solve`, where `seq = 6`. -/
def n_constraints (N : Nat) : Nat := N * 6

/-- The eight blocks as (start, size), in layout order: six state blocks of size `N`
(the range of the state loops) and two actuator blocks of size `N - 1` (the range of
the actuator loops). -/
def blocks (N : Nat) : List (Nat × Nat) :=
  [(x_start N, N), (y_start N, N), (psi_start N, N), (v_start N, N),
   (cte_start N, N), (epsi_start N, N), (delta_start N, N - 1), (a_start N, N - 1)]

/-- Index `i` lies in the block `b = (start, size)`. -/
def inBlock (b : Nat × Nat) (i : Nat) : Prop := b.1 ≤ i ∧ i < b.1 + b.2

instance (b : Nat × Nat) (i : Nat) : Decidable (inBlock b i) := by
  unfold inBlock; infer_instance

/-- Start offsets of the six state blocks, in layout order. -/
def state_starts (N : Nat) : List Nat :=
  [x_start N, y_start N, psi_start N, v_start N, cte_start N, epsi_start N]

/-! ## The evaluator `FG_eval` (lines 27-124) -/

/-- Class `FG_eval`: its only member is the coefficient vector. -/
structure FG_eval (R : Type) where
  /-- Coefficients of the reference polynomial, lowest degree first. -/
  coeffs : List R

/-- Method `FG_eval::polyeval` (lines 37-43). -/
def FG_eval.polyeval (self : FG_eval R) (x : R) : R :=
  forLoop 0 self.coeffs.length
    (fun i result => result + self.coeffs.getD i 0 * x ^ i) 0

/-- Method `FG_eval::d_polyeval` (lines 46-52). -/
def FG_eval.d_polyeval (self : FG_eval R) (x : R) : R :=
  forLoop 1 self.coeffs.length
    (fun i result => result + self.coeffs.getD i 0 * x ^ (i - 1) * (i : R)) 0

/-- Body of the loop of lines 63-67 (reference state cost). -/
def ref_cost_body (p : Params R) (vars : Dvector R) (i : Nat) (fg : Dvector R) : Dvector R :=
  let fg := fg.set 0 (fg.get 0 + vars.get (cte_start p.N + i) ^ 2)
  let fg := fg.set 0 (fg.get 0 + vars.get (epsi_start p.N + i) ^ 2)
  fg.set 0 (fg.get 0 + (vars.get (v_start p.N + i) - p.ref_v) ^ 2)

/-- Body of the loop of lines 70-73 (actuators). -/
def actuator_cost_body (p : Params R) (vars : Dvector R) (i : Nat) (fg : Dvector R) :
    Dvector R :=
  let fg := fg.set 0 (fg.get 0 + vars.get (delta_start p.N + i) ^ 2)
  fg.set 0 (fg.get 0 + vars.get (a_start p.N + i) ^ 2)

/-- Body of the loop of lines 76-79 (sequential actuations). -/
def seq_cost_body (p : Params R) (vars : Dvector R) (i : Nat) (fg : Dvector R) : Dvector R :=
  let fg := fg.set 0 (fg.get 0 +
    200 * (vars.get (delta_start p.N + i + 1) - vars.get (delta_start p.N + i)) ^ 2)
  fg.set 0 (fg.get 0 + (vars.get (a_start p.N + i + 1) - vars.get (a_start p.N + i)) ^ 2)

/-- Body of the loop of lines 94-122 (the rest of the constraints). -/
def dynamics_body (L : Lib R) (p : Params R) (self : FG_eval R) (vars : Dvector R)
    (t : Nat) (fg : Dvector R) : Dvector R :=
  let x1 := vars.get (x_start p.N + t)
  let x0 := vars.get (x_start p.N + t - 1)
  let y1 := vars.get (y_start p.N + t)
  let y0 := vars.get (y_start p.N + t - 1)
  let psi1 := vars.get (psi_start p.N + t)
  let psi0 := vars.get (psi_start p.N + t - 1)
  let v1 := vars.get (v_start p.N + t)
  let v0 := vars.get (v_start p.N + t - 1)
  let cte1 := vars.get (cte_start p.N + t)
  let _cte0 := vars.get (cte_start p.N + t - 1)
  let epsi1 := vars.get (epsi_start p.N + t)
  let epsi0 := vars.get (epsi_start p.N + t - 1)
  let a0 := vars.get (a_start p.N + t - 1)
  let delta0 := vars.get (delta_start p.N + t - 1)
  let fg := fg.set (1 + x_start p.N + t) (x1 - (x0 + v0 * L.cos psi0 * p.dt))
  let fg := fg.set (1 + y_start p.N + t) (y1 - (y0 + v0 * L.sin psi0 * p.dt))
  let fg := fg.set (1 + psi_start p.N + t) (psi1 - (psi0 + v0 * delta0 * p.dt / p.Lf))
  let fg := fg.set (1 + v_start p.N + t) (v1 - (v0 + a0 * p.dt))
  let fg := fg.set (1 + cte_start p.N + t)
    (cte1 - ((self.polyeval x0 - y0) + (v0 * L.sin epsi0 * p.dt)))
  fg.set (1 + epsi_start p.N + t)
    (epsi1 - ((psi0 - L.atan (self.d_polyeval x0)) + v0 * delta0 * p.dt / p.Lf))

/-- Method `FG_eval::operator()` (lines 56-123): from the vector `fg` handed in by the solver
and the decision vector `vars`, the vector `fg` it leaves behind. -/
def FG_eval.operator (L : Lib R) (p : Params R) (self : FG_eval R) (fg vars : Dvector R) :
    Dvector R :=
  let fg := fg.set 0 0
  let fg := forLoop 0 p.N (ref_cost_body p vars) fg
  let fg := forLoop 0 (p.N - 1) (actuator_cost_body p vars) fg
  let fg := forLoop 0 (p.N - 2) (seq_cost_body p vars) fg
  let fg := fg.set (1 + x_start p.N) (vars.get (x_start p.N))
  let fg := fg.set (1 + y_start p.N) (vars.get (y_start p.N))
  let fg := fg.set (1 + psi_start p.N) (vars.get (psi_start p.N))
  let fg := fg.set (1 + v_start p.N) (vars.get (v_start p.N))
  let fg := fg.set (1 + cte_start p.N) (vars.get (cte_start p.N))
  let fg := fg.set (1 + epsi_start p.N) (vars.get (epsi_start p.N))
  forLoop 1 p.N (dynamics_body L p self vars) fg

/-- Statement that the six cells of `fg` for step `t` hold the residuals of lines 116-121,
written with the cells of `vars` they are computed from. -/
def residuals_at (L : Lib R) (p : Params R) (self : FG_eval R) (vars fg : Dvector R)
    (t : Nat) : Prop :=
  fg.get (1 + x_start p.N + t) =
      vars.get (x_start p.N + t) - (vars.get (x_start p.N + t - 1) +
        vars.get (v_start p.N + t - 1) * L.cos (vars.get (psi_start p.N + t - 1)) * p.dt) ∧
  fg.get (1 + y_start p.N + t) =
      vars.get (y_start p.N + t) - (vars.get (y_start p.N + t - 1) +
        vars.get (v_start p.N + t - 1) * L.sin (vars.get (psi_start p.N + t - 1)) * p.dt) ∧
  fg.get (1 + psi_start p.N + t) =
      vars.get (psi_start p.N + t) - (vars.get (psi_start p.N + t - 1) +
        vars.get (v_start p.N + t - 1) * vars.get (delta_start p.N + t - 1) * p.dt / p.Lf) ∧
  fg.get (1 + v_start p.N + t) =
      vars.get (v_start p.N + t) - (vars.get (v_start p.N + t - 1) +
        vars.get (a_start p.N + t - 1) * p.dt) ∧
  fg.get (1 + cte_start p.N + t) =
      vars.get (cte_start p.N + t) -
        ((self.polyeval (vars.get (x_start p.N + t - 1)) - vars.get (y_start p.N + t - 1)) +
          vars.get (v_start p.N + t - 1) * L.sin (vars.get (epsi_start p.N + t - 1)) * p.dt) ∧
  fg.get (1 + epsi_start p.N + t) =
      vars.get (epsi_start p.N + t) -
        ((vars.get (psi_start p.N + t - 1) -
            L.atan (self.d_polyeval (vars.get (x_start p.N + t - 1)))) +
          vars.get (v_start p.N + t - 1) * vars.get (delta_start p.N + t - 1) * p.dt / p.Lf)

/-! ## Access traces of the evaluator

The cells of `fg` that `FG_eval::operator()` assigns after the cost, and the cells of `vars` it
reads, listed in program order. -/

/-- Assignments `fg[i] = v` carried out one after the other. -/
def apply_writes (writes : List (Nat × R)) (fg : Dvector R) : Dvector R :=
  writes.foldl (fun fg w => fg.set w.1 w.2) fg

/-- Assignments of lines 86-91 as (index, value). -/
def first_step_writes (N : Nat) (vars : Dvector R) : List (Nat × R) :=
  [(1 + x_start N, vars.get (x_start N)),
   (1 + y_start N, vars.get (y_start N)),
   (1 + psi_start N, vars.get (psi_start N)),
   (1 + v_start N, vars.get (v_start N)),
   (1 + cte_start N, vars.get (cte_start N)),
   (1 + epsi_start N, vars.get (epsi_start N))]

/-- Assignments of lines 116-121 for step `t` as (index, value). -/
def dynamics_writes (L : Lib R) (p : Params R) (self : FG_eval R) (vars : Dvector R)
    (t : Nat) : List (Nat × R) :=
  let x1 := vars.get (x_start p.N + t)
  let x0 := vars.get (x_start p.N + t - 1)
  let y1 := vars.get (y_start p.N + t)
  let y0 := vars.get (y_start p.N + t - 1)
  let psi1 := vars.get (psi_start p.N + t)
  let psi0 := vars.get (psi_start p.N + t - 1)
  let v1 := vars.get (v_start p.N + t)
  let v0 := vars.get (v_start p.N + t - 1)
  let cte1 := vars.get (cte_start p.N + t)
  let epsi1 := vars.get (epsi_start p.N + t)
  let epsi0 := vars.get (epsi_start p.N + t - 1)
  let a0 := vars.get (a_start p.N + t - 1)
  let delta0 := vars.get (delta_start p.N + t - 1)
  [(1 + x_start p.N + t, x1 - (x0 + v0 * L.cos psi0 * p.dt)),
   (1 + y_start p.N + t, y1 - (y0 + v0 * L.sin psi0 * p.dt)),
   (1 + psi_start p.N + t, psi1 - (psi0 + v0 * delta0 * p.dt / p.Lf)),
   (1 + v_start p.N + t, v1 - (v0 + a0 * p.dt)),
   (1 + cte_start p.N + t, cte1 - ((self.polyeval x0 - y0) + (v0 * L.sin epsi0 * p.dt))),
   (1 + epsi_start p.N + t,
     epsi1 - ((psi0 - L.atan (self.d_polyeval x0)) + v0 * delta0 * p.dt / p.Lf))]

/-- All assignments to constraint cells made by one call of `FG_eval::operator()`, in program
order: lines 86-91, then lines 116-121 for `t = 1, ..., N - 1`. -/
def constraint_writes (L : Lib R) (p : Params R) (self : FG_eval R) (vars : Dvector R) :
    List (Nat × R) :=
  first_step_writes p.N vars ++
    (List.range' 1 (p.N - 1)).flatMap (dynamics_writes L p self vars)

/-- The vector `fg` after the three cost loops (lines 60-79). -/
def cost_stage (p : Params R) (fg vars : Dvector R) : Dvector R :=
  let fg := fg.set 0 0
  let fg := forLoop 0 p.N (ref_cost_body p vars) fg
  let fg := forLoop 0 (p.N - 1) (actuator_cost_body p vars) fg
  forLoop 0 (p.N - 2) (seq_cost_body p vars) fg

/-- Reads of `vars` in pass `i` of the loop of lines 63-67, each as (the block the source
addresses, the index read). -/
def ref_cost_reads (N i : Nat) : List ((Nat × Nat) × Nat) :=
  [((cte_start N, N), cte_start N + i),
   ((epsi_start N, N), epsi_start N + i),
   ((v_start N, N), v_start N + i)]

/-- Reads of `vars` in pass `i` of the loop of lines 70-73. -/
def actuator_cost_reads (N i : Nat) : List ((Nat × Nat) × Nat) :=
  [((delta_start N, N - 1), delta_start N + i),
   ((a_start N, N - 1), a_start N + i)]

/-- Reads of `vars` in pass `i` of the loop of lines 76-79. -/
def seq_cost_reads (N i : Nat) : List ((Nat × Nat) × Nat) :=
  [((delta_start N, N - 1), delta_start N + i + 1),
   ((delta_start N, N - 1), delta_start N + i),
   ((a_start N, N - 1), a_start N + i + 1),
   ((a_start N, N - 1), a_start N + i)]

/-- Reads of `vars` in lines 86-91. -/
def first_step_reads (N : Nat) : List ((Nat × Nat) × Nat) :=
  [((x_start N, N), x_start N),
   ((y_start N, N), y_start N),
   ((psi_start N, N), psi_start N),
   ((v_start N, N), v_start N),
   ((cte_start N, N), cte_start N),
   ((epsi_start N, N), epsi_start N)]

/-- Reads of `vars` in pass `t` of the loop of lines 94-122 (lines 95-114). -/
def dynamics_reads (N t : Nat) : List ((Nat × Nat) × Nat) :=
  [((x_start N, N), x_start N + t),
   ((x_start N, N), x_start N + t - 1),
   ((y_start N, N), y_start N + t),
   ((y_start N, N), y_start N + t - 1),
   ((psi_start N, N), psi_start N + t),
   ((psi_start N, N), psi_start N + t - 1),
   ((v_start N, N), v_start N + t),
   ((v_start N, N), v_start N + t - 1),
   ((cte_start N, N), cte_start N + t),
   ((cte_start N, N), cte_start N + t - 1),
   ((epsi_start N, N), epsi_start N + t),
   ((epsi_start N, N), epsi_start N + t - 1),
   ((a_start N, N - 1), a_start N + t - 1),
   ((delta_start N, N - 1), delta_start N + t - 1)]

/-- All reads of `vars` made by one call of `FG_eval::operator()`, in program order. -/
def operator_reads (N : Nat) : List ((Nat × Nat) × Nat) :=
  (List.range' 0 N).flatMap (ref_cost_reads N) ++
  (List.range' 0 (N - 1)).flatMap (actuator_cost_reads N) ++
  (List.range' 0 (N - 2)).flatMap (seq_cost_reads N) ++
  first_step_reads N ++
  (List.range' 1 (N - 1)).flatMap (dynamics_reads N)

/-! ## `MPC::Solve` (lines 132-259) -/

/-- Enumeration `CppAD::ipopt::solve_result<Dvector>::status_type` of the solver library. -/
inductive status_type where
  | not_defined
  | success
  | maxiter_exceeded
  | stop_at_tiny_step
  | stop_at_acceptable_point
  | local_infeasibility
  | user_requested_stop
  | feasible_point_found
  | diverging_iterates
  | restoration_failure
  | error_in_step_computation
  | invalid_number_detected
  | too_few_degrees_of_freedom
  | internal_error
  | unknown
  deriving DecidableEq, Repr

/-- Class `CppAD::ipopt::solve_result<Dvector>`, restricted to the members the file reads. -/
structure solve_result (R : Type) where
  /-- Member `status`. -/
  status : status_type
  /-- Member `x`, the decision vector found. -/
  x : Dvector R

/-- The five vectors `MPC::Solve` hands to the solver, under their names in the file. -/
structure Problem (R : Type) where
  /-- Initial guess. -/
  vars : Dvector R
  /-- Lower bound of every variable. -/
  vars_lowerbound : Dvector R
  /-- Upper bound of every variable. -/
  vars_upperbound : Dvector R
  /-- Lower bound of every constraint. -/
  constraints_lowerbound : Dvector R
  /-- Upper bound of every constraint. -/
  constraints_upperbound : Dvector R

/-- Signature of `CppAD::ipopt::solve<Dvector, FG_eval>`: options, initial guess, variable
bounds, constraint bounds and the evaluator go in, the `solve_result` comes out. -/
abbrev Solver (R : Type) : Type :=
  String → Dvector R → Dvector R → Dvector R → Dvector R → Dvector R →
    (Dvector R → Dvector R → Dvector R) → solve_result R

/-- How a call of `MPC::Solve` ends: it returns the vector `actuations`, or the assertion of
line 247 fails and the process is aborted. -/
inductive Outcome (R : Type) where
  | returned (actuations : List R)
  | assert_failed

/-- Lines 136-203 of `MPC::Solve`: the initial guess and the bounds built from `state`.
`junk k` is the unspecified content of the `k`-th vector right after its construction. -/
def Solve_problem (L : Lib R) (N : Nat) (junk : Nat → Nat → R) (state : Dvector R) :
    Problem R :=
  let x := state.get 0
  let y := state.get 1
  let psi := state.get 2
  let v := state.get 3
  let cte := state.get 4
  let epsi := state.get 5
  let vars := Dvector.alloc (n_vars N) (junk 0)
  let vars := forLoop 0 (n_vars N) (fun i vars => vars.set i 0) vars
  let vars_lowerbound := Dvector.alloc (n_vars N) (junk 1)
  let vars_upperbound := Dvector.alloc (n_vars N) (junk 2)
  let vars := vars.set (x_start N) x
  let vars := vars.set (y_start N) y
  let vars := vars.set (psi_start N) psi
  let vars := vars.set (v_start N) v
  let vars := vars.set (cte_start N) cte
  let vars := vars.set (epsi_start N) epsi
  let bounds := forLoop 0 (delta_start N)
    (fun i (b : Dvector R × Dvector R) =>
      (b.1.set i numeric_limits_lowest, b.2.set i numeric_limits_max))
    (vars_lowerbound, vars_upperbound)
  let bounds := forLoop (delta_start N) (a_start N)
    (fun i (b : Dvector R × Dvector R) =>
      (b.1.set i (-25 * L.M_PI / 180), b.2.set i (25 * L.M_PI / 180)))
    bounds
  let bounds := forLoop (a_start N) (n_vars N)
    (fun i (b : Dvector R × Dvector R) => (b.1.set i (-1.0), b.2.set i 1.0))
    bounds
  let constraints_lowerbound := Dvector.alloc (n_constraints N) (junk 3)
  let constraints_upperbound := Dvector.alloc (n_constraints N) (junk 4)
  let cbounds := forLoop 0 (n_constraints N)
    (fun i (b : Dvector R × Dvector R) => (b.1.set i 0, b.2.set i 0))
    (constraints_lowerbound, constraints_upperbound)
  let constraints_lowerbound := cbounds.1
  let constraints_upperbound := cbounds.2
  let constraints_lowerbound := constraints_lowerbound.set (x_start N) x
  let constraints_lowerbound := constraints_lowerbound.set (y_start N) y
  let constraints_lowerbound := constraints_lowerbound.set (psi_start N) psi
  let constraints_lowerbound := constraints_lowerbound.set (v_start N) v
  let constraints_lowerbound := constraints_lowerbound.set (cte_start N) cte
  let constraints_lowerbound := constraints_lowerbound.set (epsi_start N) epsi
  let constraints_upperbound := constraints_upperbound.set (x_start N) x
  let constraints_upperbound := constraints_upperbound.set (y_start N) y
  let constraints_upperbound := constraints_upperbound.set (psi_start N) psi
  let constraints_upperbound := constraints_upperbound.set (v_start N) v
  let constraints_upperbound := constraints_upperbound.set (cte_start N) cte
  let constraints_upperbound := constraints_upperbound.set (epsi_start N) epsi
  { vars := vars
    vars_lowerbound := bounds.1
    vars_upperbound := bounds.2
    constraints_lowerbound := constraints_lowerbound
    constraints_upperbound := constraints_upperbound }

/-- Solver options assembled in lines 212-225. -/
def solver_options : String :=
  let options := ""
  let options := options ++ "Integer print_level  0\n"
  let options := options ++ "Sparse  true        forward\n"
  let options := options ++ "Sparse  true        reverse\n"
  options ++ "Numeric max_cpu_time          0.5\n"

/-- Line 245, `unsigned(latency / (1000 * dt))`: the quotient is taken in `double` and the
conversion drops its fractional part. -/
def latency_offset [FloorRing R] (dt : R) (latency : Nat) : Nat :=
  ⌊(latency : R) / (1000 * dt)⌋₊

/-- Body of the loop of lines 252-255: two `push_back` per predicted point. -/
def trajectory_body (N : Nat) (x : Dvector R) (i : Nat) (actuations : List R) : List R :=
  let actuations := actuations ++ [x.get (x_start N + i + 1)]
  actuations ++ [x.get (y_start N + i + 1)]

/-- Lines 206-233 of `MPC::Solve`: the evaluator is built from `coeffs` and the solver is
called on the problem of lines 136-203; the value is the `solution` the solver fills in. -/
def Solve_solution (L : Lib R) (p : Params R) (solve : Solver R) (junk : Nat → Nat → R)
    (state : Dvector R) (coeffs : List R) : solve_result R :=
  let problem := Solve_problem L p.N junk state
  let fg_eval : FG_eval R := { coeffs := coeffs }
  solve solver_options problem.vars problem.vars_lowerbound problem.vars_upperbound
    problem.constraints_lowerbound problem.constraints_upperbound
    (FG_eval.operator L p fg_eval)

/-- Method `MPC::Solve` (lines 132-259), with the solver call `solve` as a parameter. -/
def Solve [FloorRing R] (L : Lib R) (p : Params R) (solve : Solver R) (junk : Nat → Nat → R)
    (state : Dvector R) (coeffs : List R) (latency : Nat) : Outcome R :=
  let ok := true
  let solution := Solve_solution L p solve junk state coeffs
  let ok := ok && decide (solution.status = status_type.success)
  let actuations : List R := []
  if ok then
    let latency_offset := latency_offset p.dt latency
    if latency_offset < p.N - 1 then
      let actuations := actuations ++ [solution.x.get (delta_start p.N + latency_offset)]
      let actuations := actuations ++ [solution.x.get (a_start p.N + latency_offset)]
      let actuations := forLoop 0 (p.N - 1) (trajectory_body p.N solution.x) actuations
      Outcome.returned actuations
    else
      Outcome.assert_failed
  else
    Outcome.returned actuations

/-- A solver stub for concrete runs: it reports `status` and the decision vector `x`. -/
def stub_solver (status : status_type) (x : Dvector R) : Solver R :=
  fun _ _ _ _ _ _ _ => { status := status, x := x }

end Model

/-! ## The evaluator over a given arithmetic

The statements of `FG_eval::operator()` once more, with the operations on numbers taken from
a record: with the operations of an ordered field this is the evaluator above, with the
rounded operations of `double` it is the evaluator as the processor runs it. -/

/-- Operations on the number type that the evaluator uses. -/
structure Arith (α : Type) where
  /-- The number 0. -/
  zero : α
  /-- Conversion of an `int` value. -/
  lit : Nat → α
  /-- Addition. -/
  add : α → α → α
  /-- Subtraction. -/
  sub : α → α → α
  /-- Multiplication. -/
  mul : α → α → α
  /-- Division. -/
  div : α → α → α
  /-- Function `CppAD::pow` with an `int` exponent. -/
  pow : α → Nat → α

/-- Operations of an ordered field, without rounding. -/
def Arith.exact (R : Type) [LinearOrderedField R] : Arith R :=
  { zero := 0
    lit := fun n => (n : R)
    add := fun a b => a + b
    sub := fun a b => a - b
    mul := fun a b => a * b
    div := fun a b => a / b
    pow := fun x n => x ^ n }

section Generic

variable {α : Type}

/-- Method `FG_eval::polyeval` (lines 37-43) over the arithmetic `A`. -/
def polyeval_in (A : Arith α) (self : FG_eval α) (x : α) : α :=
  forLoop 0 self.coeffs.length
    (fun i result => A.add result (A.mul (self.coeffs.getD i A.zero) (A.pow x i))) A.zero

/-- Method `FG_eval::d_polyeval` (lines 46-52) over the arithmetic `A`. -/
def d_polyeval_in (A : Arith α) (self : FG_eval α) (x : α) : α :=
  forLoop 1 self.coeffs.length
    (fun i result =>
      A.add result (A.mul (A.mul (self.coeffs.getD i A.zero) (A.pow x (i - 1))) (A.lit i)))
    A.zero

/-- Body of the loop of lines 63-67 over the arithmetic `A`. -/
def ref_cost_body_in (A : Arith α) (p : Params α) (vars : Dvector α) (i : Nat)
    (fg : Dvector α) : Dvector α :=
  let fg := fg.set 0 (A.add (fg.get 0) (A.pow (vars.get (cte_start p.N + i)) 2))
  let fg := fg.set 0 (A.add (fg.get 0) (A.pow (vars.get (epsi_start p.N + i)) 2))
  fg.set 0 (A.add (fg.get 0) (A.pow (A.sub (vars.get (v_start p.N + i)) p.ref_v) 2))

/-- Body of the loop of lines 70-73 over the arithmetic `A`. -/
def actuator_cost_body_in (A : Arith α) (p : Params α) (vars : Dvector α) (i : Nat)
    (fg : Dvector α) : Dvector α :=
  let fg := fg.set 0 (A.add (fg.get 0) (A.pow (vars.get (delta_start p.N + i)) 2))
  fg.set 0 (A.add (fg.get 0) (A.pow (vars.get (a_start p.N + i)) 2))

/-- Body of the loop of lines 76-79 over the arithmetic `A`. -/
def seq_cost_body_in (A : Arith α) (p : Params α) (vars : Dvector α) (i : Nat)
    (fg : Dvector α) : Dvector α :=
  let fg := fg.set 0 (A.add (fg.get 0) (A.mul (A.lit 200)
    (A.pow (A.sub (vars.get (delta_start p.N + i + 1)) (vars.get (delta_start p.N + i))) 2)))
  fg.set 0 (A.add (fg.get 0)
    (A.pow (A.sub (vars.get (a_start p.N + i + 1)) (vars.get (a_start p.N + i))) 2))

/-- The vector `fg` after the three cost loops (lines 60-79) over the arithmetic `A`. -/
def cost_stage_in (A : Arith α) (p : Params α) (fg vars : Dvector α) : Dvector α :=
  let fg := fg.set 0 A.zero
  let fg := forLoop 0 p.N (ref_cost_body_in A p vars) fg
  let fg := forLoop 0 (p.N - 1) (actuator_cost_body_in A p vars) fg
  forLoop 0 (p.N - 2) (seq_cost_body_in A p vars) fg

/-- Assignments of lines 116-121 for step `t` as (index, value) over the arithmetic `A`. -/
def dynamics_writes_in (A : Arith α) (L : Lib α) (p : Params α) (self : FG_eval α)
    (vars : Dvector α) (t : Nat) : List (Nat × α) :=
  let x1 := vars.get (x_start p.N + t)
  let x0 := vars.get (x_start p.N + t - 1)
  let y1 := vars.get (y_start p.N + t)
  let y0 := vars.get (y_start p.N + t - 1)
  let psi1 := vars.get (psi_start p.N + t)
  let psi0 := vars.get (psi_start p.N + t - 1)
  let v1 := vars.get (v_start p.N + t)
  let v0 := vars.get (v_start p.N + t - 1)
  let cte1 := vars.get (cte_start p.N + t)
  let epsi1 := vars.get (epsi_start p.N + t)
  let epsi0 := vars.get (epsi_start p.N + t - 1)
  let a0 := vars.get (a_start p.N + t - 1)
  let delta0 := vars.get (delta_start p.N + t - 1)
  [(1 + x_start p.N + t, A.sub x1 (A.add x0 (A.mul (A.mul v0 (L.cos psi0)) p.dt))),
   (1 + y_start p.N + t, A.sub y1 (A.add y0 (A.mul (A.mul v0 (L.sin psi0)) p.dt))),
   (1 + psi_start p.N + t,
     A.sub psi1 (A.add psi0 (A.div (A.mul (A.mul v0 delta0) p.dt) p.Lf))),
   (1 + v_start p.N + t, A.sub v1 (A.add v0 (A.mul a0 p.dt))),
   (1 + cte_start p.N + t,
     A.sub cte1 (A.add (A.sub (polyeval_in A self x0) y0)
       (A.mul (A.mul v0 (L.sin epsi0)) p.dt))),
   (1 + epsi_start p.N + t,
     A.sub epsi1 (A.add (A.sub psi0 (L.atan (d_polyeval_in A self x0)))
       (A.div (A.mul (A.mul v0 delta0) p.dt) p.Lf)))]

/-- All assignments to constraint cells of one call, in program order, over the
arithmetic `A`. -/
def constraint_writes_in (A : Arith α) (L : Lib α) (p : Params α) (self : FG_eval α)
    (vars : Dvector α) : List (Nat × α) :=
  first_step_writes p.N vars ++
    (List.range' 1 (p.N - 1)).flatMap (dynamics_writes_in A L p self vars)

/-- Method `FG_eval::operator()` (lines 56-123) over the arithmetic `A`: the cost loops, then
the constraint assignments in program order. -/
def operator_in (A : Arith α) (L : Lib α) (p : Params α) (self : FG_eval α)
    (fg vars : Dvector α) : Dvector α :=
  apply_writes (constraint_writes_in A L p self vars) (cost_stage_in A p fg vars)

end Generic

/-! ## The arithmetic of `double`

A finite `double` is the rational number it denotes. Infinities and NaN are left out:
`binary64_round` is the rounding of IEEE 754 binary64 for numbers of magnitude below
`2 ^ 1024`. -/

/-- Rounding to the nearest integer, a tie going to the even one. -/
def round_half_even (x : ℚ) : ℤ :=
  if x - ⌊x⌋ < 1 / 2 then ⌊x⌋
  else if 1 / 2 < x - ⌊x⌋ then ⌊x⌋ + 1
  else if ⌊x⌋ % 2 = 0 then ⌊x⌋ else ⌊x⌋ + 1

/-- Rounding to binary64, to nearest with ties to even: the significand has 53 bits and the
unit in the last place is `2 ^ (e - 52)` for numbers in `[2 ^ e, 2 ^ (e + 1))`, but never
below `2 ^ (-1074)` (subnormal range). -/
def binary64_round (q : ℚ) : ℚ :=
  round_half_even (q / 2 ^ (max (Int.log 2 |q|) (-1022) - 52))
    * 2 ^ (max (Int.log 2 |q|) (-1022) - 52)

/-- Integer power by repeated multiplication, each product rounded. -/
def binary64_pow (x : ℚ) : Nat → ℚ
  | 0 => 1
  | n + 1 => binary64_round (binary64_pow x n * x)

/-- Operations of `double`: the exact result, rounded. -/
def binary64 : Arith ℚ :=
  { zero := 0
    lit := fun n => binary64_round n
    add := fun a b => binary64_round (a + b)
    sub := fun a b => binary64_round (a - b)
    mul := fun a b => binary64_round (a * b)
    div := fun a b => binary64_round (a / b)
    pow := binary64_pow }

/-- Globals of the file as `double` values: each literal rounded to binary64. -/
def globals64 (N : Nat) : Params ℚ :=
  { N := N, dt := binary64_round 0.1, Lf := binary64_round 2.67, ref_v := binary64_round 30 }

/-- Library primitives for runs that call `cos`, `sin` and `atan` at 0 only: their values
at 0, and `M_PI` as a `double`. -/
def lib_at_zero : Lib ℚ :=
  { cos := fun _ => 1
    sin := fun _ => 0
    atan := fun _ => 0
    M_PI := 884279719003555 / 281474976710656 }

/-! ## Two decision vectors of `double` values, horizon 10 -/

/-- Decision vector of the run that starts at `x = 0`, `v = 1` (all else 0) with
`delta = 0` and `a = 1` throughout: each `x` and `v` cell holds the `double` that the
update of lines 116 and 119 computes from the cells of the step before. Cells in layout order:
x, y, psi, v, cte, epsi (10 each), delta, a (9 each). -/
def closed_form_input : Dvector ℚ :=
  Dvector.alloc 78 (fun i => List.getD
    [0, 3602879701896397 / 36028797018963968,
     3783023686991217 / 18014398509481984, 185773484629033 / 562949953421312,
     4143311657180857 / 9007199254740992, 1351079888211149 / 2251799813685248,
     6755399441055745 / 9007199254740992, 256142228806697 / 281474976710656,
     4863887597560137 / 4503599627370496, 5674535530486827 / 4503599627370496,
     0, 0, 0, 0, 0, 0, 0, 0, 0, 0,
     0, 0, 0, 0, 0, 0, 0, 0, 0, 0,
     1, 2476979795053773 / 2251799813685248,
     1351079888211149 / 1125899906842624, 2927339757790823 / 2251799813685248,
     788129934789837 / 562949953421312, 3377699720527873 / 2251799813685248,
     1801439850948199 / 1125899906842624, 3828059683264923 / 2251799813685248,
     506654958079181 / 281474976710656, 4278419646001973 / 2251799813685248,
     0, 0, 0, 0, 0, 0, 0, 0, 0, 0,
     0, 0, 0, 0, 0, 0, 0, 0, 0, 0,
     0, 0, 0, 0, 0, 0, 0, 0, 0,
     1, 1, 1, 1, 1, 1, 1, 1, 1]
    i 0)

/-- Decision vector that is 30 on the speed block (cells 30 to 39), `2 ^ (-600)` in the cell
`cte_0` (cell 40) and 0 elsewhere. -/
def zero_cost_input : Dvector ℚ :=
  Dvector.alloc 78 (fun i => if i = 40 then 1 / 2 ^ 600 else if 30 ≤ i ∧ i < 40 then 30 else 0)

/-! ## Arithmetics that keep signs and do not lose a non-zero number -/

/-- What the arguments about zero residuals and about the sign of the cost use of an
arithmetic. `D` is a property that every result of an operation has (for `double`: being a
multiple of the smallest positive `double`); on numbers with `D` a difference is zero only
for equal numbers and a sum of non-negative numbers is zero only if both are. -/
structure Arith.Faithful {α : Type} [LE α] (A : Arith α) (D : α → Prop) : Prop where
  /-- The number 0 has `D`. -/
  zero_mem : D A.zero
  /-- Sums have `D`. -/
  add_mem : ∀ a b, D (A.add a b)
  /-- Products have `D`. -/
  mul_mem : ∀ a b, D (A.mul a b)
  /-- Powers have `D`. -/
  pow_mem : ∀ x n, D (A.pow x n)
  /-- A number minus itself is 0. -/
  sub_self : ∀ a, A.sub a a = A.zero
  /-- A difference of two numbers with `D` is 0 only if they are equal. -/
  sub_eq_zero : ∀ a b, D a → D b → A.sub a b = A.zero → a = b
  /-- Zero is not negative. -/
  zero_le : A.zero ≤ A.zero
  /-- The sum `0 + 0` is 0. -/
  add_zero : A.add A.zero A.zero = A.zero
  /-- A sum of non-negative numbers is non-negative. -/
  add_nonneg : ∀ a b, A.zero ≤ a → A.zero ≤ b → A.zero ≤ A.add a b
  /-- A sum of non-negative numbers with `D` is 0 only if both are 0. -/
  add_eq_zero : ∀ a b, D a → D b → A.zero ≤ a → A.zero ≤ b → A.add a b = A.zero →
    a = A.zero ∧ b = A.zero
  /-- A square is non-negative. -/
  sq_nonneg : ∀ x, A.zero ≤ A.pow x 2
  /-- The square of 0 is 0. -/
  sq_zero : A.pow A.zero 2 = A.zero
  /-- An `int` constant times a non-negative number is non-negative. -/
  mul_nonneg : ∀ n y, A.zero ≤ y → A.zero ≤ A.mul (A.lit n) y
  /-- A number times 0 is 0. -/
  mul_zero : ∀ a, A.mul a A.zero = A.zero

/-- Multiples of `2 ^ (-1074)`, the smallest positive `double`: every finite `double` is
one. -/
def on_grid (q : ℚ) : Prop := ∃ m : ℤ, q = m * 2 ^ (-1074 : ℤ)

end MPC

/-! # Theorems -/

namespace MPC

/-! ## Vectors and loops -/

namespace Dvector

variable {R : Type}

@[simp] theorem get_set (v : Dvector R) (i j : Nat) (x : R) :
    (v.set i x).get j = if j = i then x else v.get j := rfl

@[simp] theorem size_set (v : Dvector R) (i : Nat) (x : R) : (v.set i x).size = v.size := rfl

@[simp] theorem size_alloc (n : Nat) (junk : Nat → R) : (alloc n junk).size = n := rfl

theorem get_set_self (v : Dvector R) (i : Nat) (x : R) : (v.set i x).get i = x := by simp

theorem get_set_of_ne (v : Dvector R) {i j : Nat} (x : R) (h : j ≠ i) :
    (v.set i x).get j = v.get j := by simp [h]

end Dvector

section Loops

variable {σ : Type}

theorem forLoop_of_le (lo hi : Nat) (body : Nat → σ → σ) (s : σ) (h : hi ≤ lo) :
    forLoop lo hi body s = s := by
  simp [forLoop, Nat.sub_eq_zero_of_le h]

theorem forLoop_succ (lo n : Nat) (body : Nat → σ → σ) (s : σ) :
    forLoop lo (lo + (n + 1)) body s = body (lo + n) (forLoop lo (lo + n) body s) := by
  simp [forLoop, List.range'_1_concat, List.foldl_append]

/-- Loop invariant rule: `P k` is what holds after `k` iterations. -/
theorem forLoop_invariant (P : Nat → σ → Prop) (lo n : Nat) (body : Nat → σ → σ) (s : σ)
    (h0 : P 0 s) (hstep : ∀ k s, k < n → P k s → P (k + 1) (body (lo + k) s)) :
    P n (forLoop lo (lo + n) body s) := by
  induction n with
  | zero => simpa [forLoop] using h0
  | succ n ih =>
    rw [forLoop_succ]
    exact hstep n _ (Nat.lt_succ_self n)
      (ih (fun k s hk hP => hstep k s (Nat.lt_succ_of_lt hk) hP))

/-- Invariant rule for a loop written with its two bounds. -/
theorem forLoop_invariant_bounds (P : Nat → σ → Prop) (lo hi : Nat) (body : Nat → σ → σ)
    (s : σ) (h : lo ≤ hi) (h0 : P lo s)
    (hstep : ∀ i s, lo ≤ i → i < hi → P i s → P (i + 1) (body i s)) :
    P hi (forLoop lo hi body s) := by
  obtain ⟨n, rfl⟩ := Nat.exists_eq_add_of_le h
  have key := forLoop_invariant (fun k s => P (lo + k) s) lo n body s h0
    (fun k s hk hP => hstep (lo + k) s (Nat.le_add_right lo k) (by omega) hP)
  exact key

/-- A property that every pass of a loop preserves holds after the loop. -/
theorem forLoop_preserves (Q : σ → Prop) (lo hi : Nat) (body : Nat → σ → σ)
    (hbody : ∀ i s, Q s → Q (body i s)) (s : σ) (hs : Q s) : Q (forLoop lo hi body s) := by
  unfold forLoop
  generalize List.range' lo (hi - lo) = l
  induction l generalizing s with
  | nil => exact hs
  | cons i l ih => exact ih _ (hbody i s hs)


/-- Two loops whose bodies agree on every pass compute the same state. -/
theorem forLoop_congr (lo hi : Nat) (body body' : Nat → σ → σ)
    (h : ∀ i, lo ≤ i → i < hi → ∀ s, body i s = body' i s) (s : σ) :
    forLoop lo hi body s = forLoop lo hi body' s := by
  have key : ∀ l : List Nat, (∀ i ∈ l, ∀ s, body i s = body' i s) →
      ∀ s, l.foldl (fun s i => body i s) s = l.foldl (fun s i => body' i s) s := by
    intro l
    induction l with
    | nil => intro _ _; rfl
    | cons i l ih =>
      intro hl s
      rw [List.foldl_cons, List.foldl_cons, hl i (List.mem_cons_self i l)]
      exact ih (fun j hj => hl j (List.mem_cons_of_mem i hj)) _
  refine key _ (fun i hi => ?_) s
  rw [List.mem_range'_1] at hi
  exact h i hi.1 (by omega)

/-- A loop whose body never writes cell `k` leaves cell `k` as it was. -/
theorem forLoop_frame {R : Type} (body : Nat → Dvector R → Dvector R) (k lo hi : Nat)
    (hbody : ∀ i s, lo ≤ i → i < hi → (body i s).get k = s.get k) (s : Dvector R) :
    (forLoop lo hi body s).get k = s.get k := by
  rcases Nat.lt_or_ge hi lo with h | h
  · rw [forLoop_of_le lo hi body s (Nat.le_of_lt h)]
  · refine forLoop_invariant_bounds (fun _ s' => s'.get k = s.get k) lo hi body s h rfl ?_
    intro i s' h1 h2 ih
    rw [hbody i s' h1 h2, ih]

/-- Six writes at the six first-step indices: each of these cells ends up holding the value
written to it, as soon as the horizon is not zero. -/
theorem get_first_step_writes {R : Type} (w : Dvector R) (N : Nat) (hN : 1 ≤ N) (x y psi v cte epsi : R) :
    let w' := (((((w.set (x_start N) x).set (y_start N) y).set (psi_start N) psi).set
      (v_start N) v).set (cte_start N) cte).set (epsi_start N) epsi
    w'.get (x_start N) = x ∧ w'.get (y_start N) = y ∧ w'.get (psi_start N) = psi ∧
      w'.get (v_start N) = v ∧ w'.get (cte_start N) = cte ∧ w'.get (epsi_start N) = epsi := by
  simp only [Dvector.get_set, x_start, y_start, psi_start, v_start, cte_start, epsi_start]
  refine ⟨?_, ?_, ?_, ?_, ?_, ?_⟩
  · rw [if_neg (by omega), if_neg (by omega), if_neg (by omega), if_neg (by omega),
      if_neg (by omega), if_pos trivial]
  · rw [if_neg (by omega), if_neg (by omega), if_neg (by omega), if_neg (by omega),
      if_pos trivial]
  · rw [if_neg (by omega), if_neg (by omega), if_neg (by omega), if_pos trivial]
  · rw [if_neg (by omega), if_neg (by omega), if_pos trivial]
  · rw [if_neg (by omega), if_pos trivial]
  · rw [if_pos trivial]


/-- A loop that writes `c` to cell `i` of one vector and `d` to cell `i` of another, for
`lo ≤ i < hi`, fills exactly these cells. -/
theorem forLoop_fill_pair {R : Type} (lo hi : Nat) (c d : R) (b : Dvector R × Dvector R)
    (j : Nat) :
    (forLoop lo hi (fun i (b : Dvector R × Dvector R) => (b.1.set i c, b.2.set i d)) b).1.get j
        = (if lo ≤ j ∧ j < hi then c else b.1.get j) ∧
    (forLoop lo hi (fun i (b : Dvector R × Dvector R) => (b.1.set i c, b.2.set i d)) b).2.get j
        = (if lo ≤ j ∧ j < hi then d else b.2.get j) := by
  rcases Nat.lt_or_ge hi lo with h | h
  · rw [forLoop_of_le lo hi _ b (Nat.le_of_lt h), if_neg (by omega), if_neg (by omega)]
    exact ⟨rfl, rfl⟩
  · refine forLoop_invariant_bounds
      (fun i (s : Dvector R × Dvector R) =>
        s.1.get j = (if lo ≤ j ∧ j < i then c else b.1.get j) ∧
        s.2.get j = (if lo ≤ j ∧ j < i then d else b.2.get j)) lo hi _ b h ?_ ?_
    · beta_reduce
      rw [if_neg (by omega), if_neg (by omega)]
      exact ⟨rfl, rfl⟩
    · intro i s h1 h2 ih
      beta_reduce at ih
      simp only [Dvector.get_set]
      by_cases hj : j = i
      · subst hj
        rw [if_pos rfl, if_pos rfl, if_pos (by omega), if_pos (by omega)]
        exact ⟨rfl, rfl⟩
      · rw [if_neg hj, if_neg hj, ih.1, ih.2]
        by_cases hr : lo ≤ j ∧ j < i
        · rw [if_pos hr, if_pos hr, if_pos (by omega), if_pos (by omega)]
          exact ⟨rfl, rfl⟩
        · rw [if_neg hr, if_neg hr, if_neg (by omega), if_neg (by omega)]
          exact ⟨rfl, rfl⟩

/-- A loop that writes `c` to cell `i` for `lo ≤ i < hi` fills exactly these cells. -/
theorem forLoop_fill {R : Type} (lo hi : Nat) (c : R) (v : Dvector R) (j : Nat) :
    (forLoop lo hi (fun i (v : Dvector R) => v.set i c) v).get j
      = (if lo ≤ j ∧ j < hi then c else v.get j) := by
  rcases Nat.lt_or_ge hi lo with h | h
  · rw [forLoop_of_le lo hi _ v (Nat.le_of_lt h), if_neg (by omega)]
  · refine forLoop_invariant_bounds
      (fun i (s : Dvector R) => s.get j = (if lo ≤ j ∧ j < i then c else v.get j))
      lo hi _ v h ?_ ?_
    · beta_reduce
      rw [if_neg (by omega)]
    · intro i s h1 h2 ih
      beta_reduce at ih
      simp only [Dvector.get_set]
      by_cases hj : j = i
      · subst hj
        rw [if_pos rfl, if_pos (by omega)]
      · rw [if_neg hj, ih]
        by_cases hr : lo ≤ j ∧ j < i
        · rw [if_pos hr, if_pos (by omega)]
        · rw [if_neg hr, if_neg (by omega)]


/-- Two `push_back` leave the cells already there as they were. -/
theorem getElem?_push2_lt {α : Type} (l : List α) (a b : α) (j : Nat) (h : j < l.length) :
    (l ++ [a] ++ [b])[j]? = l[j]? := by
  rw [List.append_assoc, List.getElem?_append_left h]

/-- The first of two `push_back` lands at the old length. -/
theorem getElem?_push2_fst {α : Type} (l : List α) (a b : α) :
    (l ++ [a] ++ [b])[l.length]? = some a := by
  rw [List.append_assoc, List.getElem?_append_right (Nat.le_refl _), Nat.sub_self]
  rfl

/-- The second of two `push_back` lands one past the old length. -/
theorem getElem?_push2_snd {α : Type} (l : List α) (a b : α) :
    (l ++ [a] ++ [b])[l.length + 1]? = some b := by
  rw [List.append_assoc, List.getElem?_append_right (Nat.le_add_right _ _),
    Nat.add_sub_cancel_left]
  rfl

/-- The trajectory loop of lines 252-255 run `n` times appends `2 * n` cells to `acts`:
the pair for pass `i` is (`x[x_start + i + 1]`, `x[y_start + i + 1]`). -/
theorem forLoop_trajectory {R : Type} (N : Nat) (x : Dvector R) (acts : List R) (n : Nat) :
    (forLoop 0 n (trajectory_body N x) acts).length = acts.length + 2 * n ∧
    (∀ j, j < acts.length → (forLoop 0 n (trajectory_body N x) acts)[j]? = acts[j]?) ∧
    (∀ i, i < n →
      (forLoop 0 n (trajectory_body N x) acts)[acts.length + 2 * i]?
        = some (x.get (x_start N + i + 1)) ∧
      (forLoop 0 n (trajectory_body N x) acts)[acts.length + 2 * i + 1]?
        = some (x.get (y_start N + i + 1))) := by
  refine forLoop_invariant_bounds
    (fun k (s : List R) =>
      s.length = acts.length + 2 * k ∧
      (∀ j, j < acts.length → s[j]? = acts[j]?) ∧
      (∀ i, i < k →
        s[acts.length + 2 * i]? = some (x.get (x_start N + i + 1)) ∧
        s[acts.length + 2 * i + 1]? = some (x.get (y_start N + i + 1))))
    0 n _ acts (Nat.zero_le n) ?_ ?_
  · exact ⟨rfl, fun _ _ => rfl, fun i hi => absurd hi (Nat.not_lt_zero i)⟩
  · rintro k s - hk ⟨hlen, hold, hnew⟩
    refine ⟨?_, ?_, ?_⟩
    · simp only [trajectory_body, List.length_append, List.length_singleton]
      omega
    · intro j hj
      simp only [trajectory_body]
      rw [getElem?_push2_lt _ _ _ _ (by omega)]
      exact hold j hj
    · intro i hi
      simp only [trajectory_body]
      by_cases hik : i = k
      · subst hik
        rw [← hlen]
        exact ⟨getElem?_push2_fst _ _ _, getElem?_push2_snd _ _ _⟩
      · rw [getElem?_push2_lt _ _ _ _ (by omega), getElem?_push2_lt _ _ _ _ (by omega)]
        exact hnew i (by omega)

end Loops

section Layout

/-- Claim C3. For every horizon `N ≥ 2` the eight blocks x, y, psi, v, cte, epsi (size `N`),
delta and a (size `N - 1`) follow one another without gap from index 0 up to `n_vars`, their
sizes sum to `N * 6 + (N - 1) * 2 = n_vars`, they are pairwise disjoint, every index below
`n_vars` lies in exactly one of them, and no block reaches beyond `n_vars`. -/
theorem layout_partition (N : Nat) (hN : 2 ≤ N) :
    (x_start N = 0 ∧ y_start N = x_start N + N ∧ psi_start N = y_start N + N ∧
      v_start N = psi_start N + N ∧ cte_start N = v_start N + N ∧
      epsi_start N = cte_start N + N ∧ delta_start N = epsi_start N + N ∧
      a_start N = delta_start N + (N - 1) ∧ n_vars N = a_start N + (N - 1)) ∧
    (((blocks N).map Prod.snd).sum = N * 6 + (N - 1) * 2 ∧ N * 6 + (N - 1) * 2 = n_vars N) ∧
    (blocks N).Pairwise (fun b c => ∀ i, ¬ (inBlock b i ∧ inBlock c i)) ∧
    (∀ i, i < n_vars N → (blocks N).countP (fun b => decide (inBlock b i)) = 1) ∧
    (∀ i, (∃ b ∈ blocks N, inBlock b i) → i < n_vars N) := by
  refine ⟨?_, ?_, ?_, ?_, ?_⟩
  · simp only [x_start, y_start, psi_start, v_start, cte_start, epsi_start, delta_start,
      a_start, n_vars]
    omega
  · refine ⟨?_, rfl⟩
    simp only [blocks, List.map_cons, List.map_nil, List.sum_cons, List.sum_nil]
    omega
  · simp only [blocks, inBlock, x_start, y_start, psi_start, v_start, cte_start, epsi_start,
      delta_start, a_start, List.pairwise_cons, List.mem_cons, List.mem_singleton,
      List.not_mem_nil, forall_eq_or_imp, forall_eq, List.Pairwise.nil, and_true,
      IsEmpty.forall_iff, implies_true]
    refine ⟨⟨?_, ?_, ?_, ?_, ?_, ?_, ?_⟩, ⟨?_, ?_, ?_, ?_, ?_, ?_⟩, ⟨?_, ?_, ?_, ?_, ?_⟩,
      ⟨?_, ?_, ?_, ?_⟩, ⟨?_, ?_, ?_⟩, ⟨?_, ?_⟩, ?_⟩ <;> intro i <;> omega
  · intro i hi
    simp only [blocks, inBlock, x_start, y_start, psi_start, v_start, cte_start, epsi_start,
      delta_start, a_start, n_vars, List.countP_cons, List.countP_nil] at hi ⊢
    simp only [decide_eq_true_eq]
    split_ifs <;> omega
  · rintro i ⟨b, hb, hi⟩
    simp only [blocks, List.mem_cons, List.mem_singleton, List.not_mem_nil, or_false] at hb
    simp only [inBlock] at hi
    simp only [x_start, y_start, psi_start, v_start, cte_start, epsi_start, delta_start,
      a_start, n_vars] at hb ⊢
    rcases hb with h | h | h | h | h | h | h | h <;> subst h <;> simp only at hi <;> omega

/-- Witness for `layout_partition` at the horizon of the file, `N = 10`. -/
theorem layout_partition_witness :
    2 ≤ 10 ∧ n_vars 10 = 78 ∧
      (blocks 10).countP (fun b => decide (inBlock b 69)) = 1 :=
  ⟨by decide, by decide, (layout_partition 10 (by decide)).2.2.2.1 69 (by decide)⟩

end Layout


section Evaluator

variable {R : Type} [LinearOrderedField R]

/-- One pass of the dynamics loop leaves every cell it does not write as it was. -/
theorem dynamics_body_frame (L : Lib R) (p : Params R) (self : FG_eval R) (vars fg : Dvector R)
    (t j : Nat) (hx : j ≠ 1 + x_start p.N + t) (hy : j ≠ 1 + y_start p.N + t)
    (hpsi : j ≠ 1 + psi_start p.N + t) (hv : j ≠ 1 + v_start p.N + t)
    (hcte : j ≠ 1 + cte_start p.N + t) (hepsi : j ≠ 1 + epsi_start p.N + t) :
    (dynamics_body L p self vars t fg).get j = fg.get j := by
  simp [dynamics_body, hx, hy, hpsi, hv, hcte, hepsi]

/-- One pass of the dynamics loop writes the six residuals of its step. -/
theorem dynamics_body_written (L : Lib R) (p : Params R) (self : FG_eval R)
    (vars fg : Dvector R) (t : Nat) (hN : 1 ≤ p.N) :
    residuals_at L p self vars (dynamics_body L p self vars t fg) t := by
  simp only [residuals_at, dynamics_body, Dvector.get_set, x_start, y_start, psi_start, v_start,
    cte_start, epsi_start]
  refine ⟨?_, ?_, ?_, ?_, ?_, ?_⟩
  · rw [if_neg (by omega), if_neg (by omega), if_neg (by omega), if_neg (by omega),
      if_neg (by omega), if_pos trivial]
  · rw [if_neg (by omega), if_neg (by omega), if_neg (by omega), if_neg (by omega), if_pos trivial]
  · rw [if_neg (by omega), if_neg (by omega), if_neg (by omega), if_pos trivial]
  · rw [if_neg (by omega), if_neg (by omega), if_pos trivial]
  · rw [if_neg (by omega), if_pos trivial]
  · rw [if_pos trivial]


/-- A pass of the dynamics loop for step `u` leaves the residual cells of any other step `t`
as they were. -/
theorem dynamics_body_other_step (L : Lib R) (p : Params R) (self : FG_eval R)
    (vars fg : Dvector R) (q t u : Nat) (hq : q < 6) (ht : t < p.N) (hu : u < p.N)
    (hne : t ≠ u) :
    (dynamics_body L p self vars u fg).get (1 + p.N * q + t) = fg.get (1 + p.N * q + t) := by
  apply dynamics_body_frame <;>
    simp only [x_start, y_start, psi_start, v_start, cte_start, epsi_start] <;>
    interval_cases q <;> omega

/-- After the dynamics loop has run for the steps `1, ..., n`, the residual cells of each of
these steps hold the residuals of that step. -/
theorem dynamics_loop_written (L : Lib R) (p : Params R) (self : FG_eval R)
    (vars fg : Dvector R) (n : Nat) (hn : 1 + n ≤ p.N) :
    ∀ t, 1 ≤ t → t < 1 + n →
      residuals_at L p self vars (forLoop 1 (1 + n) (dynamics_body L p self vars) fg) t := by
  refine forLoop_invariant
    (fun k s => ∀ t, 1 ≤ t → t < 1 + k → residuals_at L p self vars s t) 1 n _ fg ?_ ?_
  · intro t h1 h2
    omega
  · intro k s hk ih t h1 h2
    by_cases ht : t = 1 + k
    · subst ht
      exact dynamics_body_written L p self vars s (1 + k) (by omega)
    · have h := ih t h1 (by omega)
      have hfr : ∀ q, q < 6 →
          (dynamics_body L p self vars (1 + k) s).get (1 + p.N * q + t) =
            s.get (1 + p.N * q + t) :=
        fun q hq => dynamics_body_other_step L p self vars s q t (1 + k) hq (by omega)
          (by omega) ht
      simp only [residuals_at, x_start, y_start, psi_start, v_start, cte_start,
        epsi_start] at h ⊢
      rw [hfr 0 (by omega), hfr 1 (by omega), hfr 2 (by omega), hfr 3 (by omega),
        hfr 4 (by omega), hfr 5 (by omega)]
      exact h

/-- Claim C1. For every horizon `N ≥ 2`, every decision vector `vars`, every content of `fg`
on entry and every step `t` with `1 ≤ t < N`, the six cells `fg[1 + q_start + t]` left by
`FG_eval::operator()` hold `q1 - predicted_q1` for the kinematic predictions computed from
the values of step `t - 1`, and each of them is zero exactly when the value of step `t`
equals its prediction. -/
theorem operator_dynamics_residuals (L : Lib R) (p : Params R) (self : FG_eval R)
    (fg vars : Dvector R) (hN : 2 ≤ p.N) (t : Nat) (h1 : 1 ≤ t) (ht : t < p.N) :
    let out := FG_eval.operator L p self fg vars
    let x1 := vars.get (x_start p.N + t)
    let y1 := vars.get (y_start p.N + t)
    let psi1 := vars.get (psi_start p.N + t)
    let v1 := vars.get (v_start p.N + t)
    let cte1 := vars.get (cte_start p.N + t)
    let epsi1 := vars.get (epsi_start p.N + t)
    let x0 := vars.get (x_start p.N + t - 1)
    let y0 := vars.get (y_start p.N + t - 1)
    let psi0 := vars.get (psi_start p.N + t - 1)
    let v0 := vars.get (v_start p.N + t - 1)
    let epsi0 := vars.get (epsi_start p.N + t - 1)
    let delta0 := vars.get (delta_start p.N + t - 1)
    let a0 := vars.get (a_start p.N + t - 1)
    let px := x0 + v0 * L.cos psi0 * p.dt
    let py := y0 + v0 * L.sin psi0 * p.dt
    let ppsi := psi0 + v0 * delta0 * p.dt / p.Lf
    let pv := v0 + a0 * p.dt
    let pcte := (self.polyeval x0 - y0) + v0 * L.sin epsi0 * p.dt
    let pepsi := (psi0 - L.atan (self.d_polyeval x0)) + v0 * delta0 * p.dt / p.Lf
    (out.get (1 + x_start p.N + t) = x1 - px ∧
      out.get (1 + y_start p.N + t) = y1 - py ∧
      out.get (1 + psi_start p.N + t) = psi1 - ppsi ∧
      out.get (1 + v_start p.N + t) = v1 - pv ∧
      out.get (1 + cte_start p.N + t) = cte1 - pcte ∧
      out.get (1 + epsi_start p.N + t) = epsi1 - pepsi) ∧
    ((out.get (1 + x_start p.N + t) = 0 ↔ x1 = px) ∧
      (out.get (1 + y_start p.N + t) = 0 ↔ y1 = py) ∧
      (out.get (1 + psi_start p.N + t) = 0 ↔ psi1 = ppsi) ∧
      (out.get (1 + v_start p.N + t) = 0 ↔ v1 = pv) ∧
      (out.get (1 + cte_start p.N + t) = 0 ↔ cte1 = pcte) ∧
      (out.get (1 + epsi_start p.N + t) = 0 ↔ epsi1 = pepsi)) := by
  intro out x1 y1 psi1 v1 cte1 epsi1 x0 y0 psi0 v0 epsi0 delta0 a0 px py ppsi pv pcte pepsi
  obtain ⟨n, hn⟩ : ∃ n, p.N = 1 + n := ⟨p.N - 1, by omega⟩
  have key : residuals_at L p self vars out t := by
    have h := fun fg0 => dynamics_loop_written L p self vars fg0 n (by omega) t h1 (by omega)
    rw [← hn] at h
    exact h _
  obtain ⟨ex, ey, epsi, ev, ecte, eepsi⟩ := key
  refine ⟨⟨ex, ey, epsi, ev, ecte, eepsi⟩, ?_, ?_, ?_, ?_, ?_, ?_⟩
  · rw [ex]; exact sub_eq_zero
  · rw [ey]; exact sub_eq_zero
  · rw [epsi]; exact sub_eq_zero
  · rw [ev]; exact sub_eq_zero
  · rw [ecte]; exact sub_eq_zero
  · rw [eepsi]; exact sub_eq_zero


/-- Witness for `operator_dynamics_residuals`: horizon 10, the globals of the file, the
decision vector whose cell `i` holds `i`, step 1; the speed residual is `31 - (30 + 69 * 0.1)`. -/
theorem operator_dynamics_residuals_witness :
    (FG_eval.operator (⟨Real.cos, Real.sin, Real.arctan, Real.pi⟩ : Lib ℝ) (globals 10)
      ⟨[0, 1]⟩ (Dvector.alloc 61 (fun _ => 0)) (Dvector.alloc 78 (fun i => (i : ℝ)))).get
        (1 + v_start 10 + 1) = -5.9 := by
  have h := (operator_dynamics_residuals (⟨Real.cos, Real.sin, Real.arctan, Real.pi⟩ : Lib ℝ)
    (globals 10) ⟨[0, 1]⟩ (Dvector.alloc 61 (fun _ => 0))
    (Dvector.alloc 78 (fun i => (i : ℝ))) (by decide) 1 (by decide) (by decide)).1.2.2.2.1
  refine h.trans ?_
  norm_num [globals, v_start, a_start, Dvector.get, Dvector.alloc]

/-- A loop whose body adds `g i` to cell `k` adds the sum of the `g i` to cell `k`. -/
theorem forLoop_accumulate (body : Nat → Dvector R → Dvector R) (g : Nat → R) (k : Nat)
    (hbody : ∀ i s, (body i s).get k = s.get k + g i) (n : Nat) (s : Dvector R) :
    (forLoop 0 n body s).get k = s.get k + ∑ i ∈ Finset.range n, g i := by
  refine forLoop_invariant_bounds
    (fun i s' => s'.get k = s.get k + ∑ j ∈ Finset.range i, g j) 0 n body s (Nat.zero_le n)
    (by simp) ?_
  intro i s' _ _ ih
  rw [hbody, ih, Finset.sum_range_succ, add_assoc]

/-- Cell 0 left by `FG_eval::operator()`, for any values of the globals: the three sums
accumulated by the cost loops. -/
theorem operator_get_zero (L : Lib R) (p : Params R) (self : FG_eval R) (fg vars : Dvector R) :
    (FG_eval.operator L p self fg vars).get 0 =
      (∑ t ∈ Finset.range p.N,
        (vars.get (cte_start p.N + t) ^ 2 + vars.get (epsi_start p.N + t) ^ 2 +
          (vars.get (v_start p.N + t) - p.ref_v) ^ 2)) +
      (∑ t ∈ Finset.range (p.N - 1),
        (vars.get (delta_start p.N + t) ^ 2 + vars.get (a_start p.N + t) ^ 2)) +
      (∑ t ∈ Finset.range (p.N - 2),
        (200 * (vars.get (delta_start p.N + t + 1) - vars.get (delta_start p.N + t)) ^ 2 +
          (vars.get (a_start p.N + t + 1) - vars.get (a_start p.N + t)) ^ 2)) := by
  unfold FG_eval.operator
  simp only []
  rw [forLoop_frame _ 0 1 p.N (fun i s _ _ => dynamics_body_frame L p self vars s i 0
    (by omega) (by omega) (by omega) (by omega) (by omega) (by omega))]
  rw [Dvector.get_set_of_ne _ _ (by omega), Dvector.get_set_of_ne _ _ (by omega),
    Dvector.get_set_of_ne _ _ (by omega), Dvector.get_set_of_ne _ _ (by omega),
    Dvector.get_set_of_ne _ _ (by omega), Dvector.get_set_of_ne _ _ (by omega)]
  rw [forLoop_accumulate (seq_cost_body p vars) _ 0
      (fun i s => by simp only [seq_cost_body, Dvector.get_set, if_true]; rw [add_assoc]),
    forLoop_accumulate (actuator_cost_body p vars) _ 0
      (fun i s => by simp only [actuator_cost_body, Dvector.get_set, if_true]; rw [add_assoc]),
    forLoop_accumulate (ref_cost_body p vars) _ 0
      (fun i s => by
        simp only [ref_cost_body, Dvector.get_set, if_true]; rw [add_assoc, add_assoc,
          ← add_assoc (vars.get (cte_start p.N + i) ^ 2)])]
  simp

/-- Claim C2. For every horizon `N ≥ 2`, every decision vector `vars` and every content of
`fg` on entry, the cost `fg[0]` left by `FG_eval::operator()` under the globals of the file
is the sum over the `N` steps of `cte² + epsi² + (v - 30)²`, plus the sum over the first
`N - 1` steps of `delta² + a²`, plus the sum over the first `N - 2` steps of
`200 * (delta_{t+1} - delta_t)² + (a_{t+1} - a_t)²`, each value read from its own block. -/
theorem operator_cost (L : Lib R) (N : Nat) (self : FG_eval R) (fg vars : Dvector R)
    (_hN : 2 ≤ N) :
    (FG_eval.operator L (globals N) self fg vars).get 0 =
      (∑ t ∈ Finset.range N,
        (vars.get (cte_start N + t) ^ 2 + vars.get (epsi_start N + t) ^ 2 +
          (vars.get (v_start N + t) - 30) ^ 2)) +
      (∑ t ∈ Finset.range (N - 1),
        (vars.get (delta_start N + t) ^ 2 + vars.get (a_start N + t) ^ 2)) +
      (∑ t ∈ Finset.range (N - 2),
        (200 * (vars.get (delta_start N + (t + 1)) - vars.get (delta_start N + t)) ^ 2 +
          (vars.get (a_start N + (t + 1)) - vars.get (a_start N + t)) ^ 2)) :=
  operator_get_zero L (globals N) self fg vars


/-- Witness for `operator_cost`: horizon 3 and the decision vector whose cell `i` holds `i`;
the three sums are 2481, 1526 and 201. -/
theorem operator_cost_witness :
    2 ≤ 3 ∧
    (FG_eval.operator (⟨Real.cos, Real.sin, Real.arctan, Real.pi⟩ : Lib ℝ) (globals 3)
      ⟨[0, 1]⟩ (Dvector.alloc 19 (fun _ => 0)) (Dvector.alloc 22 (fun i => (i : ℝ)))).get 0
        = 4208 := by
  refine ⟨by decide, ?_⟩
  refine (operator_cost (⟨Real.cos, Real.sin, Real.arctan, Real.pi⟩ : Lib ℝ) 3 ⟨[0, 1]⟩
    (Dvector.alloc 19 (fun _ => 0)) (Dvector.alloc 22 (fun i => (i : ℝ))) (by decide)).trans ?_
  norm_num [Finset.sum_range_succ, cte_start, epsi_start, v_start, delta_start, a_start,
    Dvector.get, Dvector.alloc]

end Evaluator


section Builder

variable {R : Type} [LinearOrderedField R]

/-- Claim C4. For every current state and every horizon `N ≥ 2`, in the problem built by
lines 136-203 of `MPC::Solve` the initial guess, the constraint lower bound and the
constraint upper bound at each of the six indices `x_start`, ..., `epsi_start` equal the
component of the state for that quantity (`state[0]`, ..., `state[5]`). -/
theorem Solve_problem_first_step (L : Lib R) (N : Nat) (junk : Nat → Nat → R)
    (state : Dvector R) (hN : 2 ≤ N) :
    let problem := Solve_problem L N junk state
    (problem.vars.get (x_start N) = state.get 0 ∧
      problem.vars.get (y_start N) = state.get 1 ∧
      problem.vars.get (psi_start N) = state.get 2 ∧
      problem.vars.get (v_start N) = state.get 3 ∧
      problem.vars.get (cte_start N) = state.get 4 ∧
      problem.vars.get (epsi_start N) = state.get 5) ∧
    (problem.constraints_lowerbound.get (x_start N) = state.get 0 ∧
      problem.constraints_lowerbound.get (y_start N) = state.get 1 ∧
      problem.constraints_lowerbound.get (psi_start N) = state.get 2 ∧
      problem.constraints_lowerbound.get (v_start N) = state.get 3 ∧
      problem.constraints_lowerbound.get (cte_start N) = state.get 4 ∧
      problem.constraints_lowerbound.get (epsi_start N) = state.get 5) ∧
    (problem.constraints_upperbound.get (x_start N) = state.get 0 ∧
      problem.constraints_upperbound.get (y_start N) = state.get 1 ∧
      problem.constraints_upperbound.get (psi_start N) = state.get 2 ∧
      problem.constraints_upperbound.get (v_start N) = state.get 3 ∧
      problem.constraints_upperbound.get (cte_start N) = state.get 4 ∧
      problem.constraints_upperbound.get (epsi_start N) = state.get 5) := by
  have h1 : 1 ≤ N := by omega
  exact ⟨get_first_step_writes _ N h1 _ _ _ _ _ _, get_first_step_writes _ N h1 _ _ _ _ _ _,
    get_first_step_writes _ N h1 _ _ _ _ _ _⟩

/-- Witness for `Solve_problem_first_step`: horizon 10, the state whose component `i` is
`i + 1`, every fresh vector filled with 7; the initial guess at `v_start` is `state[3] = 4`. -/
theorem Solve_problem_first_step_witness :
    2 ≤ 10 ∧
    (Solve_problem (⟨Real.cos, Real.sin, Real.arctan, Real.pi⟩ : Lib ℝ) 10 (fun _ _ => 7)
      (Dvector.alloc 6 (fun i => (i : ℝ) + 1))).vars.get (v_start 10) = 4 := by
  refine ⟨by decide, ?_⟩
  refine (Solve_problem_first_step (⟨Real.cos, Real.sin, Real.arctan, Real.pi⟩ : Lib ℝ) 10
    (fun _ _ => 7) (Dvector.alloc 6 (fun i => (i : ℝ) + 1)) (by decide)).1.2.2.2.1.trans ?_
  norm_num [Dvector.get, Dvector.alloc]


/-- The variable bounds built by lines 161-179, cell by cell: the three loops fill
`[0, delta_start)`, `[delta_start, a_start)` and `[a_start, n_vars)`. -/
theorem Solve_problem_vars_bounds_get (L : Lib R) (N : Nat) (junk : Nat → Nat → R)
    (state : Dvector R) (hN : 1 ≤ N) (i : Nat) (hi : i < n_vars N) :
    (Solve_problem L N junk state).vars_lowerbound.get i =
        (if i < delta_start N then numeric_limits_lowest
          else if i < a_start N then -25 * L.M_PI / 180 else -1) ∧
    (Solve_problem L N junk state).vars_upperbound.get i =
        (if i < delta_start N then numeric_limits_max
          else if i < a_start N then 25 * L.M_PI / 180 else 1) := by
  have hda : delta_start N ≤ a_start N := by simp only [delta_start, a_start]; omega
  simp only [Solve_problem]
  rw [(forLoop_fill_pair _ _ _ _ _ i).1, (forLoop_fill_pair _ _ _ _ _ i).2,
    (forLoop_fill_pair _ _ _ _ _ i).1, (forLoop_fill_pair _ _ _ _ _ i).2,
    (forLoop_fill_pair _ _ _ _ _ i).1, (forLoop_fill_pair _ _ _ _ _ i).2]
  by_cases h1 : i < delta_start N
  · rw [if_neg (by omega), if_neg (by omega), if_pos (by omega), if_pos h1,
      if_neg (by omega), if_neg (by omega), if_pos (by omega), if_pos h1]
    exact ⟨rfl, rfl⟩
  · by_cases h2 : i < a_start N
    · rw [if_neg (by omega), if_pos (by omega), if_neg h1, if_pos h2,
        if_neg (by omega), if_pos (by omega), if_neg h1, if_pos h2]
      exact ⟨rfl, rfl⟩
    · rw [if_pos (by omega), if_neg h1, if_neg h2, if_pos (by omega), if_neg h1, if_neg h2]
      constructor <;> norm_num

/-- Claim C5. For every horizon `N ≥ 2` the variable bounds built by `MPC::Solve` are
determined by the layout block of the index: every cell of the six state blocks gets the
pair (`lowest()`, `max()`), every cell of the delta block gets `[-25 * M_PI / 180,
25 * M_PI / 180]` and every cell of the a block gets `[-1, 1]`; every index below `n_vars`
falls under exactly one of these three cases. -/
theorem Solve_problem_variable_bounds (L : Lib R) (N : Nat) (junk : Nat → Nat → R)
    (state : Dvector R) (hN : 2 ≤ N) :
    let problem := Solve_problem L N junk state
    (∀ s ∈ state_starts N, ∀ k, k < N →
      problem.vars_lowerbound.get (s + k) = numeric_limits_lowest ∧
      problem.vars_upperbound.get (s + k) = numeric_limits_max) ∧
    (∀ k, k < N - 1 →
      problem.vars_lowerbound.get (delta_start N + k) = -25 * L.M_PI / 180 ∧
      problem.vars_upperbound.get (delta_start N + k) = 25 * L.M_PI / 180) ∧
    (∀ k, k < N - 1 →
      problem.vars_lowerbound.get (a_start N + k) = -1 ∧
      problem.vars_upperbound.get (a_start N + k) = 1) ∧
    (∀ i, i < n_vars N →
      (i < delta_start N ∧ problem.vars_lowerbound.get i = numeric_limits_lowest ∧
        problem.vars_upperbound.get i = numeric_limits_max) ∨
      (delta_start N ≤ i ∧ i < a_start N ∧
        problem.vars_lowerbound.get i = -25 * L.M_PI / 180 ∧
        problem.vars_upperbound.get i = 25 * L.M_PI / 180) ∨
      (a_start N ≤ i ∧ problem.vars_lowerbound.get i = -1 ∧
        problem.vars_upperbound.get i = 1)) := by
  intro problem
  have key := Solve_problem_vars_bounds_get L N junk state (by omega)
  refine ⟨?_, ?_, ?_, ?_⟩
  · intro s hs k hk
    have hlt : s + k < delta_start N := by
      simp only [state_starts, List.mem_cons, List.mem_singleton, List.not_mem_nil,
        or_false, x_start, y_start, psi_start, v_start, cte_start, epsi_start] at hs
      simp only [delta_start]
      omega
    have h := key (s + k) (by simp only [n_vars, delta_start] at hlt ⊢; omega)
    rw [if_pos hlt, if_pos hlt] at h
    exact h
  · intro k hk
    have h := key (delta_start N + k) (by simp only [n_vars, delta_start]; omega)
    rw [if_neg (by omega), if_pos (by simp only [delta_start, a_start]; omega),
      if_neg (by omega), if_pos (by simp only [delta_start, a_start]; omega)] at h
    exact h
  · intro k hk
    have h := key (a_start N + k) (by simp only [n_vars, a_start]; omega)
    rw [if_neg (by simp only [delta_start, a_start]; omega), if_neg (by omega),
      if_neg (by simp only [delta_start, a_start]; omega), if_neg (by omega)] at h
    exact h
  · intro i hi
    have h := key i hi
    by_cases h1 : i < delta_start N
    · rw [if_pos h1, if_pos h1] at h
      exact Or.inl ⟨h1, h⟩
    · by_cases h2 : i < a_start N
      · rw [if_neg h1, if_pos h2, if_neg h1, if_pos h2] at h
        exact Or.inr (Or.inl ⟨by omega, h2, h⟩)
      · rw [if_neg h1, if_neg h2, if_neg h1, if_neg h2] at h
        exact Or.inr (Or.inr ⟨by omega, h⟩)

/-- Witness for `Solve_problem_variable_bounds`: horizon 10; the last steering cell, index
`delta_start + 8 = 68`, has upper bound `25 * π / 180`. -/
theorem Solve_problem_variable_bounds_witness :
    2 ≤ 10 ∧
    (Solve_problem (⟨Real.cos, Real.sin, Real.arctan, Real.pi⟩ : Lib ℝ) 10 (fun _ _ => 7)
      (Dvector.alloc 6 (fun i => (i : ℝ) + 1))).vars_upperbound.get (delta_start 10 + 8)
        = 25 * Real.pi / 180 :=
  ⟨by decide, ((Solve_problem_variable_bounds (⟨Real.cos, Real.sin, Real.arctan, Real.pi⟩ : Lib ℝ)
    10 (fun _ _ => 7) (Dvector.alloc 6 (fun i => (i : ℝ) + 1)) (by decide)).2.1 8
      (by decide)).2⟩

end Builder


section Extraction

variable {R : Type} [LinearOrderedField R]

variable [FloorRing R]

/-- Path of `MPC::Solve` when the solver reports success and the assertion holds. -/
theorem Solve_of_success (L : Lib R) (p : Params R) (solve : Solver R) (junk : Nat → Nat → R)
    (state : Dvector R) (coeffs : List R) (latency : Nat)
    (hs : (Solve_solution L p solve junk state coeffs).status = status_type.success)
    (hoff : latency_offset p.dt latency < p.N - 1) :
    Solve L p solve junk state coeffs latency =
      Outcome.returned
        (forLoop 0 (p.N - 1) (trajectory_body p.N (Solve_solution L p solve junk state coeffs).x)
          [(Solve_solution L p solve junk state coeffs).x.get
              (delta_start p.N + latency_offset p.dt latency),
            (Solve_solution L p solve junk state coeffs).x.get
              (a_start p.N + latency_offset p.dt latency)]) := by
  simp [Solve, hs, hoff]

/-- Path of `MPC::Solve` when the solver reports success and the assertion fails. -/
theorem Solve_of_success_assert (L : Lib R) (p : Params R) (solve : Solver R)
    (junk : Nat → Nat → R) (state : Dvector R) (coeffs : List R) (latency : Nat)
    (hs : (Solve_solution L p solve junk state coeffs).status = status_type.success)
    (hoff : ¬ latency_offset p.dt latency < p.N - 1) :
    Solve L p solve junk state coeffs latency = Outcome.assert_failed := by
  simp [Solve, hs, hoff]

/-- Path of `MPC::Solve` when the solver reports anything but success. -/
theorem Solve_of_failure (L : Lib R) (p : Params R) (solve : Solver R) (junk : Nat → Nat → R)
    (state : Dvector R) (coeffs : List R) (latency : Nat)
    (hs : (Solve_solution L p solve junk state coeffs).status ≠ status_type.success) :
    Solve L p solve junk state coeffs latency = Outcome.returned [] := by
  simp [Solve, hs]

/-- With `dt = 0.1` the latency offset is the integer quotient of the latency by 100. -/
theorem latency_offset_globals (N latency : Nat) :
    latency_offset (globals N : Params R).dt latency = latency / 100 := by
  have h : (1000 * (globals N : Params R).dt) = ((100 : ℕ) : R) := by
    norm_num [globals]
  rw [latency_offset, h, Nat.floor_div_eq_div]


/-- Claim C6. For every horizon `N ≥ 2`, whenever the solver reports success with decision
vector `sol` and the latency offset is below `N - 1`, `MPC::Solve` returns a sequence of
length `2 + 2 * (N - 1)` whose cells 0 and 1 are `sol[delta_start + offset]` and
`sol[a_start + offset]` and whose cells `2k`, `2k + 1` are `sol[x_start + k]`,
`sol[y_start + k]` for every `k` in `1 .. N - 1`. -/
theorem Solve_success_output (L : Lib R) (p : Params R) (solve : Solver R)
    (junk : Nat → Nat → R) (state : Dvector R) (coeffs : List R) (latency : Nat)
    (_hN : 2 ≤ p.N)
    (hs : (Solve_solution L p solve junk state coeffs).status = status_type.success)
    (hoff : latency_offset p.dt latency < p.N - 1) :
    let sol := (Solve_solution L p solve junk state coeffs).x
    ∃ actuations : List R,
      Solve L p solve junk state coeffs latency = Outcome.returned actuations ∧
      actuations.length = 2 + 2 * (p.N - 1) ∧
      actuations[0]? = some (sol.get (delta_start p.N + latency_offset p.dt latency)) ∧
      actuations[1]? = some (sol.get (a_start p.N + latency_offset p.dt latency)) ∧
      ∀ k, 1 ≤ k → k ≤ p.N - 1 →
        actuations[2 * k]? = some (sol.get (x_start p.N + k)) ∧
        actuations[2 * k + 1]? = some (sol.get (y_start p.N + k)) := by
  intro sol
  obtain ⟨hlen, hold, hnew⟩ := forLoop_trajectory p.N sol
    [sol.get (delta_start p.N + latency_offset p.dt latency),
      sol.get (a_start p.N + latency_offset p.dt latency)] (p.N - 1)
  refine ⟨_, Solve_of_success L p solve junk state coeffs latency hs hoff, hlen,
    (hold 0 (by simp)).trans rfl, (hold 1 (by simp)).trans rfl, ?_⟩
  intro k h1 hk
  obtain ⟨i, rfl⟩ : ∃ i, k = i + 1 := ⟨k - 1, by omega⟩
  have h := hnew i (by omega)
  have e1 : 2 * (i + 1) = [sol.get (delta_start p.N + latency_offset p.dt latency),
      sol.get (a_start p.N + latency_offset p.dt latency)].length + 2 * i := by
    simp only [List.length_cons, List.length_nil]
    omega
  rw [e1]
  exact ⟨h.1, h.2⟩

/-- Witness for `Solve_success_output`: horizon 10, latency 100 (offset 1), a solver stub that
reports success with the vector whose cell `i` holds `i`; the steering returned is cell 61
and the first predicted point is (cell 1, cell 11). -/
theorem Solve_success_output_witness :
    ∃ actuations : List ℝ,
      Solve (⟨Real.cos, Real.sin, Real.arctan, Real.pi⟩ : Lib ℝ) (globals 10)
        (stub_solver status_type.success (Dvector.alloc 78 (fun i => (i : ℝ))))
        (fun _ _ => 7) (Dvector.alloc 6 (fun _ => 0)) [0, 1] 100
          = Outcome.returned actuations ∧
      actuations.length = 20 ∧ actuations[0]? = some 61 ∧ actuations[1]? = some 70 ∧
      actuations[2]? = some 1 ∧ actuations[3]? = some 11 := by
  have hoff : latency_offset (globals 10 : Params ℝ).dt 100 = 1 := by
    rw [latency_offset_globals]
  obtain ⟨acts, h1, h2, h3, h4, h5⟩ := Solve_success_output
    (⟨Real.cos, Real.sin, Real.arctan, Real.pi⟩ : Lib ℝ) (globals 10)
    (stub_solver status_type.success (Dvector.alloc 78 (fun i => (i : ℝ))))
    (fun _ _ => 7) (Dvector.alloc 6 (fun _ => 0)) [0, 1] 100 (by decide) rfl
    (by rw [hoff]; decide)
  have h6 := h5 1 (by decide) (by decide)
  rw [hoff] at h3 h4
  refine ⟨acts, h1, h2, h3.trans ?_, h4.trans ?_, h6.1.trans ?_, h6.2.trans ?_⟩ <;>
    norm_num [Solve_solution, stub_solver, Dvector.get, Dvector.alloc, globals, delta_start,
      a_start, x_start, y_start]

/-- Claim C7. For every successful solve whose decision vector respects the variable bounds
`MPC::Solve` handed to the solver, and every latency whose offset is below `N - 1`, the
steering value returned lies in `[-25 * M_PI / 180, 25 * M_PI / 180]` and the acceleration
value returned lies in `[-1, 1]`; the two indices used for the extraction lie in the delta
block and in the a block. -/
theorem Solve_actuation_bounds (L : Lib R) (p : Params R) (solve : Solver R)
    (junk : Nat → Nat → R) (state : Dvector R) (coeffs : List R) (latency : Nat)
    (hs : (Solve_solution L p solve junk state coeffs).status = status_type.success)
    (hb : ∀ i, i < n_vars p.N →
      (Solve_problem L p.N junk state).vars_lowerbound.get i
          ≤ (Solve_solution L p solve junk state coeffs).x.get i ∧
        (Solve_solution L p solve junk state coeffs).x.get i
          ≤ (Solve_problem L p.N junk state).vars_upperbound.get i)
    (hoff : latency_offset p.dt latency < p.N - 1) :
    (inBlock (delta_start p.N, p.N - 1) (delta_start p.N + latency_offset p.dt latency) ∧
      inBlock (a_start p.N, p.N - 1) (a_start p.N + latency_offset p.dt latency)) ∧
    ∃ (delta a : R) (rest : List R),
      Solve L p solve junk state coeffs latency = Outcome.returned (delta :: a :: rest) ∧
      (-25 * L.M_PI / 180 ≤ delta ∧ delta ≤ 25 * L.M_PI / 180) ∧ (-1 ≤ a ∧ a ≤ 1) := by
  have hN : 1 ≤ p.N := by omega
  refine ⟨⟨⟨Nat.le_add_right _ _, by omega⟩, ⟨Nat.le_add_right _ _, by omega⟩⟩, ?_⟩
  obtain ⟨hlen, hold, -⟩ := forLoop_trajectory p.N (Solve_solution L p solve junk state coeffs).x
    [(Solve_solution L p solve junk state coeffs).x.get
        (delta_start p.N + latency_offset p.dt latency),
      (Solve_solution L p solve junk state coeffs).x.get
        (a_start p.N + latency_offset p.dt latency)] (p.N - 1)
  have hret := Solve_of_success L p solve junk state coeffs latency hs hoff
  generalize forLoop 0 (p.N - 1) (trajectory_body p.N (Solve_solution L p solve junk state coeffs).x)
    [(Solve_solution L p solve junk state coeffs).x.get
        (delta_start p.N + latency_offset p.dt latency),
      (Solve_solution L p solve junk state coeffs).x.get
        (a_start p.N + latency_offset p.dt latency)] = acts at hlen hold hret
  have h0 := hold 0 (by simp)
  have h1 := hold 1 (by simp)
  match acts, h0, h1 with
  | delta :: a :: rest, h0, h1 =>
    simp only [List.getElem?_cons_zero, List.getElem?_cons_succ, Option.some.injEq] at h0 h1
    refine ⟨delta, a, rest, hret, ?_, ?_⟩
    · have hi : delta_start p.N + latency_offset p.dt latency < n_vars p.N := by
        simp only [delta_start, n_vars]
        omega
      have hg := Solve_problem_vars_bounds_get L p.N junk state hN _ hi
      have hbd := hb _ hi
      rw [hg.1, hg.2, if_neg (by omega), if_pos (by simp only [delta_start, a_start]; omega),
        if_neg (by omega), if_pos (by simp only [delta_start, a_start]; omega), ← h0] at hbd
      exact hbd
    · have hi : a_start p.N + latency_offset p.dt latency < n_vars p.N := by
        simp only [a_start, n_vars]
        omega
      have hg := Solve_problem_vars_bounds_get L p.N junk state hN _ hi
      have hbd := hb _ hi
      rw [hg.1, hg.2, if_neg (by simp only [delta_start, a_start]; omega), if_neg (by omega),
        if_neg (by simp only [delta_start, a_start]; omega), if_neg (by omega), ← h1] at hbd
      exact hbd


/-- Witness for `Solve_actuation_bounds`: horizon 10, latency 100, a solver stub that reports
success with every cell equal to `1 / 4`, which respects all the variable bounds. -/
theorem Solve_actuation_bounds_witness :
    ∃ (delta a : ℝ) (rest : List ℝ),
      Solve (⟨Real.cos, Real.sin, Real.arctan, Real.pi⟩ : Lib ℝ) (globals 10)
        (stub_solver status_type.success (Dvector.alloc 78 (fun _ => (1 / 4 : ℝ))))
        (fun _ _ => 7) (Dvector.alloc 6 (fun _ => 0)) [0, 1] 100
          = Outcome.returned (delta :: a :: rest) ∧
      (-25 * Real.pi / 180 ≤ delta ∧ delta ≤ 25 * Real.pi / 180) ∧ (-1 ≤ a ∧ a ≤ 1) := by
  have hoff : latency_offset (globals 10 : Params ℝ).dt 100 = 1 := by
    rw [latency_offset_globals]
  refine (Solve_actuation_bounds (⟨Real.cos, Real.sin, Real.arctan, Real.pi⟩ : Lib ℝ)
    (globals 10) (stub_solver status_type.success (Dvector.alloc 78 (fun _ => (1 / 4 : ℝ))))
    (fun _ _ => 7) (Dvector.alloc 6 (fun _ => 0)) [0, 1] 100 rfl ?_
    (by rw [hoff]; decide)).2
  intro i hi
  have hg := Solve_problem_vars_bounds_get (⟨Real.cos, Real.sin, Real.arctan, Real.pi⟩ : Lib ℝ)
    10 (fun _ _ => 7) (Dvector.alloc 6 (fun _ => 0)) (by decide) i hi
  have hpi := Real.pi_gt_three
  have hx : (Solve_solution (⟨Real.cos, Real.sin, Real.arctan, Real.pi⟩ : Lib ℝ) (globals 10)
      (stub_solver status_type.success (Dvector.alloc 78 (fun _ => (1 / 4 : ℝ))))
      (fun _ _ => 7) (Dvector.alloc 6 (fun _ => 0)) [0, 1]).x.get i = 1 / 4 := rfl
  have hmax : (1 / 4 : ℝ) ≤ numeric_limits_max := by
    have h : (2 : ℝ) ^ 971 * 2 ≤ 2 ^ 1024 := by
      rw [← pow_succ]
      exact pow_le_pow_right₀ (by norm_num) (by norm_num)
    have h1 : (1 : ℝ) ≤ 2 ^ 971 := one_le_pow₀ (by norm_num)
    simp only [numeric_limits_max]
    linarith
  have hlow : (numeric_limits_lowest : ℝ) ≤ 1 / 4 := by
    have h : (numeric_limits_lowest : ℝ) = -numeric_limits_max := rfl
    rw [h]
    linarith
  rw [hx]
  show (Solve_problem _ 10 _ _).vars_lowerbound.get i ≤ 1 / 4 ∧
    1 / 4 ≤ (Solve_problem _ 10 _ _).vars_upperbound.get i
  rw [hg.1, hg.2]
  split_ifs <;> constructor <;> linarith

/-- Claim C8. For every state, coefficient sequence and latency, when the solver reports any
status other than success, `MPC::Solve` returns the empty sequence: the value does not depend
on the latency (so the offset is neither computed nor checked, even for a latency that fails
the assertion) nor on the decision vector in the solver result. -/
theorem Solve_failure_output (L : Lib R) (p : Params R) (solve : Solver R)
    (junk : Nat → Nat → R) (state : Dvector R) (coeffs : List R)
    (hs : (Solve_solution L p solve junk state coeffs).status ≠ status_type.success) :
    ∀ latency : Nat, Solve L p solve junk state coeffs latency = Outcome.returned [] :=
  fun latency => Solve_of_failure L p solve junk state coeffs latency hs

/-- Witness for `Solve_failure_output`: horizon 10, a solver stub that reports
`maxiter_exceeded`, latency 5000 (offset 50, far beyond the horizon). -/
theorem Solve_failure_output_witness :
    Solve (⟨Real.cos, Real.sin, Real.arctan, Real.pi⟩ : Lib ℝ) (globals 10)
      (stub_solver status_type.maxiter_exceeded (Dvector.alloc 78 (fun i => (i : ℝ))))
      (fun _ _ => 7) (Dvector.alloc 6 (fun _ => 0)) [0, 1] 5000 = Outcome.returned [] :=
  Solve_failure_output (⟨Real.cos, Real.sin, Real.arctan, Real.pi⟩ : Lib ℝ) (globals 10)
    (stub_solver status_type.maxiter_exceeded (Dvector.alloc 78 (fun i => (i : ℝ))))
    (fun _ _ => 7) (Dvector.alloc 6 (fun _ => 0)) [0, 1] (by decide) 5000

/-- Claim C9, as stated, fails. Horizon 10, `dt = 0.1`, latency 900: the offset is 9, outside
`[0, 8]`. With a solver that reports success `MPC::Solve` does not return at all, the
assertion of line 247 fails; with a solver that reports `maxiter_exceeded` on the same input
it returns the empty sequence. So the invalid latency is not reported by a return value, and
what happens is decided only after the solver has run. -/
theorem Solve_invalid_latency_counterexample :
    ¬ (latency_offset (globals 10 : Params ℝ).dt 900 < (globals 10 : Params ℝ).N - 1) ∧
    Solve (⟨Real.cos, Real.sin, Real.arctan, Real.pi⟩ : Lib ℝ) (globals 10)
      (stub_solver status_type.success (Dvector.alloc 78 (fun _ => 0)))
      (fun _ _ => 0) (Dvector.alloc 6 (fun _ => 0)) [0, 1] 900 = Outcome.assert_failed ∧
    Solve (⟨Real.cos, Real.sin, Real.arctan, Real.pi⟩ : Lib ℝ) (globals 10)
      (stub_solver status_type.maxiter_exceeded (Dvector.alloc 78 (fun _ => 0)))
      (fun _ _ => 0) (Dvector.alloc 6 (fun _ => 0)) [0, 1] 900 = Outcome.returned [] := by
  have hoff : ¬ (latency_offset (globals 10 : Params ℝ).dt 900
      < (globals 10 : Params ℝ).N - 1) := by
    rw [latency_offset_globals]
    decide
  exact ⟨hoff, Solve_of_success_assert _ _ _ _ _ _ _ rfl hoff,
    Solve_of_failure _ _ _ _ _ _ _ (by decide)⟩

/-- Claim C9, amended. For every latency whose offset is not below `N - 1`: if the solver
reports success, `MPC::Solve` ends in the failed assertion of line 247 and returns nothing;
if the solver reports any other status, it returns the empty sequence. In neither case is
a value of the decision vector returned. -/
theorem Solve_invalid_latency (L : Lib R) (p : Params R) (solve : Solver R)
    (junk : Nat → Nat → R) (state : Dvector R) (coeffs : List R) (latency : Nat)
    (hoff : ¬ latency_offset p.dt latency < p.N - 1) :
    Solve L p solve junk state coeffs latency =
      if (Solve_solution L p solve junk state coeffs).status = status_type.success
      then Outcome.assert_failed else Outcome.returned [] := by
  by_cases hs : (Solve_solution L p solve junk state coeffs).status = status_type.success
  · rw [if_pos hs]
    exact Solve_of_success_assert L p solve junk state coeffs latency hs hoff
  · rw [if_neg hs]
    exact Solve_of_failure L p solve junk state coeffs latency hs

/-- Witness for `Solve_invalid_latency`: horizon 10, latency 1234 (offset 12), a solver stub
that reports success. -/
theorem Solve_invalid_latency_witness :
    ¬ (latency_offset (globals 10 : Params ℝ).dt 1234 < (globals 10 : Params ℝ).N - 1) ∧
    Solve (⟨Real.cos, Real.sin, Real.arctan, Real.pi⟩ : Lib ℝ) (globals 10)
      (stub_solver status_type.success (Dvector.alloc 78 (fun i => (i : ℝ))))
      (fun _ _ => 7) (Dvector.alloc 6 (fun _ => 0)) [0, 1] 1234 = Outcome.assert_failed := by
  have hoff : ¬ (latency_offset (globals 10 : Params ℝ).dt 1234
      < (globals 10 : Params ℝ).N - 1) := by
    rw [latency_offset_globals]
    decide
  exact ⟨hoff, (Solve_invalid_latency (⟨Real.cos, Real.sin, Real.arctan, Real.pi⟩ : Lib ℝ)
    (globals 10) (stub_solver status_type.success (Dvector.alloc 78 (fun i => (i : ℝ))))
    (fun _ _ => 7) (Dvector.alloc 6 (fun _ => 0)) [0, 1] 1234 hoff).trans (if_pos rfl)⟩

/-- Claim C10. With `dt = 0.1` and `N = 10`, for every latency (an unsigned integer) the
offset computed by line 245 is the integer part of `latency / (1000 * dt)`, which is the
integer part of `latency / 100`, that is the integer quotient of the latency by 100; latency
100 gives offset 1, latency 0 gives offset 0, and the offset is below `N - 1` exactly when
the latency is below 900. -/
theorem latency_offset_default (latency : Nat) :
    latency_offset (globals 10 : Params R).dt latency
        = ⌊(latency : R) / (1000 * (globals 10 : Params R).dt)⌋₊ ∧
    latency_offset (globals 10 : Params R).dt latency = ⌊(latency : R) / 100⌋₊ ∧
    latency_offset (globals 10 : Params R).dt latency = latency / 100 ∧
    latency_offset (globals 10 : Params R).dt 100 = 1 ∧
    latency_offset (globals 10 : Params R).dt 0 = 0 ∧
    (latency_offset (globals 10 : Params R).dt latency < (globals 10 : Params R).N - 1
      ↔ latency < 900) := by
  have h100 : (1000 * (globals 10 : Params R).dt) = 100 := by norm_num [globals]
  refine ⟨rfl, ?_, latency_offset_globals 10 latency, ?_, ?_, ?_⟩
  · rw [latency_offset, h100]
  · rw [latency_offset_globals]
  · rw [latency_offset_globals]
  · rw [latency_offset_globals]
    show latency / 100 < 10 - 1 ↔ latency < 900
    omega

end Extraction


section Polynomial

/-- A loop that adds `g i` to a number, for `lo ≤ i < lo + n`, adds the sum of the `g i`. -/
theorem forLoop_sum {R : Type} [AddCommMonoid R] (g : Nat → R) (lo n : Nat) (r : R) :
    forLoop lo (lo + n) (fun i result => result + g i) r
      = r + ∑ i ∈ Finset.range n, g (lo + i) := by
  refine forLoop_invariant
    (fun k s => s = r + ∑ i ∈ Finset.range k, g (lo + i)) lo n _ r (by simp) ?_
  intro k s _ ih
  rw [ih, Finset.sum_range_succ, add_assoc]

variable {R : Type} [LinearOrderedField R]

/-- Method `polyeval` computes the sum of `coeffs[i] * x ^ i` over all the coefficients. -/
theorem polyeval_eq_sum (self : FG_eval R) (x : R) :
    self.polyeval x = ∑ i ∈ Finset.range self.coeffs.length, self.coeffs.getD i 0 * x ^ i := by
  have h := forLoop_sum (fun i => self.coeffs.getD i 0 * x ^ i) 0 self.coeffs.length 0
  simp only [Nat.zero_add, zero_add] at h
  exact h

/-- Method `d_polyeval` computes the sum of `coeffs[i] * x ^ (i - 1) * i` over the
coefficients from the second one on; it is 0 for fewer than two coefficients. -/
theorem d_polyeval_eq_sum (self : FG_eval R) (x : R) :
    self.d_polyeval x = ∑ i ∈ Finset.range (self.coeffs.length - 1),
      self.coeffs.getD (i + 1) 0 * x ^ i * ((i + 1 : Nat) : R) := by
  rcases Nat.eq_zero_or_pos self.coeffs.length with h0 | hpos
  · rw [FG_eval.d_polyeval, h0, forLoop_of_le 1 0 _ _ (Nat.zero_le 1)]
    simp
  · obtain ⟨n, hn⟩ : ∃ n, self.coeffs.length = 1 + n := ⟨self.coeffs.length - 1, by omega⟩
    have h := forLoop_sum (fun i => self.coeffs.getD i 0 * x ^ (i - 1) * (i : R)) 1 n 0
    rw [FG_eval.d_polyeval, hn, h, zero_add, Nat.add_sub_cancel_left]
    refine Finset.sum_congr rfl (fun i _ => ?_)
    rw [Nat.add_comm 1 i, Nat.add_sub_cancel]

/-- Claim C11. For every coefficient sequence `c` (lowest degree first, the empty one and the
one of length 1 included) and every real `x`: `polyeval` is the function
`t ↦ Σ c[i] * t ^ i`, `d_polyeval(c, x)` is its derivative at `x`, and hence the difference
quotient `(polyeval(x + h) - polyeval(x)) / h` tends to `d_polyeval(c, x)` as `h → 0`. -/
theorem d_polyeval_is_derivative (c : List ℝ) (x : ℝ) :
    (∀ t : ℝ, FG_eval.polyeval ⟨c⟩ t = ∑ i ∈ Finset.range c.length, c.getD i 0 * t ^ i) ∧
    HasDerivAt (fun t : ℝ => FG_eval.polyeval ⟨c⟩ t) (FG_eval.d_polyeval ⟨c⟩ x) x ∧
    Filter.Tendsto
      (fun h : ℝ => (FG_eval.polyeval ⟨c⟩ (x + h) - FG_eval.polyeval ⟨c⟩ x) / h)
      (nhdsWithin 0 {0}ᶜ) (nhds (FG_eval.d_polyeval ⟨c⟩ x)) := by
  have hderiv : HasDerivAt (fun t : ℝ => FG_eval.polyeval ⟨c⟩ t)
      (FG_eval.d_polyeval ⟨c⟩ x) x := by
    have hfun : (fun t : ℝ => FG_eval.polyeval ⟨c⟩ t)
        = fun t => ∑ i ∈ Finset.range c.length, c.getD i 0 * t ^ i :=
      funext (fun t => polyeval_eq_sum ⟨c⟩ t)
    have hsum : HasDerivAt (fun t : ℝ => ∑ i ∈ Finset.range c.length, c.getD i 0 * t ^ i)
        (∑ i ∈ Finset.range c.length, c.getD i 0 * ((i : ℝ) * x ^ (i - 1))) x :=
      HasDerivAt.sum (fun i _ => (hasDerivAt_pow i x).const_mul (c.getD i 0))
    rw [hfun]
    convert hsum using 1
    rw [d_polyeval_eq_sum]
    rcases Nat.eq_zero_or_pos c.length with h0 | hpos
    · simp [h0]
    · obtain ⟨n, hn⟩ : ∃ n, c.length = n + 1 := ⟨c.length - 1, by omega⟩
      simp only [hn, Nat.add_sub_cancel, Finset.sum_range_succ' _ n, Nat.cast_zero, zero_mul,
        mul_zero, add_zero]
      refine Finset.sum_congr rfl (fun i _ => ?_)
      ring
  refine ⟨fun t => polyeval_eq_sum ⟨c⟩ t, hderiv, ?_⟩
  have h := hasDerivAt_iff_tendsto_slope_zero.mp hderiv
  refine h.congr (fun t => ?_)
  rw [smul_eq_mul, div_eq_inv_mul]

end Polynomial


section TraceBasics

variable {R : Type}

/-- Assignments in a row compose. -/
theorem apply_writes_append (a b : List (Nat × R)) (fg : Dvector R) :
    apply_writes (a ++ b) fg = apply_writes b (apply_writes a fg) := by
  simp [apply_writes, List.foldl_append]

/-- A cell that no assignment addresses keeps its content. -/
theorem apply_writes_get_of_not_mem (ws : List (Nat × R)) (fg : Dvector R) (j : Nat)
    (hj : j ∉ ws.map Prod.fst) : (apply_writes ws fg).get j = fg.get j := by
  induction ws generalizing fg with
  | nil => rfl
  | cons w ws ih =>
    simp only [List.map_cons, List.mem_cons, not_or] at hj
    have h := ih (fg.set w.1 w.2) hj.2
    simp only [apply_writes, List.foldl_cons] at h ⊢
    rw [h, Dvector.get_set_of_ne _ _ hj.1]

/-- When no cell is assigned twice, every assigned cell ends up with the value assigned. -/
theorem apply_writes_get_of_mem (ws : List (Nat × R)) (fg : Dvector R)
    (hnd : (ws.map Prod.fst).Nodup) (w : Nat × R) (hw : w ∈ ws) :
    (apply_writes ws fg).get w.1 = w.2 := by
  induction ws generalizing fg with
  | nil => exact absurd hw (List.not_mem_nil w)
  | cons a ws ih =>
    simp only [List.map_cons, List.nodup_cons] at hnd
    rcases List.mem_cons.mp hw with h | h
    · subst h
      have h1 := apply_writes_get_of_not_mem ws (fg.set w.1 w.2) w.1 hnd.1
      simp only [apply_writes, List.foldl_cons] at h1 ⊢
      rw [h1, Dvector.get_set_self]
    · have h1 := ih (fg.set a.1 a.2) hnd.2 h
      simp only [apply_writes, List.foldl_cons] at h1 ⊢
      exact h1

/-- A loop whose pass `t` carries out the assignments `f t` carries out all of them in
order. -/
theorem forLoop_eq_apply_writes (f : Nat → List (Nat × R)) (lo hi : Nat) (fg : Dvector R) :
    forLoop lo hi (fun t fg => apply_writes (f t) fg) fg
      = apply_writes ((List.range' lo (hi - lo)).flatMap f) fg := by
  unfold forLoop
  generalize List.range' lo (hi - lo) = l
  induction l generalizing fg with
  | nil => rfl
  | cons t l ih =>
    rw [List.foldl_cons, ih, List.flatMap_cons, apply_writes_append]

end TraceBasics

section Traces

variable {R : Type} [LinearOrderedField R]

/-- The body of the dynamics loop is its list of assignments. -/
theorem dynamics_body_eq_writes (L : Lib R) (p : Params R) (self : FG_eval R)
    (vars : Dvector R) (t : Nat) (fg : Dvector R) :
    dynamics_body L p self vars t fg = apply_writes (dynamics_writes L p self vars t) fg :=
  rfl

/-- Method `FG_eval::operator()` is the cost stage followed by the constraint assignments of
the trace `constraint_writes`. -/
theorem operator_eq_apply_writes (L : Lib R) (p : Params R) (self : FG_eval R)
    (fg vars : Dvector R) :
    FG_eval.operator L p self fg vars
      = apply_writes (constraint_writes L p self vars) (cost_stage p fg vars) := by
  have hloop : ∀ s, forLoop 1 p.N (dynamics_body L p self vars) s
      = apply_writes ((List.range' 1 (p.N - 1)).flatMap (dynamics_writes L p self vars)) s :=
    fun s => forLoop_eq_apply_writes (dynamics_writes L p self vars) 1 p.N s
  rw [constraint_writes, apply_writes_append, ← hloop]
  rfl


/-- The cells addressed by the constraint assignments, in program order. -/
theorem constraint_writes_indices (L : Lib R) (p : Params R) (self : FG_eval R)
    (vars : Dvector R) :
    (constraint_writes L p self vars).map Prod.fst =
      [1 + p.N * 0, 1 + p.N * 1, 1 + p.N * 2, 1 + p.N * 3, 1 + p.N * 4, 1 + p.N * 5] ++
      (List.range' 1 (p.N - 1)).flatMap (fun t =>
        [1 + p.N * 0 + t, 1 + p.N * 1 + t, 1 + p.N * 2 + t, 1 + p.N * 3 + t,
          1 + p.N * 4 + t, 1 + p.N * 5 + t]) := by
  rw [constraint_writes, List.map_append, List.map_flatMap]
  rfl

/-- A constraint cell is assigned exactly when its index lies in `[1, N * 6]`. -/
theorem mem_constraint_writes_indices (L : Lib R) (p : Params R) (self : FG_eval R)
    (vars : Dvector R) (hN : 1 ≤ p.N) (j : Nat) :
    j ∈ (constraint_writes L p self vars).map Prod.fst ↔ 1 ≤ j ∧ j ≤ p.N * 6 := by
  rw [constraint_writes_indices]
  simp only [List.mem_append, List.mem_flatMap, List.mem_range'_1, List.mem_cons,
    List.mem_singleton, List.not_mem_nil, or_false]
  constructor
  · rintro (h | ⟨t, ht, h⟩) <;> omega
  · rintro ⟨h1, h2⟩
    obtain ⟨q, t, hq, ht, hj⟩ : ∃ q t, q < 6 ∧ t < p.N ∧ j = 1 + p.N * q + t := by
      refine ⟨(j - 1) / p.N, (j - 1) % p.N, ?_, Nat.mod_lt _ hN, ?_⟩
      · rw [Nat.div_lt_iff_lt_mul hN]
        omega
      · have := Nat.div_add_mod (j - 1) p.N
        omega
    by_cases h0 : t = 0
    · left
      interval_cases q <;> omega
    · right
      refine ⟨t, ⟨by omega, by omega⟩, ?_⟩
      interval_cases q <;> omega

/-- No constraint cell is assigned twice. -/
theorem nodup_constraint_writes_indices (L : Lib R) (p : Params R) (self : FG_eval R)
    (vars : Dvector R) (hN : 1 ≤ p.N) :
    ((constraint_writes L p self vars).map Prod.fst).Nodup := by
  rw [constraint_writes_indices, List.nodup_append]
  refine ⟨?_, ?_, ?_⟩
  · simp only [List.nodup_cons, List.mem_cons, List.mem_singleton, List.not_mem_nil,
      List.nodup_nil, or_false, not_or, not_false_eq_true, and_true]
    omega
  · rw [List.nodup_flatMap]
    constructor
    · intro t _
      simp only [List.nodup_cons, List.mem_cons, List.mem_singleton, List.not_mem_nil,
        List.nodup_nil, or_false, not_or, not_false_eq_true, and_true]
      omega
    · refine List.Pairwise.imp_of_mem ?_ (List.pairwise_lt_range' 1 (p.N - 1))
      intro t u ht hu hlt
      rw [List.mem_range'_1] at ht hu
      simp only [Function.onFun, List.disjoint_left, List.mem_cons, List.mem_singleton,
        List.not_mem_nil, or_false]
      intro j hj1 hj2
      omega
  · simp only [List.disjoint_left, List.mem_flatMap, List.mem_range'_1, List.mem_cons,
      List.mem_singleton, List.not_mem_nil, or_false]
    rintro j hj1 ⟨t, ht, hj2⟩
    omega

/-- The number of constraint assignments is `N * 6`. -/
theorem length_constraint_writes (L : Lib R) (p : Params R) (self : FG_eval R)
    (vars : Dvector R) (hN : 1 ≤ p.N) :
    (constraint_writes L p self vars).length = p.N * 6 := by
  have hflat : ∀ l : List Nat,
      (l.flatMap (dynamics_writes L p self vars)).length = 6 * l.length := by
    intro l
    induction l with
    | nil => rfl
    | cons t l ih =>
      rw [List.flatMap_cons, List.length_append, ih, List.length_cons]
      simp only [dynamics_writes, List.length_cons, List.length_nil]
      omega
  rw [constraint_writes, List.length_append, hflat, List.length_range']
  simp only [first_step_writes, List.length_cons, List.length_nil]
  omega


/-- The cell `fg[1 + q_start]` left by `FG_eval::operator()` holds `vars[q_start]`, for each of
the six state quantities (numbered `k = 0, ..., 5` in layout order). -/
theorem operator_get_first_step (L : Lib R) (p : Params R) (self : FG_eval R)
    (fg vars : Dvector R) (hN : 1 ≤ p.N) (k : Nat) (hk : k < 6) :
    (FG_eval.operator L p self fg vars).get (1 + (state_starts p.N).getD k 0)
      = vars.get ((state_starts p.N).getD k 0) := by
  rw [operator_eq_apply_writes]
  have hmem : (1 + (state_starts p.N).getD k 0, vars.get ((state_starts p.N).getD k 0))
      ∈ constraint_writes L p self vars := by
    refine List.mem_append_left _ ?_
    interval_cases k <;> simp [first_step_writes, state_starts]
  exact apply_writes_get_of_mem _ _ (nodup_constraint_writes_indices L p self vars hN) _ hmem

/-- Both constraint bounds built by `MPC::Solve` at `q_start` equal component `k` of the state,
for each of the six state quantities (numbered `k = 0, ..., 5` in layout order). -/
theorem Solve_problem_constraint_bounds_first_step (L : Lib R) (N : Nat)
    (junk : Nat → Nat → R) (state : Dvector R) (hN : 1 ≤ N) (k : Nat) (hk : k < 6) :
    (Solve_problem L N junk state).constraints_lowerbound.get ((state_starts N).getD k 0)
      = state.get k ∧
    (Solve_problem L N junk state).constraints_upperbound.get ((state_starts N).getD k 0)
      = state.get k := by
  have hl := get_first_step_writes
    (forLoop 0 (n_constraints N)
      (fun i (b : Dvector R × Dvector R) => (b.1.set i 0, b.2.set i 0))
      (Dvector.alloc (n_constraints N) (junk 3), Dvector.alloc (n_constraints N) (junk 4))).1
    N hN (state.get 0) (state.get 1) (state.get 2) (state.get 3) (state.get 4) (state.get 5)
  have hu := get_first_step_writes
    (forLoop 0 (n_constraints N)
      (fun i (b : Dvector R × Dvector R) => (b.1.set i 0, b.2.set i 0))
      (Dvector.alloc (n_constraints N) (junk 3), Dvector.alloc (n_constraints N) (junk 4))).2
    N hN (state.get 0) (state.get 1) (state.get 2) (state.get 3) (state.get 4) (state.get 5)
  interval_cases k
  · exact ⟨hl.1, hu.1⟩
  · exact ⟨hl.2.1, hu.2.1⟩
  · exact ⟨hl.2.2.1, hu.2.2.1⟩
  · exact ⟨hl.2.2.2.1, hu.2.2.2.1⟩
  · exact ⟨hl.2.2.2.2.1, hu.2.2.2.2.1⟩
  · exact ⟨hl.2.2.2.2.2, hu.2.2.2.2.2⟩


/-- Claim C12, as stated, fails. Horizon 10, every cell of the decision vector equal to 5 and
the speed of the current state equal to 5: the first-step entry for the speed,
`fg[1 + v_start]`, is 5, the variable itself, whereas variable minus current state value
is 0. -/
theorem operator_first_step_counterexample :
    (FG_eval.operator (⟨Real.cos, Real.sin, Real.arctan, Real.pi⟩ : Lib ℝ) (globals 10)
        ⟨[0, 1]⟩ (Dvector.alloc 61 (fun _ => 0)) (Dvector.alloc 78 (fun _ => 5))).get
          (1 + v_start 10) = 5 ∧
    ¬ ((FG_eval.operator (⟨Real.cos, Real.sin, Real.arctan, Real.pi⟩ : Lib ℝ) (globals 10)
        ⟨[0, 1]⟩ (Dvector.alloc 61 (fun _ => 0)) (Dvector.alloc 78 (fun _ => 5))).get
          (1 + v_start 10)
        = (Dvector.alloc 78 (fun _ => (5 : ℝ))).get (v_start 10)
          - (Dvector.alloc 6 (fun _ => (5 : ℝ))).get 3) := by
  have h : (FG_eval.operator (⟨Real.cos, Real.sin, Real.arctan, Real.pi⟩ : Lib ℝ) (globals 10)
      ⟨[0, 1]⟩ (Dvector.alloc 61 (fun _ => 0)) (Dvector.alloc 78 (fun _ => 5))).get
        (1 + v_start 10) = 5 :=
    operator_get_first_step (⟨Real.cos, Real.sin, Real.arctan, Real.pi⟩ : Lib ℝ) (globals 10)
      ⟨[0, 1]⟩ (Dvector.alloc 61 (fun _ => 0)) (Dvector.alloc 78 (fun _ => 5)) (by decide) 3
      (by decide)
  refine ⟨h, ?_⟩
  rw [h]
  norm_num [Dvector.get, Dvector.alloc]

/-- Claim C12, amended. For every horizon `N ≥ 2`, every decision vector and every current
state, the entry `fg[1 + q_start]` left by `FG_eval::operator()` for the first step of each
state quantity `q` (numbered `k = 0, ..., 5`) equals the variable `vars[q_start]` itself; the
current state enters through the two constraint bounds `MPC::Solve` builds at `q_start`, so
that the entry minus either bound equals `vars[q_start] - state[k]`. -/
theorem operator_first_step_entries (L : Lib R) (p : Params R) (self : FG_eval R)
    (fg vars : Dvector R) (junk : Nat → Nat → R) (state : Dvector R) (hN : 2 ≤ p.N) :
    ∀ k, k < 6 →
      (FG_eval.operator L p self fg vars).get (1 + (state_starts p.N).getD k 0)
        = vars.get ((state_starts p.N).getD k 0) ∧
      (FG_eval.operator L p self fg vars).get (1 + (state_starts p.N).getD k 0)
          - (Solve_problem L p.N junk state).constraints_lowerbound.get
              ((state_starts p.N).getD k 0)
        = vars.get ((state_starts p.N).getD k 0) - state.get k ∧
      (FG_eval.operator L p self fg vars).get (1 + (state_starts p.N).getD k 0)
          - (Solve_problem L p.N junk state).constraints_upperbound.get
              ((state_starts p.N).getD k 0)
        = vars.get ((state_starts p.N).getD k 0) - state.get k := by
  intro k hk
  have h1 := operator_get_first_step L p self fg vars (by omega) k hk
  have h2 := Solve_problem_constraint_bounds_first_step L p.N junk state (by omega) k hk
  rw [h1, h2.1, h2.2]
  exact ⟨rfl, rfl, rfl⟩

/-- Witness for `operator_first_step_entries`: horizon 10, the decision vector whose cell `i`
holds `i`, the state whose component `k` is `k + 1`; for the speed (`k = 3`) the entry is
`vars[30] = 30` and the entry minus the lower bound is `30 - 4`. -/
theorem operator_first_step_entries_witness :
    2 ≤ (globals 10 : Params ℝ).N ∧
    (FG_eval.operator (⟨Real.cos, Real.sin, Real.arctan, Real.pi⟩ : Lib ℝ) (globals 10)
        ⟨[0, 1]⟩ (Dvector.alloc 61 (fun _ => 0)) (Dvector.alloc 78 (fun i => (i : ℝ)))).get
          (1 + v_start 10) = 30 ∧
    (FG_eval.operator (⟨Real.cos, Real.sin, Real.arctan, Real.pi⟩ : Lib ℝ) (globals 10)
        ⟨[0, 1]⟩ (Dvector.alloc 61 (fun _ => 0)) (Dvector.alloc 78 (fun i => (i : ℝ)))).get
          (1 + v_start 10)
      - (Solve_problem (⟨Real.cos, Real.sin, Real.arctan, Real.pi⟩ : Lib ℝ) 10 (fun _ _ => 7)
          (Dvector.alloc 6 (fun i => (i : ℝ) + 1))).constraints_lowerbound.get (v_start 10)
      = 26 := by
  have h := operator_first_step_entries (⟨Real.cos, Real.sin, Real.arctan, Real.pi⟩ : Lib ℝ)
    (globals 10) ⟨[0, 1]⟩ (Dvector.alloc 61 (fun _ => 0))
    (Dvector.alloc 78 (fun i => (i : ℝ))) (fun _ _ => 7)
    (Dvector.alloc 6 (fun i => (i : ℝ) + 1)) (by decide) 3 (by decide)
  refine ⟨by decide, h.1.trans ?_, h.2.1.trans ?_⟩ <;>
    norm_num [Dvector.get, Dvector.alloc, state_starts, v_start, globals]

/-- Claim C16. For every current state, every horizon `N ≥ 2` and every decision vector, the
six first-step constraint values `fg[1 + q_start]` left by `FG_eval::operator()` lie within
the constraint bounds `MPC::Solve` builds at constraint index `q_start` if and only if
`vars[q_start]` equals component `k` of the current state for all six state quantities
(numbered `k = 0, ..., 5`); so a decision vector that meets these bounds has its first step
equal to the current state. -/
theorem first_step_feasible_iff (L : Lib R) (p : Params R) (self : FG_eval R)
    (fg vars : Dvector R) (junk : Nat → Nat → R) (state : Dvector R) (hN : 2 ≤ p.N) :
    (∀ k, k < 6 →
      (Solve_problem L p.N junk state).constraints_lowerbound.get
          ((state_starts p.N).getD k 0)
        ≤ (FG_eval.operator L p self fg vars).get (1 + (state_starts p.N).getD k 0) ∧
      (FG_eval.operator L p self fg vars).get (1 + (state_starts p.N).getD k 0)
        ≤ (Solve_problem L p.N junk state).constraints_upperbound.get
          ((state_starts p.N).getD k 0)) ↔
    (∀ k, k < 6 → vars.get ((state_starts p.N).getD k 0) = state.get k) := by
  have h1 := operator_get_first_step L p self fg vars (by omega)
  have h2 := Solve_problem_constraint_bounds_first_step L p.N junk state (by omega)
  constructor
  · intro h k hk
    have hb := h k hk
    rw [h1 k hk, (h2 k hk).1, (h2 k hk).2] at hb
    exact le_antisymm hb.2 hb.1
  · intro h k hk
    rw [h1 k hk, (h2 k hk).1, (h2 k hk).2, h k hk]
    exact ⟨le_refl _, le_refl _⟩

/-- Witness for `first_step_feasible_iff`: horizon 10, every cell of the decision vector and
every component of the state equal to 5; the six first-step constraint values meet their
bounds. -/
theorem first_step_feasible_iff_witness :
    2 ≤ (globals 10 : Params ℝ).N ∧
    ∀ k, k < 6 →
      (Solve_problem (⟨Real.cos, Real.sin, Real.arctan, Real.pi⟩ : Lib ℝ) 10 (fun _ _ => 7)
          (Dvector.alloc 6 (fun _ => 5))).constraints_lowerbound.get
            ((state_starts 10).getD k 0)
        ≤ (FG_eval.operator (⟨Real.cos, Real.sin, Real.arctan, Real.pi⟩ : Lib ℝ) (globals 10)
            ⟨[0, 1]⟩ (Dvector.alloc 61 (fun _ => 0)) (Dvector.alloc 78 (fun _ => 5))).get
              (1 + (state_starts 10).getD k 0) ∧
      (FG_eval.operator (⟨Real.cos, Real.sin, Real.arctan, Real.pi⟩ : Lib ℝ) (globals 10)
            ⟨[0, 1]⟩ (Dvector.alloc 61 (fun _ => 0)) (Dvector.alloc 78 (fun _ => 5))).get
              (1 + (state_starts 10).getD k 0)
        ≤ (Solve_problem (⟨Real.cos, Real.sin, Real.arctan, Real.pi⟩ : Lib ℝ) 10 (fun _ _ => 7)
          (Dvector.alloc 6 (fun _ => 5))).constraints_upperbound.get
            ((state_starts 10).getD k 0) :=
  ⟨by decide, (first_step_feasible_iff (⟨Real.cos, Real.sin, Real.arctan, Real.pi⟩ : Lib ℝ)
    (globals 10) ⟨[0, 1]⟩ (Dvector.alloc 61 (fun _ => 0)) (Dvector.alloc 78 (fun _ => 5))
    (fun _ _ => 7) (Dvector.alloc 6 (fun _ => 5)) (by decide)).mpr (fun _ _ => rfl)⟩


/-- The two constraint-bound vectors built by `MPC::Solve` have `n_constraints` cells. -/
theorem Solve_problem_constraint_sizes (L : Lib R) (N : Nat) (junk : Nat → Nat → R)
    (state : Dvector R) :
    (Solve_problem L N junk state).constraints_lowerbound.size = n_constraints N ∧
    (Solve_problem L N junk state).constraints_upperbound.size = n_constraints N := by
  have h := forLoop_preserves
    (fun b : Dvector R × Dvector R => b.1.size = n_constraints N ∧ b.2.size = n_constraints N)
    0 (n_constraints N) (fun i (b : Dvector R × Dvector R) => (b.1.set i 0, b.2.set i 0))
    (fun _ _ hb => hb)
    (Dvector.alloc (n_constraints N) (junk 3), Dvector.alloc (n_constraints N) (junk 4))
    ⟨rfl, rfl⟩
  exact h

/-- Claim C17. For every horizon `N ≥ 2`: the map `(q, t) ↦ q_start + t`, over the six state
quantities and the steps `t < N`, is a bijection onto `[0, N * 6)`; `FG_eval::operator()` is
the cost stage followed by the constraint assignments of its trace, which address every cell
`fg[j]` with `1 ≤ j ≤ N * 6` and no other, none twice, so that each of these cells holds
the value assigned to it; there are `N * 6 = n_constraints` assignments, which is the size of
the constraint-bound vectors. -/
theorem constraint_entries_written_once (L : Lib R) (p : Params R) (self : FG_eval R)
    (fg vars : Dvector R) (junk : Nat → Nat → R) (state : Dvector R) (hN : 2 ≤ p.N) :
    ((∀ s ∈ state_starts p.N, ∀ t, t < p.N → s + t < p.N * 6) ∧
      (∀ s ∈ state_starts p.N, ∀ s' ∈ state_starts p.N, ∀ t t', t < p.N → t' < p.N →
        s + t = s' + t' → s = s' ∧ t = t') ∧
      (∀ j, j < p.N * 6 → ∃ s ∈ state_starts p.N, ∃ t, t < p.N ∧ s + t = j)) ∧
    FG_eval.operator L p self fg vars
      = apply_writes (constraint_writes L p self vars) (cost_stage p fg vars) ∧
    ((constraint_writes L p self vars).map Prod.fst).Nodup ∧
    (∀ j, j ∈ (constraint_writes L p self vars).map Prod.fst ↔ 1 ≤ j ∧ j ≤ p.N * 6) ∧
    (∀ w ∈ constraint_writes L p self vars,
      (FG_eval.operator L p self fg vars).get w.1 = w.2) ∧
    ((constraint_writes L p self vars).length = p.N * 6 ∧ p.N * 6 = n_constraints p.N ∧
      (Solve_problem L p.N junk state).constraints_lowerbound.size = n_constraints p.N ∧
      (Solve_problem L p.N junk state).constraints_upperbound.size = n_constraints p.N) := by
  have h1 : 1 ≤ p.N := by omega
  have hnd := nodup_constraint_writes_indices L p self vars h1
  refine ⟨⟨?_, ?_, ?_⟩, operator_eq_apply_writes L p self fg vars, hnd,
    mem_constraint_writes_indices L p self vars h1, ?_,
    length_constraint_writes L p self vars h1, rfl,
    Solve_problem_constraint_sizes L p.N junk state⟩
  · intro s hs t ht
    simp only [state_starts, List.mem_cons, List.mem_singleton, List.not_mem_nil, or_false,
      x_start, y_start, psi_start, v_start, cte_start, epsi_start] at hs
    omega
  · intro s hs s' hs' t t' ht ht' he
    simp only [state_starts, List.mem_cons, List.mem_singleton, List.not_mem_nil, or_false,
      x_start, y_start, psi_start, v_start, cte_start, epsi_start] at hs hs'
    omega
  · intro j hj
    obtain ⟨q, t, hq, ht, he⟩ : ∃ q t, q < 6 ∧ t < p.N ∧ j = p.N * q + t := by
      refine ⟨j / p.N, j % p.N, ?_, Nat.mod_lt _ h1, (Nat.div_add_mod j p.N).symm⟩
      rw [Nat.div_lt_iff_lt_mul h1]
      omega
    refine ⟨p.N * q, ?_, t, ht, he.symm⟩
    simp only [state_starts, List.mem_cons, List.mem_singleton, List.not_mem_nil, or_false,
      x_start, y_start, psi_start, v_start, cte_start, epsi_start]
    interval_cases q <;> simp
  · intro w hw
    rw [operator_eq_apply_writes]
    exact apply_writes_get_of_mem _ _ hnd w hw

/-- Witness for `constraint_entries_written_once`: horizon 10; there are 60 constraint
assignments and the cell `fg[60]` is among the cells they address. -/
theorem constraint_entries_written_once_witness :
    2 ≤ (globals 10 : Params ℝ).N ∧
    (constraint_writes (⟨Real.cos, Real.sin, Real.arctan, Real.pi⟩ : Lib ℝ) (globals 10)
      ⟨[0, 1]⟩ (Dvector.alloc 78 (fun i => (i : ℝ)))).length = 60 ∧
    60 ∈ (constraint_writes (⟨Real.cos, Real.sin, Real.arctan, Real.pi⟩ : Lib ℝ) (globals 10)
      ⟨[0, 1]⟩ (Dvector.alloc 78 (fun i => (i : ℝ)))).map Prod.fst := by
  have h := constraint_entries_written_once (⟨Real.cos, Real.sin, Real.arctan, Real.pi⟩ : Lib ℝ)
    (globals 10) ⟨[0, 1]⟩ (Dvector.alloc 61 (fun _ => 0))
    (Dvector.alloc 78 (fun i => (i : ℝ))) (fun _ _ => 7) (Dvector.alloc 6 (fun _ => 0))
    (by decide)
  exact ⟨by decide, h.2.2.2.2.2.1, (h.2.2.2.1 60).mpr ⟨by decide, by decide⟩⟩

end Traces


section BuilderFrame

variable {R : Type} [LinearOrderedField R]

/-- Claim C13. For every current state and every horizon `N ≥ 2`, away from the six
first-step indices the problem built by `MPC::Solve` is zero: the initial guess is 0 at every
other index below `n_vars`, and both constraint bounds are 0 at every other index below
`N * 6`, whatever the vectors held when they were constructed. -/
theorem Solve_problem_zero_elsewhere (L : Lib R) (N : Nat) (junk : Nat → Nat → R)
    (state : Dvector R) (_hN : 2 ≤ N) :
    (∀ i, i < n_vars N → i ∉ state_starts N → (Solve_problem L N junk state).vars.get i = 0) ∧
    (∀ i, i < N * 6 → i ∉ state_starts N →
      (Solve_problem L N junk state).constraints_lowerbound.get i = 0 ∧
      (Solve_problem L N junk state).constraints_upperbound.get i = 0) := by
  constructor
  · intro i hi hne
    simp only [state_starts, List.mem_cons, List.mem_singleton, List.not_mem_nil, or_false,
      not_or] at hne
    obtain ⟨h0, h1, h2, h3, h4, h5⟩ := hne
    simp only [Solve_problem]
    rw [Dvector.get_set_of_ne _ _ h5, Dvector.get_set_of_ne _ _ h4,
      Dvector.get_set_of_ne _ _ h3, Dvector.get_set_of_ne _ _ h2,
      Dvector.get_set_of_ne _ _ h1, Dvector.get_set_of_ne _ _ h0, forLoop_fill,
      if_pos ⟨Nat.zero_le i, hi⟩]
  · intro i hi hne
    simp only [state_starts, List.mem_cons, List.mem_singleton, List.not_mem_nil, or_false,
      not_or] at hne
    obtain ⟨h0, h1, h2, h3, h4, h5⟩ := hne
    simp only [Solve_problem]
    rw [Dvector.get_set_of_ne _ _ h5, Dvector.get_set_of_ne _ _ h4,
      Dvector.get_set_of_ne _ _ h3, Dvector.get_set_of_ne _ _ h2,
      Dvector.get_set_of_ne _ _ h1, Dvector.get_set_of_ne _ _ h0,
      Dvector.get_set_of_ne _ _ h5, Dvector.get_set_of_ne _ _ h4,
      Dvector.get_set_of_ne _ _ h3, Dvector.get_set_of_ne _ _ h2,
      Dvector.get_set_of_ne _ _ h1, Dvector.get_set_of_ne _ _ h0,
      (forLoop_fill_pair _ _ _ _ _ i).1, (forLoop_fill_pair _ _ _ _ _ i).2,
      if_pos ⟨Nat.zero_le i, hi⟩, if_pos ⟨Nat.zero_le i, hi⟩]
    exact ⟨rfl, rfl⟩

/-- Witness for `Solve_problem_zero_elsewhere`: horizon 10, the state whose component `k` is
`k + 1`, every fresh vector filled with 7; the initial guess at index 35 is 0. -/
theorem Solve_problem_zero_elsewhere_witness :
    2 ≤ 10 ∧
    (Solve_problem (⟨Real.cos, Real.sin, Real.arctan, Real.pi⟩ : Lib ℝ) 10 (fun _ _ => 7)
      (Dvector.alloc 6 (fun i => (i : ℝ) + 1))).vars.get 35 = 0 :=
  ⟨by decide, (Solve_problem_zero_elsewhere (⟨Real.cos, Real.sin, Real.arctan, Real.pi⟩ : Lib ℝ)
    10 (fun _ _ => 7) (Dvector.alloc 6 (fun i => (i : ℝ) + 1)) (by decide)).1 35 (by decide)
    (by decide)⟩

end BuilderFrame


section EmptyPolynomial

variable {R : Type} [LinearOrderedField R] [FloorRing R]

/-- Claim C15, as stated, fails. Horizon 10, latency 0, the empty coefficient sequence and a
solver stub that reports success with the vector whose cell `i` holds `i`: `MPC::Solve`
reports no error; it returns 20 values taken from the solver's vector (steering = cell 60),
so the solver has been called with the empty polynomial. -/
theorem Solve_empty_coeffs_counterexample :
    ∃ actuations : List ℝ,
      Solve (⟨Real.cos, Real.sin, Real.arctan, Real.pi⟩ : Lib ℝ) (globals 10)
        (stub_solver status_type.success (Dvector.alloc 78 (fun i => (i : ℝ))))
        (fun _ _ => 7) (Dvector.alloc 6 (fun _ => 0)) [] 0 = Outcome.returned actuations ∧
      actuations.length = 20 ∧ actuations[0]? = some 60 := by
  have hoff : latency_offset (globals 10 : Params ℝ).dt 0 = 0 := by
    rw [latency_offset_globals]
  have hret := Solve_of_success (⟨Real.cos, Real.sin, Real.arctan, Real.pi⟩ : Lib ℝ)
    (globals 10) (stub_solver status_type.success (Dvector.alloc 78 (fun i => (i : ℝ))))
    (fun _ _ => 7) (Dvector.alloc 6 (fun _ => 0)) [] 0 rfl (by rw [hoff]; decide)
  obtain ⟨hlen, hold, -⟩ := forLoop_trajectory (globals 10 : Params ℝ).N
    (Solve_solution (⟨Real.cos, Real.sin, Real.arctan, Real.pi⟩ : Lib ℝ) (globals 10)
      (stub_solver status_type.success (Dvector.alloc 78 (fun i => (i : ℝ))))
      (fun _ _ => 7) (Dvector.alloc 6 (fun _ => 0)) []).x
    [(Solve_solution (⟨Real.cos, Real.sin, Real.arctan, Real.pi⟩ : Lib ℝ) (globals 10)
        (stub_solver status_type.success (Dvector.alloc 78 (fun i => (i : ℝ))))
        (fun _ _ => 7) (Dvector.alloc 6 (fun _ => 0)) []).x.get
        (delta_start (globals 10 : Params ℝ).N + latency_offset (globals 10 : Params ℝ).dt 0),
      (Solve_solution (⟨Real.cos, Real.sin, Real.arctan, Real.pi⟩ : Lib ℝ) (globals 10)
        (stub_solver status_type.success (Dvector.alloc 78 (fun i => (i : ℝ))))
        (fun _ _ => 7) (Dvector.alloc 6 (fun _ => 0)) []).x.get
        (a_start (globals 10 : Params ℝ).N + latency_offset (globals 10 : Params ℝ).dt 0)]
    ((globals 10 : Params ℝ).N - 1)
  refine ⟨_, hret, hlen, (hold 0 (by simp)).trans ?_⟩
  rw [hoff]
  norm_num [Solve_solution, stub_solver, Dvector.get, Dvector.alloc, globals, delta_start]

/-- Claim C15, amended. For every state and latency, when the coefficient sequence is empty
`MPC::Solve` validates nothing: it calls the solver with the evaluator built from the empty
sequence, whose `polyeval` and `d_polyeval` are constantly 0, and its outcome follows from
the solver's result as for any other coefficient sequence: the empty sequence when the status
is not success, the failed assertion when the offset is not below `N - 1`, otherwise the
actuations read from the solver's decision vector. -/
theorem Solve_empty_coeffs (L : Lib R) (p : Params R) (solve : Solver R)
    (junk : Nat → Nat → R) (state : Dvector R) (latency : Nat) :
    (∀ x : R, FG_eval.polyeval (⟨[]⟩ : FG_eval R) x = 0 ∧
      FG_eval.d_polyeval (⟨[]⟩ : FG_eval R) x = 0) ∧
    Solve_solution L p solve junk state [] =
      solve solver_options (Solve_problem L p.N junk state).vars
        (Solve_problem L p.N junk state).vars_lowerbound
        (Solve_problem L p.N junk state).vars_upperbound
        (Solve_problem L p.N junk state).constraints_lowerbound
        (Solve_problem L p.N junk state).constraints_upperbound
        (FG_eval.operator L p ⟨[]⟩) ∧
    Solve L p solve junk state [] latency =
      (if (Solve_solution L p solve junk state []).status = status_type.success then
        if latency_offset p.dt latency < p.N - 1 then
          Outcome.returned
            (forLoop 0 (p.N - 1) (trajectory_body p.N (Solve_solution L p solve junk state []).x)
              [(Solve_solution L p solve junk state []).x.get
                  (delta_start p.N + latency_offset p.dt latency),
                (Solve_solution L p solve junk state []).x.get
                  (a_start p.N + latency_offset p.dt latency)])
        else Outcome.assert_failed
      else Outcome.returned []) := by
  refine ⟨fun x => ⟨rfl, rfl⟩, rfl, ?_⟩
  by_cases hs : (Solve_solution L p solve junk state []).status = status_type.success
  · rw [if_pos hs]
    by_cases hoff : latency_offset p.dt latency < p.N - 1
    · rw [if_pos hoff]
      exact Solve_of_success L p solve junk state [] latency hs hoff
    · rw [if_neg hoff]
      exact Solve_of_success_assert L p solve junk state [] latency hs hoff
  · rw [if_neg hs]
    exact Solve_of_failure L p solve junk state [] latency hs

end EmptyPolynomial


section Reads

/-- Reads of pass `i < N` of the reference-state loop belong to the trace. -/
theorem mem_operator_reads_ref (N i : Nat) (hi : i < N) (r : (Nat × Nat) × Nat)
    (hr : r ∈ ref_cost_reads N i) : r ∈ operator_reads N := by
  simp only [operator_reads, List.mem_append, List.mem_flatMap, List.mem_range'_1]
  exact Or.inl (Or.inl (Or.inl (Or.inl ⟨i, ⟨Nat.zero_le i, by omega⟩, hr⟩)))

/-- Reads of pass `i < N - 1` of the actuator loop belong to the trace. -/
theorem mem_operator_reads_actuator (N i : Nat) (hi : i < N - 1) (r : (Nat × Nat) × Nat)
    (hr : r ∈ actuator_cost_reads N i) : r ∈ operator_reads N := by
  simp only [operator_reads, List.mem_append, List.mem_flatMap, List.mem_range'_1]
  exact Or.inl (Or.inl (Or.inl (Or.inr ⟨i, ⟨Nat.zero_le i, by omega⟩, hr⟩)))

/-- Reads of pass `i < N - 2` of the sequential-actuation loop belong to the trace. -/
theorem mem_operator_reads_seq (N i : Nat) (hi : i < N - 2) (r : (Nat × Nat) × Nat)
    (hr : r ∈ seq_cost_reads N i) : r ∈ operator_reads N := by
  simp only [operator_reads, List.mem_append, List.mem_flatMap, List.mem_range'_1]
  exact Or.inl (Or.inl (Or.inr ⟨i, ⟨Nat.zero_le i, by omega⟩, hr⟩))

/-- Reads of lines 86-91 belong to the trace. -/
theorem mem_operator_reads_first (N : Nat) (r : (Nat × Nat) × Nat)
    (hr : r ∈ first_step_reads N) : r ∈ operator_reads N := by
  simp only [operator_reads, List.mem_append]
  exact Or.inl (Or.inr hr)

/-- Reads of pass `1 ≤ t < N` of the dynamics loop belong to the trace. -/
theorem mem_operator_reads_dynamics (N t : Nat) (h1 : 1 ≤ t) (ht : t < N)
    (r : (Nat × Nat) × Nat) (hr : r ∈ dynamics_reads N t) : r ∈ operator_reads N := by
  simp only [operator_reads, List.mem_append, List.mem_flatMap, List.mem_range'_1]
  exact Or.inr ⟨t, ⟨h1, by omega⟩, hr⟩

/-- Every read of the trace addresses one of the eight blocks, lies inside that block and
below `n_vars`. -/
theorem operator_reads_in_block (N : Nat) (hN : 2 ≤ N) :
    ∀ r ∈ operator_reads N, r.1 ∈ blocks N ∧ inBlock r.1 r.2 ∧ r.2 < n_vars N := by
  intro r hr
  simp only [operator_reads, List.mem_append, List.mem_flatMap, List.mem_range'_1] at hr
  rcases hr with (((⟨i, hi, h⟩ | ⟨i, hi, h⟩) | ⟨i, hi, h⟩) | h) | ⟨t, ht, h⟩
  · simp only [ref_cost_reads, List.mem_cons, List.mem_singleton, List.not_mem_nil,
      or_false] at h
    rcases h with rfl | rfl | rfl <;>
      refine ⟨by simp [blocks], ?_, ?_⟩ <;>
      dsimp only [inBlock, n_vars, x_start, y_start, psi_start, v_start, cte_start,
        epsi_start, delta_start, a_start] <;> omega
  · simp only [actuator_cost_reads, List.mem_cons, List.mem_singleton, List.not_mem_nil,
      or_false] at h
    rcases h with rfl | rfl <;>
      refine ⟨by simp [blocks], ?_, ?_⟩ <;>
      dsimp only [inBlock, n_vars, x_start, y_start, psi_start, v_start, cte_start,
        epsi_start, delta_start, a_start] <;> omega
  · simp only [seq_cost_reads, List.mem_cons, List.mem_singleton, List.not_mem_nil,
      or_false] at h
    rcases h with rfl | rfl | rfl | rfl <;>
      refine ⟨by simp [blocks], ?_, ?_⟩ <;>
      dsimp only [inBlock, n_vars, x_start, y_start, psi_start, v_start, cte_start,
        epsi_start, delta_start, a_start] <;> omega
  · simp only [first_step_reads, List.mem_cons, List.mem_singleton, List.not_mem_nil,
      or_false] at h
    rcases h with rfl | rfl | rfl | rfl | rfl | rfl <;>
      refine ⟨by simp [blocks], ?_, ?_⟩ <;>
      dsimp only [inBlock, n_vars, x_start, y_start, psi_start, v_start, cte_start,
        epsi_start, delta_start, a_start] <;> omega
  · simp only [dynamics_reads, List.mem_cons, List.mem_singleton, List.not_mem_nil,
      or_false] at h
    rcases h with rfl | rfl | rfl | rfl | rfl | rfl | rfl | rfl | rfl | rfl | rfl | rfl |
      rfl | rfl <;>
      refine ⟨by simp [blocks], ?_, ?_⟩ <;>
      dsimp only [inBlock, n_vars, x_start, y_start, psi_start, v_start, cte_start,
        epsi_start, delta_start, a_start] <;> omega

end Reads


section ReadsLink

variable {R : Type} [LinearOrderedField R]

/-- What `FG_eval::operator()` computes depends on the decision vector only through the cells
listed in the trace `operator_reads`. -/
theorem operator_depends_on_reads (L : Lib R) (p : Params R) (self : FG_eval R)
    (fg vars vars' : Dvector R)
    (h : ∀ r ∈ operator_reads p.N, vars.get r.2 = vars'.get r.2) :
    FG_eval.operator L p self fg vars = FG_eval.operator L p self fg vars' := by
  have hread : ∀ (b : Nat × Nat) (i : Nat), (b, i) ∈ operator_reads p.N →
      vars.get i = vars'.get i := fun b i hm => h (b, i) hm
  have e1 : ∀ s, forLoop 0 p.N (ref_cost_body p vars) s
      = forLoop 0 p.N (ref_cost_body p vars') s := by
    intro s
    refine forLoop_congr _ _ _ _ (fun i _ hi s => ?_) s
    have m := mem_operator_reads_ref p.N i hi
    simp only [ref_cost_body,
      hread (cte_start p.N, p.N) (cte_start p.N + i) (m _ (by simp [ref_cost_reads])),
      hread (epsi_start p.N, p.N) (epsi_start p.N + i) (m _ (by simp [ref_cost_reads])),
      hread (v_start p.N, p.N) (v_start p.N + i) (m _ (by simp [ref_cost_reads]))]
  have e2 : ∀ s, forLoop 0 (p.N - 1) (actuator_cost_body p vars) s
      = forLoop 0 (p.N - 1) (actuator_cost_body p vars') s := by
    intro s
    refine forLoop_congr _ _ _ _ (fun i _ hi s => ?_) s
    have m := mem_operator_reads_actuator p.N i hi
    simp only [actuator_cost_body,
      hread (delta_start p.N, p.N - 1) (delta_start p.N + i)
        (m _ (by simp [actuator_cost_reads])),
      hread (a_start p.N, p.N - 1) (a_start p.N + i) (m _ (by simp [actuator_cost_reads]))]
  have e3 : ∀ s, forLoop 0 (p.N - 2) (seq_cost_body p vars) s
      = forLoop 0 (p.N - 2) (seq_cost_body p vars') s := by
    intro s
    refine forLoop_congr _ _ _ _ (fun i _ hi s => ?_) s
    have m := mem_operator_reads_seq p.N i hi
    simp only [seq_cost_body,
      hread (delta_start p.N, p.N - 1) (delta_start p.N + i + 1)
        (m _ (by simp [seq_cost_reads])),
      hread (delta_start p.N, p.N - 1) (delta_start p.N + i) (m _ (by simp [seq_cost_reads])),
      hread (a_start p.N, p.N - 1) (a_start p.N + i + 1) (m _ (by simp [seq_cost_reads])),
      hread (a_start p.N, p.N - 1) (a_start p.N + i) (m _ (by simp [seq_cost_reads]))]
  have e4 : ∀ s, forLoop 1 p.N (dynamics_body L p self vars) s
      = forLoop 1 p.N (dynamics_body L p self vars') s := by
    intro s
    refine forLoop_congr _ _ _ _ (fun t h1 ht s => ?_) s
    have m := mem_operator_reads_dynamics p.N t h1 ht
    simp only [dynamics_body,
      hread (x_start p.N, p.N) (x_start p.N + t) (m _ (by simp [dynamics_reads])),
      hread (x_start p.N, p.N) (x_start p.N + t - 1) (m _ (by simp [dynamics_reads])),
      hread (y_start p.N, p.N) (y_start p.N + t) (m _ (by simp [dynamics_reads])),
      hread (y_start p.N, p.N) (y_start p.N + t - 1) (m _ (by simp [dynamics_reads])),
      hread (psi_start p.N, p.N) (psi_start p.N + t) (m _ (by simp [dynamics_reads])),
      hread (psi_start p.N, p.N) (psi_start p.N + t - 1) (m _ (by simp [dynamics_reads])),
      hread (v_start p.N, p.N) (v_start p.N + t) (m _ (by simp [dynamics_reads])),
      hread (v_start p.N, p.N) (v_start p.N + t - 1) (m _ (by simp [dynamics_reads])),
      hread (cte_start p.N, p.N) (cte_start p.N + t) (m _ (by simp [dynamics_reads])),
      hread (epsi_start p.N, p.N) (epsi_start p.N + t) (m _ (by simp [dynamics_reads])),
      hread (epsi_start p.N, p.N) (epsi_start p.N + t - 1) (m _ (by simp [dynamics_reads])),
      hread (a_start p.N, p.N - 1) (a_start p.N + t - 1) (m _ (by simp [dynamics_reads])),
      hread (delta_start p.N, p.N - 1) (delta_start p.N + t - 1)
        (m _ (by simp [dynamics_reads]))]
  have mf := mem_operator_reads_first p.N
  simp only [FG_eval.operator, e1, e2, e3, e4,
    hread (x_start p.N, p.N) (x_start p.N) (mf _ (by simp [first_step_reads])),
    hread (y_start p.N, p.N) (y_start p.N) (mf _ (by simp [first_step_reads])),
    hread (psi_start p.N, p.N) (psi_start p.N) (mf _ (by simp [first_step_reads])),
    hread (v_start p.N, p.N) (v_start p.N) (mf _ (by simp [first_step_reads])),
    hread (cte_start p.N, p.N) (cte_start p.N) (mf _ (by simp [first_step_reads])),
    hread (epsi_start p.N, p.N) (epsi_start p.N) (mf _ (by simp [first_step_reads]))]

/-- Claim C18. For every horizon `N ≥ 2`, every read `vars[...]` made by
`FG_eval::operator()` (the trace `operator_reads`, on which alone its result depends)
addresses one of the eight blocks, lies inside the block of the quantity it addresses and
below `n_vars = N * 6 + (N - 1) * 2`; in particular `delta_start + t - 1 < a_start` and
`a_start + t - 1 < n_vars` for `1 ≤ t < N`, and `delta_start + i + 1`, `a_start + i + 1`
stay in their blocks for `i < N - 2`. -/
theorem operator_reads_in_range (L : Lib R) (p : Params R) (self : FG_eval R)
    (fg : Dvector R) (hN : 2 ≤ p.N) :
    (∀ r ∈ operator_reads p.N,
      r.1 ∈ blocks p.N ∧ inBlock r.1 r.2 ∧ r.2 < p.N * 6 + (p.N - 1) * 2) ∧
    (∀ vars vars' : Dvector R, (∀ r ∈ operator_reads p.N, vars.get r.2 = vars'.get r.2) →
      FG_eval.operator L p self fg vars = FG_eval.operator L p self fg vars') ∧
    (∀ t, 1 ≤ t → t < p.N →
      delta_start p.N + t - 1 < a_start p.N ∧ a_start p.N + t - 1 < n_vars p.N) ∧
    (∀ i, i < p.N - 2 →
      inBlock (delta_start p.N, p.N - 1) (delta_start p.N + i + 1) ∧
      inBlock (a_start p.N, p.N - 1) (a_start p.N + i + 1)) := by
  refine ⟨operator_reads_in_block p.N hN,
    fun vars vars' h => operator_depends_on_reads L p self fg vars vars' h, ?_, ?_⟩
  · intro t h1 ht
    simp only [delta_start, a_start, n_vars]
    omega
  · intro i hi
    simp only [inBlock]
    omega

/-- Witness for `operator_reads_in_range`: horizon 10; the last pass of the dynamics loop,
`t = 9`, reads `a0` at index `a_start + 9 - 1 = 77`, the last cell of the a block, below
`n_vars = 78`. -/
theorem operator_reads_in_range_witness :
    2 ≤ (globals 10 : Params ℝ).N ∧
    ((a_start 10, 10 - 1), a_start 10 + 9 - 1) ∈ operator_reads 10 ∧
    inBlock (a_start 10, 10 - 1) 77 ∧ 77 < 78 := by
  have hm : ((a_start 10, 10 - 1), a_start 10 + 9 - 1) ∈ operator_reads 10 :=
    mem_operator_reads_dynamics 10 9 (by decide) (by decide) _ (by simp [dynamics_reads])
  have h := (operator_reads_in_range (⟨Real.cos, Real.sin, Real.arctan, Real.pi⟩ : Lib ℝ)
    (globals 10) ⟨[0, 1]⟩ (Dvector.alloc 61 (fun _ => 0)) (by decide)).1 _ hm
  exact ⟨by decide, hm, h.2.1, h.2.2⟩

end ReadsLink


section Gradient

/-- Two functions with derivative 0 at a point add up to a function with derivative 0. -/
theorem hasDerivAt_zero_add {f g : ℝ → ℝ} {x : ℝ} (hf : HasDerivAt f 0 x)
    (hg : HasDerivAt g 0 x) : HasDerivAt (fun s => f s + g s) 0 x := by
  simpa using hf.add hg

/-- A finite sum of functions with derivative 0 at a point has derivative 0 there. -/
theorem hasDerivAt_zero_sum {u : Finset Nat} {A : Nat → ℝ → ℝ} {x : ℝ}
    (h : ∀ t ∈ u, HasDerivAt (A t) 0 x) : HasDerivAt (fun s => ∑ t ∈ u, A t s) 0 x := by
  simpa using HasDerivAt.sum h

/-- A constant multiple of a function with derivative 0 at a point has derivative 0 there. -/
theorem hasDerivAt_zero_const_mul {f : ℝ → ℝ} {x : ℝ} (c : ℝ) (hf : HasDerivAt f 0 x) :
    HasDerivAt (fun s => c * f s) 0 x := by
  simpa using hf.const_mul c

/-- The square of a differentiable function that vanishes at 0 has derivative 0 at 0. -/
theorem hasDerivAt_zero_sq {g : ℝ → ℝ} {g' : ℝ} (hg : HasDerivAt g g' 0) (h0 : g 0 = 0) :
    HasDerivAt (fun s => g s ^ 2) 0 0 := by
  simpa [h0] using hg.pow 2

/-- A cell of the zero vector with cell `idx` replaced by `s`, as a function of `s`: it is
differentiable and vanishes at `s = 0`. -/
theorem hasDerivAt_cell (n idx j : Nat) :
    HasDerivAt (fun s : ℝ => ((Dvector.alloc n (fun _ => (0 : ℝ))).set idx s).get j)
      (if j = idx then 1 else 0) 0 ∧
    ((Dvector.alloc n (fun _ => (0 : ℝ))).set idx 0).get j = 0 := by
  by_cases h : j = idx
  · simp only [Dvector.get_set, if_pos h]
    exact ⟨hasDerivAt_id 0, trivial⟩
  · simp only [Dvector.get_set, if_neg h]
    exact ⟨hasDerivAt_const 0 _, rfl⟩

/-- Claim C14. For every horizon `N ≥ 2`, every positive `ref_v`, every coefficient sequence
and every steering variable `delta_i` (`i < N - 1`), the partial derivative of the cost
`fg[0]` left by `FG_eval::operator()` with respect to `delta_i`, taken at the all-zero
decision vector, is 0. -/
theorem cost_steering_gradient_zero (L : Lib ℝ) (p : Params ℝ) (self : FG_eval ℝ)
    (fg : Dvector ℝ) (_hN : 2 ≤ p.N) (_hv : 0 < p.ref_v) (i : Nat) (_hi : i < p.N - 1) :
    HasDerivAt
      (fun s : ℝ => (FG_eval.operator L p self fg
        ((Dvector.alloc (n_vars p.N) (fun _ => (0 : ℝ))).set (delta_start p.N + i) s)).get 0)
      0 0 := by
  have hfun := funext (fun s : ℝ => operator_get_zero L p self fg
    ((Dvector.alloc (n_vars p.N) (fun _ => (0 : ℝ))).set (delta_start p.N + i) s))
  rw [hfun]
  have cell := hasDerivAt_cell (n_vars p.N) (delta_start p.N + i)
  have sq := fun j => hasDerivAt_zero_sq (cell j).1 (cell j).2
  have dsq : ∀ j k, HasDerivAt (fun s : ℝ =>
      (((Dvector.alloc (n_vars p.N) (fun _ => (0 : ℝ))).set (delta_start p.N + i) s).get j
        - ((Dvector.alloc (n_vars p.N) (fun _ => (0 : ℝ))).set (delta_start p.N + i) s).get k)
        ^ 2) 0 0 := fun j k =>
    hasDerivAt_zero_sq ((cell j).1.sub (cell k).1) (by rw [(cell j).2, (cell k).2, sub_zero])
  refine hasDerivAt_zero_add (hasDerivAt_zero_add ?_ ?_) ?_
  · refine hasDerivAt_zero_sum (fun t ht => ?_)
    have ht' := Finset.mem_range.mp ht
    have hne : v_start p.N + t ≠ delta_start p.N + i := by
      simp only [v_start, delta_start]
      omega
    have hv : HasDerivAt (fun s : ℝ =>
        (((Dvector.alloc (n_vars p.N) (fun _ => (0 : ℝ))).set (delta_start p.N + i) s).get
          (v_start p.N + t) - p.ref_v) ^ 2) 0 0 := by
      simp only [Dvector.get_set, if_neg hne]
      exact hasDerivAt_const 0 _
    exact hasDerivAt_zero_add (hasDerivAt_zero_add (sq _) (sq _)) hv
  · exact hasDerivAt_zero_sum (fun t _ => hasDerivAt_zero_add (sq _) (sq _))
  · exact hasDerivAt_zero_sum (fun t _ =>
      hasDerivAt_zero_add (hasDerivAt_zero_const_mul 200 (dsq _ _)) (dsq _ _))

/-- Witness for `cost_steering_gradient_zero`: horizon 10, the globals of the file
(`ref_v = 30`), the last steering variable `delta_8`. -/
theorem cost_steering_gradient_zero_witness :
    2 ≤ (globals 10 : Params ℝ).N ∧ 0 < (globals 10 : Params ℝ).ref_v ∧
    HasDerivAt
      (fun s : ℝ => (FG_eval.operator (⟨Real.cos, Real.sin, Real.arctan, Real.pi⟩ : Lib ℝ)
        (globals 10) ⟨[0, 1]⟩ (Dvector.alloc 61 (fun _ => 0))
        ((Dvector.alloc (n_vars (globals 10 : Params ℝ).N) (fun _ => (0 : ℝ))).set
          (delta_start (globals 10 : Params ℝ).N + 8) s)).get 0)
      0 0 :=
  ⟨by decide, by norm_num [globals],
    cost_steering_gradient_zero (⟨Real.cos, Real.sin, Real.arctan, Real.pi⟩ : Lib ℝ)
      (globals 10) ⟨[0, 1]⟩ (Dvector.alloc 61 (fun _ => 0)) (by decide)
      (by norm_num [globals]) 8 (by decide)⟩

end Gradient


section GenericLinks

variable {R : Type} [LinearOrderedField R]

/-- Over the operations of a field, `polyeval_in` is `polyeval`. -/
theorem polyeval_in_exact (self : FG_eval R) (x : R) :
    polyeval_in (Arith.exact R) self x = self.polyeval x := rfl

/-- Over the operations of a field, `d_polyeval_in` is `d_polyeval`. -/
theorem d_polyeval_in_exact (self : FG_eval R) (x : R) :
    d_polyeval_in (Arith.exact R) self x = self.d_polyeval x := rfl

/-- Over the operations of a field, `cost_stage_in` is the cost stage of the evaluator. -/
theorem cost_stage_in_exact (p : Params R) (fg vars : Dvector R) :
    cost_stage_in (Arith.exact R) p fg vars = cost_stage p fg vars := rfl

/-- Over the operations of a field, `constraint_writes_in` is the trace of the evaluator. -/
theorem constraint_writes_in_exact (L : Lib R) (p : Params R) (self : FG_eval R)
    (vars : Dvector R) :
    constraint_writes_in (Arith.exact R) L p self vars = constraint_writes L p self vars :=
  rfl

/-- Over the operations of a field, `operator_in` is `FG_eval::operator()` as embedded
above. -/
theorem operator_in_exact (L : Lib R) (p : Params R) (self : FG_eval R)
    (fg vars : Dvector R) :
    operator_in (Arith.exact R) L p self fg vars = FG_eval.operator L p self fg vars :=
  (operator_eq_apply_writes L p self fg vars).symm

end GenericLinks


/-! ## Rounding to `double` -/

section Rounding

/-- A rational strictly within one half of the integer `k` rounds to `k`. -/
theorem round_half_even_eq (x : ℚ) (k : ℤ) (h : |x - k| < 1 / 2) : round_half_even x = k := by
  rw [abs_lt] at h
  obtain ⟨h1, h2⟩ := h
  rcases le_or_lt (k : ℚ) x with hk | hk
  · have hf : ⌊x⌋ = k := Int.floor_eq_iff.mpr ⟨hk, by linarith⟩
    rw [round_half_even, hf, if_pos (by linarith)]
  · have hf : ⌊x⌋ = k - 1 := Int.floor_eq_iff.mpr ⟨by push_cast; linarith, by push_cast; linarith⟩
    rw [round_half_even, hf, if_neg (by push_cast; linarith), if_pos (by push_cast; linarith)]
    ring

/-- A rational half way between two integers rounds to the even one. -/
theorem round_half_even_tie (x : ℚ) (k : ℤ) (h : x = k - 1 / 2 ∨ x = k + 1 / 2)
    (hk : k % 2 = 0) : round_half_even x = k := by
  rcases h with h | h
  · have hf : ⌊x⌋ = k - 1 :=
      Int.floor_eq_iff.mpr ⟨by push_cast; linarith, by push_cast; linarith⟩
    have hodd : ¬ (k - 1) % 2 = 0 := by omega
    rw [round_half_even, hf, if_neg (by push_cast; linarith), if_neg (by push_cast; linarith),
      if_neg hodd]
    ring
  · have hf : ⌊x⌋ = k := Int.floor_eq_iff.mpr ⟨by linarith, by linarith⟩
    rw [round_half_even, hf, if_neg (by linarith), if_neg (by linarith), if_pos hk]

/-- The binary exponent of a positive rational in `[2 ^ n, 2 ^ (n + 1))` is `n`. -/
theorem log_two_eq (r : ℚ) (n : ℤ) (h1 : 2 ^ n ≤ r) (h2 : r < 2 ^ (n + 1)) :
    Int.log 2 r = n := by
  have hr : 0 < r := lt_of_lt_of_le (by positivity) h1
  have a : n ≤ Int.log 2 r := (Int.zpow_le_iff_le_log (by norm_num) hr).mp (by simpa using h1)
  have b : Int.log 2 r < n + 1 := (Int.lt_zpow_iff_log_lt (by norm_num) hr).mp (by simpa using h2)
  omega

/-- Rounding in the normal range: a number of exponent `n` that lies strictly within half a
unit in the last place of `k * 2 ^ (n - 52)` rounds to it. -/
theorem binary64_round_eq (q : ℚ) (n k : ℤ) (h1 : 2 ^ n ≤ |q|) (h2 : |q| < 2 ^ (n + 1))
    (hn : -1022 ≤ n) (hk : |q / 2 ^ (n - 52) - k| < 1 / 2) :
    binary64_round q = k * 2 ^ (n - 52) := by
  rw [binary64_round, log_two_eq |q| n h1 h2, max_eq_left hn, round_half_even_eq _ k hk]

/-- Zero is a `double`. -/
theorem binary64_round_zero : binary64_round 0 = 0 := by
  simp [binary64_round, round_half_even]

/-- Rounding below the normal range: the unit in the last place is `2 ^ (-1074)`. -/
theorem binary64_round_subnormal (q : ℚ) (k : ℤ) (h : |q| < 2 ^ (-1022 : ℤ))
    (hk : |q / 2 ^ (-1074 : ℤ) - k| < 1 / 2) : binary64_round q = k * 2 ^ (-1074 : ℤ) := by
  rcases eq_or_lt_of_le (abs_nonneg q) with h0 | hpos
  · have hq : q = 0 := abs_eq_zero.mp h0.symm
    subst hq
    have hk0 : k = 0 := by
      rw [zero_div, zero_sub, abs_neg, abs_lt] at hk
      have h1 : (-1 : ℚ) < k := by linarith [hk.1]
      have h2 : (k : ℚ) < 1 := by linarith [hk.2]
      have h3 : (-1 : ℤ) < k := by exact_mod_cast h1
      have h4 : k < 1 := by exact_mod_cast h2
      omega
    rw [hk0, binary64_round_zero]
    simp
  · have hlog : Int.log 2 |q| ≤ -1022 := by
      have h' : |q| < ((2 : ℕ) : ℚ) ^ (-1022 : ℤ) := by exact_mod_cast h
      have hlt : Int.log 2 |q| < -1022 := (Int.lt_zpow_iff_log_lt (by norm_num) hpos).mp h'
      omega
    rw [binary64_round, max_eq_right hlog]
    rw [show (-1022 : ℤ) - 52 = -1074 by norm_num, round_half_even_eq _ k hk]

/-- Rounding of a positive number of exponent `n` to the `double` `r = k * 2 ^ (n - 52)`. -/
theorem binary64_round_pos_eq (q r : ℚ) (n k : ℤ) (hn : -1022 ≤ n) (h1 : 2 ^ n ≤ q)
    (h2 : q < 2 ^ (n + 1)) (hk1 : (k : ℚ) - 1 / 2 < q / 2 ^ (n - 52))
    (hk2 : q / 2 ^ (n - 52) < k + 1 / 2) (hr : r = k * 2 ^ (n - 52)) :
    binary64_round q = r := by
  have hq : 0 < q := lt_of_lt_of_le (by positivity) h1
  rw [hr]
  refine binary64_round_eq q n k ?_ ?_ hn ?_
  · rwa [abs_of_pos hq]
  · rwa [abs_of_pos hq]
  · rw [abs_lt]
    constructor <;> linarith

/-- Rounding of a positive number of exponent `n` that lies half way between two `double`
values: the one with the even significand `k` is taken. -/
theorem binary64_round_pos_tie (q r : ℚ) (n k : ℤ) (hn : -1022 ≤ n) (h1 : 2 ^ n ≤ q)
    (h2 : q < 2 ^ (n + 1))
    (hk : q / 2 ^ (n - 52) = k - 1 / 2 ∨ q / 2 ^ (n - 52) = k + 1 / 2) (heven : k % 2 = 0)
    (hr : r = k * 2 ^ (n - 52)) : binary64_round q = r := by
  have hq : 0 < q := lt_of_lt_of_le (by positivity) h1
  rw [hr, binary64_round, log_two_eq |q| n (by rwa [abs_of_pos hq]) (by rwa [abs_of_pos hq]),
    max_eq_left hn, round_half_even_tie _ k hk heven]

end Rounding

/-! ## The evaluator over an arithmetic: which cells it leaves -/

section GenericCells

variable {R : Type} [LinearOrderedField R]

/-- The constraint assignments address the same cells, in the same order, whatever the
arithmetic. -/
theorem constraint_writes_in_indices (A : Arith R) (L : Lib R) (p : Params R)
    (self : FG_eval R) (vars : Dvector R) :
    (constraint_writes_in A L p self vars).map Prod.fst
      = (constraint_writes L p self vars).map Prod.fst := by
  rw [constraint_writes_indices, constraint_writes_in, List.map_append, List.map_flatMap]
  rfl

/-- Over any arithmetic, the cost cell `fg[0]` is the one left by the cost loops. -/
theorem operator_in_get_zero (A : Arith R) (L : Lib R) (p : Params R) (self : FG_eval R)
    (fg vars : Dvector R) (hN : 1 ≤ p.N) :
    (operator_in A L p self fg vars).get 0 = (cost_stage_in A p fg vars).get 0 := by
  refine apply_writes_get_of_not_mem _ _ 0 ?_
  rw [constraint_writes_in_indices, mem_constraint_writes_indices L p self vars hN]
  omega

/-- Over any arithmetic, the six residual cells of step `t`, `1 ≤ t < N`, hold the values
assigned at lines 116-121. -/
theorem operator_in_residuals (A : Arith R) (L : Lib R) (p : Params R) (self : FG_eval R)
    (fg vars : Dvector R) (t : Nat) (h1 : 1 ≤ t) (ht : t < p.N) :
    ∀ w ∈ dynamics_writes_in A L p self vars t,
      (operator_in A L p self fg vars).get w.1 = w.2 := by
  intro w hw
  refine apply_writes_get_of_mem _ _ ?_ w ?_
  · rw [constraint_writes_in_indices]
    exact nodup_constraint_writes_indices L p self vars (by omega)
  · rw [constraint_writes_in, List.mem_append, List.mem_flatMap]
    exact Or.inr ⟨t, List.mem_range'_1.mpr ⟨h1, by omega⟩, hw⟩

end GenericCells

/-! ## The two arithmetics are faithful -/

section FaithfulArith

/-- Rounding to the nearest integer keeps a non-negative number non-negative. -/
theorem round_half_even_nonneg (x : ℚ) (h : 0 ≤ x) : 0 ≤ round_half_even x := by
  have hf : 0 ≤ ⌊x⌋ := Int.floor_nonneg.mpr h
  unfold round_half_even
  split_ifs <;> omega

/-- Rounding to the nearest integer keeps a non-positive number non-positive. -/
theorem round_half_even_nonpos (x : ℚ) (h : x ≤ 0) : round_half_even x ≤ 0 := by
  have hf : ⌊x⌋ ≤ 0 := Int.floor_nonpos h
  have hne : ¬ x - ⌊x⌋ < 1 / 2 → ⌊x⌋ ≠ 0 := by
    intro h1 h0
    rw [h0] at h1
    apply h1
    push_cast
    linarith
  unfold round_half_even
  split_ifs with h1 h2 h3
  · exact hf
  · have := hne h1
    omega
  · exact hf
  · have := hne h1
    omega

/-- A rational that rounds to the integer 0 is at most one half in magnitude. -/
theorem abs_le_of_round_half_even_eq_zero (x : ℚ) (h : round_half_even x = 0) :
    |x| ≤ 1 / 2 := by
  have hl : (⌊x⌋ : ℚ) ≤ x := Int.floor_le x
  have hu : x < ⌊x⌋ + 1 := Int.lt_floor_add_one x
  unfold round_half_even at h
  rw [abs_le]
  split_ifs at h with h1 h2 h3
  · rw [h] at hl h1
    push_cast at hl h1
    constructor <;> linarith
  · have hf : ⌊x⌋ = -1 := by omega
    rw [hf] at hu h2
    push_cast at hu h2
    constructor <;> linarith
  · rw [h] at hl h1 h2
    push_cast at hl h1 h2
    constructor <;> linarith
  · have hf : ⌊x⌋ = -1 := by omega
    rw [hf] at hu h1 h2
    push_cast at hu h1 h2
    constructor <;> linarith

/-- Rounding to `double` keeps a non-negative number non-negative. -/
theorem binary64_round_nonneg (q : ℚ) (h : 0 ≤ q) : 0 ≤ binary64_round q := by
  unfold binary64_round
  exact mul_nonneg (Int.cast_nonneg.mpr (round_half_even_nonneg _
    (div_nonneg h (zpow_nonneg (by norm_num) _)))) (zpow_nonneg (by norm_num) _)

/-- Rounding to `double` keeps a non-positive number non-positive. -/
theorem binary64_round_nonpos (q : ℚ) (h : q ≤ 0) : binary64_round q ≤ 0 := by
  unfold binary64_round
  exact mul_nonpos_iff.mpr (Or.inr ⟨Int.cast_nonpos.mpr (round_half_even_nonpos _
    (div_nonpos_of_nonpos_of_nonneg h (zpow_nonneg (by norm_num) _))),
    zpow_nonneg (by norm_num) _⟩)

/-- Every result of rounding to `double` is a multiple of `2 ^ (-1074)`. -/
theorem on_grid_binary64_round (q : ℚ) : on_grid (binary64_round q) := by
  unfold binary64_round
  generalize hl : Int.log 2 |q| = l
  obtain ⟨n, hn⟩ : ∃ n : ℕ, max l (-1022) - 52 = -1074 + (n : ℤ) :=
    ⟨(max l (-1022) - 52 + 1074).toNat, by
      have := le_max_right l (-1022)
      omega⟩
  refine ⟨round_half_even (q / 2 ^ (max l (-1022) - 52)) * 2 ^ n, ?_⟩
  rw [hn, zpow_add₀ (by norm_num), zpow_natCast]
  push_cast
  ring

/-- The sum of two multiples of `2 ^ (-1074)` is one. -/
theorem on_grid_add (a b : ℚ) (ha : on_grid a) (hb : on_grid b) : on_grid (a + b) := by
  obtain ⟨m, rfl⟩ := ha
  obtain ⟨n, rfl⟩ := hb
  exact ⟨m + n, by push_cast; ring⟩

/-- The difference of two multiples of `2 ^ (-1074)` is one. -/
theorem on_grid_sub (a b : ℚ) (ha : on_grid a) (hb : on_grid b) : on_grid (a - b) := by
  obtain ⟨m, rfl⟩ := ha
  obtain ⟨n, rfl⟩ := hb
  exact ⟨m - n, by push_cast; ring⟩

/-- A multiple of `2 ^ (-1074)` that rounds to 0 is 0: nothing is lost by underflow on the
grid of the `double` values. -/
theorem eq_zero_of_binary64_round_eq_zero (q : ℚ) (hq : on_grid q)
    (h : binary64_round q = 0) : q = 0 := by
  by_contra hne
  obtain ⟨m, rfl⟩ := hq
  have hm : m ≠ 0 := by
    rintro rfl
    exact hne (by simp)
  have hpos : 0 < |(m : ℚ) * 2 ^ (-1074 : ℤ)| := abs_pos.mpr hne
  have hgrid : (2 : ℚ) ^ (-1074 : ℤ) ≤ |(m : ℚ) * 2 ^ (-1074 : ℤ)| := by
    rw [abs_mul, abs_of_pos (zpow_pos (by norm_num : (0 : ℚ) < 2) _)]
    have h1 : (1 : ℚ) ≤ |(m : ℚ)| := by
      have := Int.one_le_abs hm
      exact_mod_cast this
    have h2 : (0 : ℚ) < 2 ^ (-1074 : ℤ) := zpow_pos (by norm_num) _
    nlinarith
  have hlog : (2 : ℚ) ^ Int.log 2 |(m : ℚ) * 2 ^ (-1074 : ℤ)| ≤ |(m : ℚ) * 2 ^ (-1074 : ℤ)| := by
    have hnat : ((2 : ℕ) : ℚ) ^ Int.log 2 |(m : ℚ) * 2 ^ (-1074 : ℤ)|
        ≤ |(m : ℚ) * 2 ^ (-1074 : ℤ)| := Int.zpow_log_le_self (by norm_num) hpos
    exact_mod_cast hnat
  revert h hlog
  unfold binary64_round
  generalize Int.log 2 |(m : ℚ) * 2 ^ (-1074 : ℤ)| = l
  generalize hq : (m : ℚ) * 2 ^ (-1074 : ℤ) = q at *
  intro h hlog
  have he : (0 : ℚ) < 2 ^ (max l (-1022) - 52) := zpow_pos (by norm_num) _
  have hr : round_half_even (q / 2 ^ (max l (-1022) - 52)) = 0 := by
    rcases mul_eq_zero.mp h with h0 | h0
    · exact_mod_cast h0
    · exact absurd h0 (ne_of_gt he)
  have hhalf := abs_le_of_round_half_even_eq_zero _ hr
  rw [abs_div, abs_of_pos he, div_le_iff₀ he] at hhalf
  have hle : (2 : ℚ) ^ (max l (-1022) - 52) ≤ |q| := by
    rcases le_total l (-1022) with hc | hc
    · rw [max_eq_right hc]
      exact hgrid
    · rw [max_eq_left hc]
      exact le_trans (zpow_le_zpow_right₀ (by norm_num) (by omega)) hlog
  linarith

/-- The arithmetic of `double` is faithful on the multiples of `2 ^ (-1074)`. -/
theorem binary64_faithful : binary64.Faithful on_grid where
  zero_mem := ⟨0, by simp [binary64]⟩
  add_mem := fun _ _ => on_grid_binary64_round _
  mul_mem := fun _ _ => on_grid_binary64_round _
  pow_mem := fun x n => by
    cases n with
    | zero =>
      refine ⟨2 ^ 1074, ?_⟩
      show (1 : ℚ) = ((2 ^ 1074 : ℤ) : ℚ) * 2 ^ (-1074 : ℤ)
      rw [Int.cast_pow, Int.cast_ofNat, zpow_neg, zpow_ofNat,
        mul_inv_cancel₀ (pow_ne_zero _ (by norm_num))]
    | succ n => exact on_grid_binary64_round _
  sub_self := fun a => by
    show binary64_round (a - a) = 0
    rw [sub_self, binary64_round_zero]
  sub_eq_zero := fun a b ha hb h =>
    sub_eq_zero.mp (eq_zero_of_binary64_round_eq_zero _ (on_grid_sub a b ha hb) h)
  zero_le := le_refl (0 : ℚ)
  add_zero := by
    show binary64_round (0 + 0) = 0
    rw [add_zero, binary64_round_zero]
  add_nonneg := fun a b ha hb => binary64_round_nonneg _ (add_nonneg ha hb)
  add_eq_zero := fun a b ha hb h0a h0b h =>
    (add_eq_zero_iff_of_nonneg h0a h0b).mp
      (eq_zero_of_binary64_round_eq_zero _ (on_grid_add a b ha hb) h)
  sq_nonneg := fun x => by
    show 0 ≤ binary64_round (binary64_round (1 * x) * x)
    rw [one_mul]
    refine binary64_round_nonneg _ ?_
    rcases le_total 0 x with hx | hx
    · exact mul_nonneg (binary64_round_nonneg x hx) hx
    · exact mul_nonneg_of_nonpos_of_nonpos (binary64_round_nonpos x hx) hx
  sq_zero := by
    show binary64_round (binary64_round (1 * 0) * 0) = 0
    rw [mul_zero, binary64_round_zero]
  mul_nonneg := fun n y hy =>
    binary64_round_nonneg _ (mul_nonneg (binary64_round_nonneg _ (Nat.cast_nonneg n)) hy)
  mul_zero := fun a => by
    show binary64_round (a * 0) = 0
    rw [mul_zero, binary64_round_zero]

end FaithfulArith

section FaithfulExact

variable {R : Type} [LinearOrderedField R]

/-- The arithmetic of an ordered field is faithful, with no condition on the numbers. -/
theorem exact_faithful : (Arith.exact R).Faithful (fun _ => True) where
  zero_mem := trivial
  add_mem := fun _ _ => trivial
  mul_mem := fun _ _ => trivial
  pow_mem := fun _ _ => trivial
  sub_self := fun a => sub_self a
  sub_eq_zero := fun _ _ _ _ h => sub_eq_zero.mp h
  zero_le := le_refl (0 : R)
  add_zero := add_zero (0 : R)
  add_nonneg := fun _ _ ha hb => add_nonneg ha hb
  add_eq_zero := fun _ _ _ _ ha hb h => (add_eq_zero_iff_of_nonneg ha hb).mp h
  sq_nonneg := fun x => sq_nonneg x
  sq_zero := by
    show (0 : R) ^ 2 = 0
    norm_num
  mul_nonneg := fun n _ hy => mul_nonneg (Nat.cast_nonneg n) hy
  mul_zero := fun a => mul_zero a

end FaithfulExact

/-! ## A run in `double` arithmetic with all residuals zero -/

section ClosedForm

/-- A `double` minus itself is 0. -/
theorem binary64_sub_eq_zero (a b : ℚ) (h : b = a) : binary64.sub a b = 0 := by
  subst h
  show binary64_round (b - b) = 0
  rw [sub_self, binary64_round_zero]

/-- Prediction of `y` from `y = 0` with `sin psi = 0`. -/
theorem zero_prediction_y (v d : ℚ) :
    binary64.add 0 (binary64.mul (binary64.mul v 0) d) = 0 := by
  simp [binary64, binary64_round_zero]

/-- Prediction of `psi` from `psi = 0` with `delta = 0`. -/
theorem zero_prediction_psi (v d l : ℚ) :
    binary64.add 0 (binary64.div (binary64.mul (binary64.mul v 0) d) l) = 0 := by
  simp [binary64, binary64_round_zero]

/-- Prediction of `cte` from `f(x) = 0`, `y = 0` and `sin epsi = 0`. -/
theorem zero_prediction_cte (v d : ℚ) :
    binary64.add (binary64.sub 0 0) (binary64.mul (binary64.mul v 0) d) = 0 := by
  simp [binary64, binary64_round_zero]

/-- Prediction of `epsi` from `psi = 0`, `atan (f'(x)) = 0` and `delta = 0`. -/
theorem zero_prediction_epsi (v d l : ℚ) :
    binary64.add (binary64.sub 0 0)
      (binary64.div (binary64.mul (binary64.mul v 0) d) l) = 0 := by
  simp [binary64, binary64_round_zero]

/-- The literal `0.1` as a `double`. -/
theorem binary64_round_dt : binary64_round 0.1 = 3602879701896397 / 36028797018963968 :=
  binary64_round_pos_eq _ _ (-4) 7205759403792794 (by norm_num) (by norm_num) (by norm_num)
    (by norm_num) (by norm_num) (by norm_num)

/-- Step 1 of the run from `v = 1`, `x = 0` with `a = 1` in `double` arithmetic: the speed
and the position that make the residuals of step 1 zero. -/
theorem closed_form_step_1 :
    binary64_round (1 + binary64_round (1 * binary64_round 0.1)) = 2476979795053773 / 2251799813685248 ∧
    binary64_round (0 + binary64_round (binary64_round (1 * 1)
      * binary64_round 0.1)) = 3602879701896397 / 36028797018963968 := by
  rw [binary64_round_dt]
  have h1 : binary64_round (1 * (3602879701896397 / 36028797018963968)) = 3602879701896397 / 36028797018963968 :=
    binary64_round_pos_eq _ _ (-4) 7205759403792794 (by norm_num) (by norm_num) (by norm_num)
      (by norm_num) (by norm_num) (by norm_num)
  have h2 : binary64_round (1 + 3602879701896397 / 36028797018963968) = 2476979795053773 / 2251799813685248 :=
    binary64_round_pos_eq _ _ (0) 4953959590107546 (by norm_num) (by norm_num) (by norm_num)
      (by norm_num) (by norm_num) (by norm_num)
  have h3 : binary64_round (1 * 1) = 1 :=
    binary64_round_pos_eq _ _ (0) 4503599627370496 (by norm_num) (by norm_num) (by norm_num)
      (by norm_num) (by norm_num) (by norm_num)
  have h4 : binary64_round (1 * (3602879701896397 / 36028797018963968)) = 3602879701896397 / 36028797018963968 :=
    binary64_round_pos_eq _ _ (-4) 7205759403792794 (by norm_num) (by norm_num) (by norm_num)
      (by norm_num) (by norm_num) (by norm_num)
  have h5 : binary64_round (0 + 3602879701896397 / 36028797018963968) = 3602879701896397 / 36028797018963968 :=
    binary64_round_pos_eq _ _ (-4) 7205759403792794 (by norm_num) (by norm_num) (by norm_num)
      (by norm_num) (by norm_num) (by norm_num)
  refine ⟨?_, ?_⟩
  · rw [h1, h2]
  · rw [h3, h4, h5]

/-- Step 2 of the run from `v = 1`, `x = 0` with `a = 1` in `double` arithmetic: the speed
and the position that make the residuals of step 2 zero. -/
theorem closed_form_step_2 :
    binary64_round (2476979795053773 / 2251799813685248 + binary64_round (1 * binary64_round 0.1)) = 1351079888211149 / 1125899906842624 ∧
    binary64_round (3602879701896397 / 36028797018963968 + binary64_round (binary64_round (2476979795053773 / 2251799813685248 * 1)
      * binary64_round 0.1)) = 3783023686991217 / 18014398509481984 := by
  rw [binary64_round_dt]
  have h1 : binary64_round (1 * (3602879701896397 / 36028797018963968)) = 3602879701896397 / 36028797018963968 :=
    binary64_round_pos_eq _ _ (-4) 7205759403792794 (by norm_num) (by norm_num) (by norm_num)
      (by norm_num) (by norm_num) (by norm_num)
  have h2 : binary64_round (2476979795053773 / 2251799813685248 + 3602879701896397 / 36028797018963968) = 1351079888211149 / 1125899906842624 :=
    binary64_round_pos_eq _ _ (0) 5404319552844596 (by norm_num) (by norm_num) (by norm_num)
      (by norm_num) (by norm_num) (by norm_num)
  have h3 : binary64_round (2476979795053773 / 2251799813685248 * 1) = 2476979795053773 / 2251799813685248 :=
    binary64_round_pos_eq _ _ (0) 4953959590107546 (by norm_num) (by norm_num) (by norm_num)
      (by norm_num) (by norm_num) (by norm_num)
  have h4 : binary64_round (2476979795053773 / 2251799813685248 * (3602879701896397 / 36028797018963968)) = 3963167672086037 / 36028797018963968 :=
    binary64_round_pos_eq _ _ (-4) 7926335344172074 (by norm_num) (by norm_num) (by norm_num)
      (by norm_num) (by norm_num) (by norm_num)
  have h5 : binary64_round (3602879701896397 / 36028797018963968 + 3963167672086037 / 36028797018963968) = 3783023686991217 / 18014398509481984 :=
    binary64_round_pos_eq _ _ (-3) 7566047373982434 (by norm_num) (by norm_num) (by norm_num)
      (by norm_num) (by norm_num) (by norm_num)
  refine ⟨?_, ?_⟩
  · rw [h1, h2]
  · rw [h3, h4, h5]

/-- Step 3 of the run from `v = 1`, `x = 0` with `a = 1` in `double` arithmetic: the speed
and the position that make the residuals of step 3 zero. -/
theorem closed_form_step_3 :
    binary64_round (1351079888211149 / 1125899906842624 + binary64_round (1 * binary64_round 0.1)) = 2927339757790823 / 2251799813685248 ∧
    binary64_round (3783023686991217 / 18014398509481984 + binary64_round (binary64_round (1351079888211149 / 1125899906842624 * 1)
      * binary64_round 0.1)) = 185773484629033 / 562949953421312 := by
  rw [binary64_round_dt]
  have h1 : binary64_round (1 * (3602879701896397 / 36028797018963968)) = 3602879701896397 / 36028797018963968 :=
    binary64_round_pos_eq _ _ (-4) 7205759403792794 (by norm_num) (by norm_num) (by norm_num)
      (by norm_num) (by norm_num) (by norm_num)
  have h2 : binary64_round (1351079888211149 / 1125899906842624 + 3602879701896397 / 36028797018963968) = 2927339757790823 / 2251799813685248 :=
    binary64_round_pos_eq _ _ (0) 5854679515581646 (by norm_num) (by norm_num) (by norm_num)
      (by norm_num) (by norm_num) (by norm_num)
  have h3 : binary64_round (1351079888211149 / 1125899906842624 * 1) = 1351079888211149 / 1125899906842624 :=
    binary64_round_pos_eq _ _ (0) 5404319552844596 (by norm_num) (by norm_num) (by norm_num)
      (by norm_num) (by norm_num) (by norm_num)
  have h4 : binary64_round (1351079888211149 / 1125899906842624 * (3602879701896397 / 36028797018963968)) = 4323455642275677 / 36028797018963968 :=
    binary64_round_pos_eq _ _ (-4) 8646911284551354 (by norm_num) (by norm_num) (by norm_num)
      (by norm_num) (by norm_num) (by norm_num)
  have h5 : binary64_round (3783023686991217 / 18014398509481984 + 4323455642275677 / 36028797018963968) = 185773484629033 / 562949953421312 :=
    binary64_round_pos_tie _ _ (-2) 5944751508129056 (by norm_num) (by norm_num) (by norm_num)
      (Or.inl (by norm_num)) (by norm_num) (by norm_num)
  refine ⟨?_, ?_⟩
  · rw [h1, h2]
  · rw [h3, h4, h5]

/-- Step 4 of the run from `v = 1`, `x = 0` with `a = 1` in `double` arithmetic: the speed
and the position that make the residuals of step 4 zero. -/
theorem closed_form_step_4 :
    binary64_round (2927339757790823 / 2251799813685248 + binary64_round (1 * binary64_round 0.1)) = 788129934789837 / 562949953421312 ∧
    binary64_round (185773484629033 / 562949953421312 + binary64_round (binary64_round (2927339757790823 / 2251799813685248 * 1)
      * binary64_round 0.1)) = 4143311657180857 / 9007199254740992 := by
  rw [binary64_round_dt]
  have h1 : binary64_round (1 * (3602879701896397 / 36028797018963968)) = 3602879701896397 / 36028797018963968 :=
    binary64_round_pos_eq _ _ (-4) 7205759403792794 (by norm_num) (by norm_num) (by norm_num)
      (by norm_num) (by norm_num) (by norm_num)
  have h2 : binary64_round (2927339757790823 / 2251799813685248 + 3602879701896397 / 36028797018963968) = 788129934789837 / 562949953421312 :=
    binary64_round_pos_eq _ _ (0) 6305039478318696 (by norm_num) (by norm_num) (by norm_num)
      (by norm_num) (by norm_num) (by norm_num)
  have h3 : binary64_round (2927339757790823 / 2251799813685248 * 1) = 2927339757790823 / 2251799813685248 :=
    binary64_round_pos_eq _ _ (0) 5854679515581646 (by norm_num) (by norm_num) (by norm_num)
      (by norm_num) (by norm_num) (by norm_num)
  have h4 : binary64_round (2927339757790823 / 2251799813685248 * (3602879701896397 / 36028797018963968)) = 4683743612465317 / 36028797018963968 :=
    binary64_round_pos_eq _ _ (-3) 4683743612465317 (by norm_num) (by norm_num) (by norm_num)
      (by norm_num) (by norm_num) (by norm_num)
  have h5 : binary64_round (185773484629033 / 562949953421312 + 4683743612465317 / 36028797018963968) = 4143311657180857 / 9007199254740992 :=
    binary64_round_pos_tie _ _ (-2) 8286623314361714 (by norm_num) (by norm_num) (by norm_num)
      (Or.inr (by norm_num)) (by norm_num) (by norm_num)
  refine ⟨?_, ?_⟩
  · rw [h1, h2]
  · rw [h3, h4, h5]

/-- Step 5 of the run from `v = 1`, `x = 0` with `a = 1` in `double` arithmetic: the speed
and the position that make the residuals of step 5 zero. -/
theorem closed_form_step_5 :
    binary64_round (788129934789837 / 562949953421312 + binary64_round (1 * binary64_round 0.1)) = 3377699720527873 / 2251799813685248 ∧
    binary64_round (4143311657180857 / 9007199254740992 + binary64_round (binary64_round (788129934789837 / 562949953421312 * 1)
      * binary64_round 0.1)) = 1351079888211149 / 2251799813685248 := by
  rw [binary64_round_dt]
  have h1 : binary64_round (1 * (3602879701896397 / 36028797018963968)) = 3602879701896397 / 36028797018963968 :=
    binary64_round_pos_eq _ _ (-4) 7205759403792794 (by norm_num) (by norm_num) (by norm_num)
      (by norm_num) (by norm_num) (by norm_num)
  have h2 : binary64_round (788129934789837 / 562949953421312 + 3602879701896397 / 36028797018963968) = 3377699720527873 / 2251799813685248 :=
    binary64_round_pos_eq _ _ (0) 6755399441055746 (by norm_num) (by norm_num) (by norm_num)
      (by norm_num) (by norm_num) (by norm_num)
  have h3 : binary64_round (788129934789837 / 562949953421312 * 1) = 788129934789837 / 562949953421312 :=
    binary64_round_pos_eq _ _ (0) 6305039478318696 (by norm_num) (by norm_num) (by norm_num)
      (by norm_num) (by norm_num) (by norm_num)
  have h4 : binary64_round (788129934789837 / 562949953421312 * (3602879701896397 / 36028797018963968)) = 5044031582654957 / 36028797018963968 :=
    binary64_round_pos_eq _ _ (-3) 5044031582654957 (by norm_num) (by norm_num) (by norm_num)
      (by norm_num) (by norm_num) (by norm_num)
  have h5 : binary64_round (4143311657180857 / 9007199254740992 + 5044031582654957 / 36028797018963968) = 1351079888211149 / 2251799813685248 :=
    binary64_round_pos_eq _ _ (-1) 5404319552844596 (by norm_num) (by norm_num) (by norm_num)
      (by norm_num) (by norm_num) (by norm_num)
  refine ⟨?_, ?_⟩
  · rw [h1, h2]
  · rw [h3, h4, h5]

/-- Step 6 of the run from `v = 1`, `x = 0` with `a = 1` in `double` arithmetic: the speed
and the position that make the residuals of step 6 zero. -/
theorem closed_form_step_6 :
    binary64_round (3377699720527873 / 2251799813685248 + binary64_round (1 * binary64_round 0.1)) = 1801439850948199 / 1125899906842624 ∧
    binary64_round (1351079888211149 / 2251799813685248 + binary64_round (binary64_round (3377699720527873 / 2251799813685248 * 1)
      * binary64_round 0.1)) = 6755399441055745 / 9007199254740992 := by
  rw [binary64_round_dt]
  have h1 : binary64_round (1 * (3602879701896397 / 36028797018963968)) = 3602879701896397 / 36028797018963968 :=
    binary64_round_pos_eq _ _ (-4) 7205759403792794 (by norm_num) (by norm_num) (by norm_num)
      (by norm_num) (by norm_num) (by norm_num)
  have h2 : binary64_round (3377699720527873 / 2251799813685248 + 3602879701896397 / 36028797018963968) = 1801439850948199 / 1125899906842624 :=
    binary64_round_pos_eq _ _ (0) 7205759403792796 (by norm_num) (by norm_num) (by norm_num)
      (by norm_num) (by norm_num) (by norm_num)
  have h3 : binary64_round (3377699720527873 / 2251799813685248 * 1) = 3377699720527873 / 2251799813685248 :=
    binary64_round_pos_eq _ _ (0) 6755399441055746 (by norm_num) (by norm_num) (by norm_num)
      (by norm_num) (by norm_num) (by norm_num)
  have h4 : binary64_round (3377699720527873 / 2251799813685248 * (3602879701896397 / 36028797018963968)) = 5404319552844597 / 36028797018963968 :=
    binary64_round_pos_eq _ _ (-3) 5404319552844597 (by norm_num) (by norm_num) (by norm_num)
      (by norm_num) (by norm_num) (by norm_num)
  have h5 : binary64_round (1351079888211149 / 2251799813685248 + 5404319552844597 / 36028797018963968) = 6755399441055745 / 9007199254740992 :=
    binary64_round_pos_eq _ _ (-1) 6755399441055745 (by norm_num) (by norm_num) (by norm_num)
      (by norm_num) (by norm_num) (by norm_num)
  refine ⟨?_, ?_⟩
  · rw [h1, h2]
  · rw [h3, h4, h5]

/-- Step 7 of the run from `v = 1`, `x = 0` with `a = 1` in `double` arithmetic: the speed
and the position that make the residuals of step 7 zero. -/
theorem closed_form_step_7 :
    binary64_round (1801439850948199 / 1125899906842624 + binary64_round (1 * binary64_round 0.1)) = 3828059683264923 / 2251799813685248 ∧
    binary64_round (6755399441055745 / 9007199254740992 + binary64_round (binary64_round (1801439850948199 / 1125899906842624 * 1)
      * binary64_round 0.1)) = 256142228806697 / 281474976710656 := by
  rw [binary64_round_dt]
  have h1 : binary64_round (1 * (3602879701896397 / 36028797018963968)) = 3602879701896397 / 36028797018963968 :=
    binary64_round_pos_eq _ _ (-4) 7205759403792794 (by norm_num) (by norm_num) (by norm_num)
      (by norm_num) (by norm_num) (by norm_num)
  have h2 : binary64_round (1801439850948199 / 1125899906842624 + 3602879701896397 / 36028797018963968) = 3828059683264923 / 2251799813685248 :=
    binary64_round_pos_eq _ _ (0) 7656119366529846 (by norm_num) (by norm_num) (by norm_num)
      (by norm_num) (by norm_num) (by norm_num)
  have h3 : binary64_round (1801439850948199 / 1125899906842624 * 1) = 1801439850948199 / 1125899906842624 :=
    binary64_round_pos_eq _ _ (0) 7205759403792796 (by norm_num) (by norm_num) (by norm_num)
      (by norm_num) (by norm_num) (by norm_num)
  have h4 : binary64_round (1801439850948199 / 1125899906842624 * (3602879701896397 / 36028797018963968)) = 5764607523034237 / 36028797018963968 :=
    binary64_round_pos_eq _ _ (-3) 5764607523034237 (by norm_num) (by norm_num) (by norm_num)
      (by norm_num) (by norm_num) (by norm_num)
  have h5 : binary64_round (6755399441055745 / 9007199254740992 + 5764607523034237 / 36028797018963968) = 256142228806697 / 281474976710656 :=
    binary64_round_pos_eq _ _ (-1) 8196551321814304 (by norm_num) (by norm_num) (by norm_num)
      (by norm_num) (by norm_num) (by norm_num)
  refine ⟨?_, ?_⟩
  · rw [h1, h2]
  · rw [h3, h4, h5]

/-- Step 8 of the run from `v = 1`, `x = 0` with `a = 1` in `double` arithmetic: the speed
and the position that make the residuals of step 8 zero. -/
theorem closed_form_step_8 :
    binary64_round (3828059683264923 / 2251799813685248 + binary64_round (1 * binary64_round 0.1)) = 506654958079181 / 281474976710656 ∧
    binary64_round (256142228806697 / 281474976710656 + binary64_round (binary64_round (3828059683264923 / 2251799813685248 * 1)
      * binary64_round 0.1)) = 4863887597560137 / 4503599627370496 := by
  rw [binary64_round_dt]
  have h1 : binary64_round (1 * (3602879701896397 / 36028797018963968)) = 3602879701896397 / 36028797018963968 :=
    binary64_round_pos_eq _ _ (-4) 7205759403792794 (by norm_num) (by norm_num) (by norm_num)
      (by norm_num) (by norm_num) (by norm_num)
  have h2 : binary64_round (3828059683264923 / 2251799813685248 + 3602879701896397 / 36028797018963968) = 506654958079181 / 281474976710656 :=
    binary64_round_pos_eq _ _ (0) 8106479329266896 (by norm_num) (by norm_num) (by norm_num)
      (by norm_num) (by norm_num) (by norm_num)
  have h3 : binary64_round (3828059683264923 / 2251799813685248 * 1) = 3828059683264923 / 2251799813685248 :=
    binary64_round_pos_eq _ _ (0) 7656119366529846 (by norm_num) (by norm_num) (by norm_num)
      (by norm_num) (by norm_num) (by norm_num)
  have h4 : binary64_round (3828059683264923 / 2251799813685248 * (3602879701896397 / 36028797018963968)) = 6124895493223877 / 36028797018963968 :=
    binary64_round_pos_eq _ _ (-3) 6124895493223877 (by norm_num) (by norm_num) (by norm_num)
      (by norm_num) (by norm_num) (by norm_num)
  have h5 : binary64_round (256142228806697 / 281474976710656 + 6124895493223877 / 36028797018963968) = 4863887597560137 / 4503599627370496 :=
    binary64_round_pos_eq _ _ (0) 4863887597560137 (by norm_num) (by norm_num) (by norm_num)
      (by norm_num) (by norm_num) (by norm_num)
  refine ⟨?_, ?_⟩
  · rw [h1, h2]
  · rw [h3, h4, h5]

/-- Step 9 of the run from `v = 1`, `x = 0` with `a = 1` in `double` arithmetic: the speed
and the position that make the residuals of step 9 zero. -/
theorem closed_form_step_9 :
    binary64_round (506654958079181 / 281474976710656 + binary64_round (1 * binary64_round 0.1)) = 4278419646001973 / 2251799813685248 ∧
    binary64_round (4863887597560137 / 4503599627370496 + binary64_round (binary64_round (506654958079181 / 281474976710656 * 1)
      * binary64_round 0.1)) = 5674535530486827 / 4503599627370496 := by
  rw [binary64_round_dt]
  have h1 : binary64_round (1 * (3602879701896397 / 36028797018963968)) = 3602879701896397 / 36028797018963968 :=
    binary64_round_pos_eq _ _ (-4) 7205759403792794 (by norm_num) (by norm_num) (by norm_num)
      (by norm_num) (by norm_num) (by norm_num)
  have h2 : binary64_round (506654958079181 / 281474976710656 + 3602879701896397 / 36028797018963968) = 4278419646001973 / 2251799813685248 :=
    binary64_round_pos_eq _ _ (0) 8556839292003946 (by norm_num) (by norm_num) (by norm_num)
      (by norm_num) (by norm_num) (by norm_num)
  have h3 : binary64_round (506654958079181 / 281474976710656 * 1) = 506654958079181 / 281474976710656 :=
    binary64_round_pos_eq _ _ (0) 8106479329266896 (by norm_num) (by norm_num) (by norm_num)
      (by norm_num) (by norm_num) (by norm_num)
  have h4 : binary64_round (506654958079181 / 281474976710656 * (3602879701896397 / 36028797018963968)) = 6485183463413517 / 36028797018963968 :=
    binary64_round_pos_eq _ _ (-3) 6485183463413517 (by norm_num) (by norm_num) (by norm_num)
      (by norm_num) (by norm_num) (by norm_num)
  have h5 : binary64_round (4863887597560137 / 4503599627370496 + 6485183463413517 / 36028797018963968) = 5674535530486827 / 4503599627370496 :=
    binary64_round_pos_eq _ _ (0) 5674535530486827 (by norm_num) (by norm_num) (by norm_num)
      (by norm_num) (by norm_num) (by norm_num)
  refine ⟨?_, ?_⟩
  · rw [h1, h2]
  · rw [h3, h4, h5]

/-- In `double` arithmetic every residual of lines 116-121 is 0 on `closed_form_input`, at
every step `1 ≤ t < 10`. -/
theorem closed_form_residuals (t : Nat) (h1 : 1 ≤ t) (ht : t < 10) :
    ∀ w ∈ dynamics_writes_in binary64 lib_at_zero (globals64 10) ⟨[]⟩ closed_form_input t,
      w.2 = 0 := by
  interval_cases t
  · intro w hw
    simp only [dynamics_writes_in, List.mem_cons, List.mem_singleton, List.not_mem_nil,
      or_false] at hw
    rcases hw with rfl | rfl | rfl | rfl | rfl | rfl
    · exact binary64_sub_eq_zero _ _ closed_form_step_1.2
    · exact binary64_sub_eq_zero _ _ (zero_prediction_y _ _)
    · exact binary64_sub_eq_zero _ _ (zero_prediction_psi _ _ _)
    · exact binary64_sub_eq_zero _ _ closed_form_step_1.1
    · exact binary64_sub_eq_zero _ _ (zero_prediction_cte _ _)
    · exact binary64_sub_eq_zero _ _ (zero_prediction_epsi _ _ _)
  · intro w hw
    simp only [dynamics_writes_in, List.mem_cons, List.mem_singleton, List.not_mem_nil,
      or_false] at hw
    rcases hw with rfl | rfl | rfl | rfl | rfl | rfl
    · exact binary64_sub_eq_zero _ _ closed_form_step_2.2
    · exact binary64_sub_eq_zero _ _ (zero_prediction_y _ _)
    · exact binary64_sub_eq_zero _ _ (zero_prediction_psi _ _ _)
    · exact binary64_sub_eq_zero _ _ closed_form_step_2.1
    · exact binary64_sub_eq_zero _ _ (zero_prediction_cte _ _)
    · exact binary64_sub_eq_zero _ _ (zero_prediction_epsi _ _ _)
  · intro w hw
    simp only [dynamics_writes_in, List.mem_cons, List.mem_singleton, List.not_mem_nil,
      or_false] at hw
    rcases hw with rfl | rfl | rfl | rfl | rfl | rfl
    · exact binary64_sub_eq_zero _ _ closed_form_step_3.2
    · exact binary64_sub_eq_zero _ _ (zero_prediction_y _ _)
    · exact binary64_sub_eq_zero _ _ (zero_prediction_psi _ _ _)
    · exact binary64_sub_eq_zero _ _ closed_form_step_3.1
    · exact binary64_sub_eq_zero _ _ (zero_prediction_cte _ _)
    · exact binary64_sub_eq_zero _ _ (zero_prediction_epsi _ _ _)
  · intro w hw
    simp only [dynamics_writes_in, List.mem_cons, List.mem_singleton, List.not_mem_nil,
      or_false] at hw
    rcases hw with rfl | rfl | rfl | rfl | rfl | rfl
    · exact binary64_sub_eq_zero _ _ closed_form_step_4.2
    · exact binary64_sub_eq_zero _ _ (zero_prediction_y _ _)
    · exact binary64_sub_eq_zero _ _ (zero_prediction_psi _ _ _)
    · exact binary64_sub_eq_zero _ _ closed_form_step_4.1
    · exact binary64_sub_eq_zero _ _ (zero_prediction_cte _ _)
    · exact binary64_sub_eq_zero _ _ (zero_prediction_epsi _ _ _)
  · intro w hw
    simp only [dynamics_writes_in, List.mem_cons, List.mem_singleton, List.not_mem_nil,
      or_false] at hw
    rcases hw with rfl | rfl | rfl | rfl | rfl | rfl
    · exact binary64_sub_eq_zero _ _ closed_form_step_5.2
    · exact binary64_sub_eq_zero _ _ (zero_prediction_y _ _)
    · exact binary64_sub_eq_zero _ _ (zero_prediction_psi _ _ _)
    · exact binary64_sub_eq_zero _ _ closed_form_step_5.1
    · exact binary64_sub_eq_zero _ _ (zero_prediction_cte _ _)
    · exact binary64_sub_eq_zero _ _ (zero_prediction_epsi _ _ _)
  · intro w hw
    simp only [dynamics_writes_in, List.mem_cons, List.mem_singleton, List.not_mem_nil,
      or_false] at hw
    rcases hw with rfl | rfl | rfl | rfl | rfl | rfl
    · exact binary64_sub_eq_zero _ _ closed_form_step_6.2
    · exact binary64_sub_eq_zero _ _ (zero_prediction_y _ _)
    · exact binary64_sub_eq_zero _ _ (zero_prediction_psi _ _ _)
    · exact binary64_sub_eq_zero _ _ closed_form_step_6.1
    · exact binary64_sub_eq_zero _ _ (zero_prediction_cte _ _)
    · exact binary64_sub_eq_zero _ _ (zero_prediction_epsi _ _ _)
  · intro w hw
    simp only [dynamics_writes_in, List.mem_cons, List.mem_singleton, List.not_mem_nil,
      or_false] at hw
    rcases hw with rfl | rfl | rfl | rfl | rfl | rfl
    · exact binary64_sub_eq_zero _ _ closed_form_step_7.2
    · exact binary64_sub_eq_zero _ _ (zero_prediction_y _ _)
    · exact binary64_sub_eq_zero _ _ (zero_prediction_psi _ _ _)
    · exact binary64_sub_eq_zero _ _ closed_form_step_7.1
    · exact binary64_sub_eq_zero _ _ (zero_prediction_cte _ _)
    · exact binary64_sub_eq_zero _ _ (zero_prediction_epsi _ _ _)
  · intro w hw
    simp only [dynamics_writes_in, List.mem_cons, List.mem_singleton, List.not_mem_nil,
      or_false] at hw
    rcases hw with rfl | rfl | rfl | rfl | rfl | rfl
    · exact binary64_sub_eq_zero _ _ closed_form_step_8.2
    · exact binary64_sub_eq_zero _ _ (zero_prediction_y _ _)
    · exact binary64_sub_eq_zero _ _ (zero_prediction_psi _ _ _)
    · exact binary64_sub_eq_zero _ _ closed_form_step_8.1
    · exact binary64_sub_eq_zero _ _ (zero_prediction_cte _ _)
    · exact binary64_sub_eq_zero _ _ (zero_prediction_epsi _ _ _)
  · intro w hw
    simp only [dynamics_writes_in, List.mem_cons, List.mem_singleton, List.not_mem_nil,
      or_false] at hw
    rcases hw with rfl | rfl | rfl | rfl | rfl | rfl
    · exact binary64_sub_eq_zero _ _ closed_form_step_9.2
    · exact binary64_sub_eq_zero _ _ (zero_prediction_y _ _)
    · exact binary64_sub_eq_zero _ _ (zero_prediction_psi _ _ _)
    · exact binary64_sub_eq_zero _ _ closed_form_step_9.1
    · exact binary64_sub_eq_zero _ _ (zero_prediction_cte _ _)
    · exact binary64_sub_eq_zero _ _ (zero_prediction_epsi _ _ _)

/-- Each entry of the trace of step `t` addresses the residual cell of one state block. -/
theorem dynamics_writes_in_cell {α : Type} (A : Arith α) (L : Lib α) (p : Params α)
    (self : FG_eval α) (vars : Dvector α) (t s : Nat) (hs : s ∈ state_starts p.N) :
    ∃ w ∈ dynamics_writes_in A L p self vars t, w.1 = 1 + s + t := by
  have h : (dynamics_writes_in A L p self vars t).map Prod.fst
      = (state_starts p.N).map (fun s => 1 + s + t) := rfl
  have hmem : 1 + s + t ∈ (state_starts p.N).map (fun s => 1 + s + t) :=
    List.mem_map_of_mem _ hs
  rw [← h, List.mem_map] at hmem
  exact hmem

/-- Evaluated in `double` arithmetic on `closed_form_input`, with horizon 10, the polynomial
with no coefficient and `cos 0 = 1`, `sin 0 = 0`, `atan 0 = 0`, every dynamics residual cell
`fg[1 + q_start + t]`, `1 ≤ t < 10`, is 0, whatever `fg` held on entry. -/
theorem closed_form_residual_cells (fg : Dvector ℚ) :
    ∀ t, 1 ≤ t → t < (globals64 10).N → ∀ s ∈ state_starts (globals64 10).N,
      (operator_in binary64 lib_at_zero (globals64 10) ⟨[]⟩ fg closed_form_input).get
        (1 + s + t) = binary64.zero := by
  intro t h1 ht s hs
  obtain ⟨w, hw, e⟩ := dynamics_writes_in_cell binary64 lib_at_zero (globals64 10) ⟨[]⟩
    closed_form_input t s hs
  rw [← e, operator_in_residuals binary64 lib_at_zero (globals64 10) ⟨[]⟩ fg
    closed_form_input t h1 ht w hw]
  exact closed_form_residuals t h1 ht w hw

/-- A rational `k / 2 ^ e` with `e ≤ 1074` is a multiple of `2 ^ (-1074)`. -/
theorem on_grid_dyadic (k : ℤ) (e : ℕ) (he : e ≤ 1074) (q : ℚ) (hq : q = k / 2 ^ e) :
    on_grid q := by
  obtain ⟨d, hd⟩ := Nat.exists_eq_add_of_le he
  refine ⟨k * 2 ^ d, ?_⟩
  have h2 : (2 : ℚ) ^ (-1074 : ℤ) = ((2 : ℚ) ^ e * 2 ^ d)⁻¹ := by
    rw [← pow_add, ← hd, zpow_neg, zpow_ofNat]
  rw [hq, h2]
  push_cast
  field_simp
  ring

/-- Every cell of `closed_form_input` is a multiple of `2 ^ (-1074)`. -/
theorem closed_form_input_on_grid :
    ∀ i, i < n_vars (globals64 10).N → on_grid (closed_form_input.get i) := by
  intro i hi
  have hi' : i < 78 := hi
  interval_cases i
  · show on_grid (0)
    exact on_grid_dyadic 0 0 (by norm_num) _ (by norm_num)
  · show on_grid (3602879701896397 / 36028797018963968)
    exact on_grid_dyadic 3602879701896397 55 (by norm_num) _ (by norm_num)
  · show on_grid (3783023686991217 / 18014398509481984)
    exact on_grid_dyadic 3783023686991217 54 (by norm_num) _ (by norm_num)
  · show on_grid (185773484629033 / 562949953421312)
    exact on_grid_dyadic 185773484629033 49 (by norm_num) _ (by norm_num)
  · show on_grid (4143311657180857 / 9007199254740992)
    exact on_grid_dyadic 4143311657180857 53 (by norm_num) _ (by norm_num)
  · show on_grid (1351079888211149 / 2251799813685248)
    exact on_grid_dyadic 1351079888211149 51 (by norm_num) _ (by norm_num)
  · show on_grid (6755399441055745 / 9007199254740992)
    exact on_grid_dyadic 6755399441055745 53 (by norm_num) _ (by norm_num)
  · show on_grid (256142228806697 / 281474976710656)
    exact on_grid_dyadic 256142228806697 48 (by norm_num) _ (by norm_num)
  · show on_grid (4863887597560137 / 4503599627370496)
    exact on_grid_dyadic 4863887597560137 52 (by norm_num) _ (by norm_num)
  · show on_grid (5674535530486827 / 4503599627370496)
    exact on_grid_dyadic 5674535530486827 52 (by norm_num) _ (by norm_num)
  · show on_grid (0)
    exact on_grid_dyadic 0 0 (by norm_num) _ (by norm_num)
  · show on_grid (0)
    exact on_grid_dyadic 0 0 (by norm_num) _ (by norm_num)
  · show on_grid (0)
    exact on_grid_dyadic 0 0 (by norm_num) _ (by norm_num)
  · show on_grid (0)
    exact on_grid_dyadic 0 0 (by norm_num) _ (by norm_num)
  · show on_grid (0)
    exact on_grid_dyadic 0 0 (by norm_num) _ (by norm_num)
  · show on_grid (0)
    exact on_grid_dyadic 0 0 (by norm_num) _ (by norm_num)
  · show on_grid (0)
    exact on_grid_dyadic 0 0 (by norm_num) _ (by norm_num)
  · show on_grid (0)
    exact on_grid_dyadic 0 0 (by norm_num) _ (by norm_num)
  · show on_grid (0)
    exact on_grid_dyadic 0 0 (by norm_num) _ (by norm_num)
  · show on_grid (0)
    exact on_grid_dyadic 0 0 (by norm_num) _ (by norm_num)
  · show on_grid (0)
    exact on_grid_dyadic 0 0 (by norm_num) _ (by norm_num)
  · show on_grid (0)
    exact on_grid_dyadic 0 0 (by norm_num) _ (by norm_num)
  · show on_grid (0)
    exact on_grid_dyadic 0 0 (by norm_num) _ (by norm_num)
  · show on_grid (0)
    exact on_grid_dyadic 0 0 (by norm_num) _ (by norm_num)
  · show on_grid (0)
    exact on_grid_dyadic 0 0 (by norm_num) _ (by norm_num)
  · show on_grid (0)
    exact on_grid_dyadic 0 0 (by norm_num) _ (by norm_num)
  · show on_grid (0)
    exact on_grid_dyadic 0 0 (by norm_num) _ (by norm_num)
  · show on_grid (0)
    exact on_grid_dyadic 0 0 (by norm_num) _ (by norm_num)
  · show on_grid (0)
    exact on_grid_dyadic 0 0 (by norm_num) _ (by norm_num)
  · show on_grid (0)
    exact on_grid_dyadic 0 0 (by norm_num) _ (by norm_num)
  · show on_grid (1)
    exact on_grid_dyadic 1 0 (by norm_num) _ (by norm_num)
  · show on_grid (2476979795053773 / 2251799813685248)
    exact on_grid_dyadic 2476979795053773 51 (by norm_num) _ (by norm_num)
  · show on_grid (1351079888211149 / 1125899906842624)
    exact on_grid_dyadic 1351079888211149 50 (by norm_num) _ (by norm_num)
  · show on_grid (2927339757790823 / 2251799813685248)
    exact on_grid_dyadic 2927339757790823 51 (by norm_num) _ (by norm_num)
  · show on_grid (788129934789837 / 562949953421312)
    exact on_grid_dyadic 788129934789837 49 (by norm_num) _ (by norm_num)
  · show on_grid (3377699720527873 / 2251799813685248)
    exact on_grid_dyadic 3377699720527873 51 (by norm_num) _ (by norm_num)
  · show on_grid (1801439850948199 / 1125899906842624)
    exact on_grid_dyadic 1801439850948199 50 (by norm_num) _ (by norm_num)
  · show on_grid (3828059683264923 / 2251799813685248)
    exact on_grid_dyadic 3828059683264923 51 (by norm_num) _ (by norm_num)
  · show on_grid (506654958079181 / 281474976710656)
    exact on_grid_dyadic 506654958079181 48 (by norm_num) _ (by norm_num)
  · show on_grid (4278419646001973 / 2251799813685248)
    exact on_grid_dyadic 4278419646001973 51 (by norm_num) _ (by norm_num)
  · show on_grid (0)
    exact on_grid_dyadic 0 0 (by norm_num) _ (by norm_num)
  · show on_grid (0)
    exact on_grid_dyadic 0 0 (by norm_num) _ (by norm_num)
  · show on_grid (0)
    exact on_grid_dyadic 0 0 (by norm_num) _ (by norm_num)
  · show on_grid (0)
    exact on_grid_dyadic 0 0 (by norm_num) _ (by norm_num)
  · show on_grid (0)
    exact on_grid_dyadic 0 0 (by norm_num) _ (by norm_num)
  · show on_grid (0)
    exact on_grid_dyadic 0 0 (by norm_num) _ (by norm_num)
  · show on_grid (0)
    exact on_grid_dyadic 0 0 (by norm_num) _ (by norm_num)
  · show on_grid (0)
    exact on_grid_dyadic 0 0 (by norm_num) _ (by norm_num)
  · show on_grid (0)
    exact on_grid_dyadic 0 0 (by norm_num) _ (by norm_num)
  · show on_grid (0)
    exact on_grid_dyadic 0 0 (by norm_num) _ (by norm_num)
  · show on_grid (0)
    exact on_grid_dyadic 0 0 (by norm_num) _ (by norm_num)
  · show on_grid (0)
    exact on_grid_dyadic 0 0 (by norm_num) _ (by norm_num)
  · show on_grid (0)
    exact on_grid_dyadic 0 0 (by norm_num) _ (by norm_num)
  · show on_grid (0)
    exact on_grid_dyadic 0 0 (by norm_num) _ (by norm_num)
  · show on_grid (0)
    exact on_grid_dyadic 0 0 (by norm_num) _ (by norm_num)
  · show on_grid (0)
    exact on_grid_dyadic 0 0 (by norm_num) _ (by norm_num)
  · show on_grid (0)
    exact on_grid_dyadic 0 0 (by norm_num) _ (by norm_num)
  · show on_grid (0)
    exact on_grid_dyadic 0 0 (by norm_num) _ (by norm_num)
  · show on_grid (0)
    exact on_grid_dyadic 0 0 (by norm_num) _ (by norm_num)
  · show on_grid (0)
    exact on_grid_dyadic 0 0 (by norm_num) _ (by norm_num)
  · show on_grid (0)
    exact on_grid_dyadic 0 0 (by norm_num) _ (by norm_num)
  · show on_grid (0)
    exact on_grid_dyadic 0 0 (by norm_num) _ (by norm_num)
  · show on_grid (0)
    exact on_grid_dyadic 0 0 (by norm_num) _ (by norm_num)
  · show on_grid (0)
    exact on_grid_dyadic 0 0 (by norm_num) _ (by norm_num)
  · show on_grid (0)
    exact on_grid_dyadic 0 0 (by norm_num) _ (by norm_num)
  · show on_grid (0)
    exact on_grid_dyadic 0 0 (by norm_num) _ (by norm_num)
  · show on_grid (0)
    exact on_grid_dyadic 0 0 (by norm_num) _ (by norm_num)
  · show on_grid (0)
    exact on_grid_dyadic 0 0 (by norm_num) _ (by norm_num)
  · show on_grid (0)
    exact on_grid_dyadic 0 0 (by norm_num) _ (by norm_num)
  · show on_grid (1)
    exact on_grid_dyadic 1 0 (by norm_num) _ (by norm_num)
  · show on_grid (1)
    exact on_grid_dyadic 1 0 (by norm_num) _ (by norm_num)
  · show on_grid (1)
    exact on_grid_dyadic 1 0 (by norm_num) _ (by norm_num)
  · show on_grid (1)
    exact on_grid_dyadic 1 0 (by norm_num) _ (by norm_num)
  · show on_grid (1)
    exact on_grid_dyadic 1 0 (by norm_num) _ (by norm_num)
  · show on_grid (1)
    exact on_grid_dyadic 1 0 (by norm_num) _ (by norm_num)
  · show on_grid (1)
    exact on_grid_dyadic 1 0 (by norm_num) _ (by norm_num)
  · show on_grid (1)
    exact on_grid_dyadic 1 0 (by norm_num) _ (by norm_num)
  · show on_grid (1)
    exact on_grid_dyadic 1 0 (by norm_num) _ (by norm_num)

/-- The speed formula `v_0 + dt * (a_0 + a_1)` evaluated in `double` arithmetic at
`v_0 = 1`, `a_0 = a_1 = 1`: the `double` nearest to 1.2. -/
theorem closed_form_rounded :
    binary64.add 1 (binary64.mul (binary64_round 0.1) (binary64.add 1 1))
      = 5404319552844595 / 4503599627370496 := by
  show binary64_round (1 + binary64_round (binary64_round 0.1 * binary64_round (1 + 1))) = _
  rw [binary64_round_dt]
  have h1 : binary64_round (1 + 1) = 2 :=
    binary64_round_pos_eq _ _ (1) 4503599627370496 (by norm_num) (by norm_num) (by norm_num)
      (by norm_num) (by norm_num) (by norm_num)
  have h2 : binary64_round (3602879701896397 / 36028797018963968 * 2) = 3602879701896397 / 18014398509481984 :=
    binary64_round_pos_eq _ _ (-3) 7205759403792794 (by norm_num) (by norm_num) (by norm_num)
      (by norm_num) (by norm_num) (by norm_num)
  have h3 : binary64_round (1 + 3602879701896397 / 18014398509481984) = 5404319552844595 / 4503599627370496 :=
    binary64_round_pos_eq _ _ (0) 5404319552844595 (by norm_num) (by norm_num) (by norm_num)
      (by norm_num) (by norm_num) (by norm_num)
  rw [h1, h2, h3]

/-- Claim C19, as stated, fails in the arithmetic of the code. Horizon 10, the polynomial
with no coefficient, `cos 0 = 1`, `sin 0 = 0`, `atan 0 = 0`, the decision vector
`closed_form_input` (`v_0 = 1`, every `a_k = 1`, every `delta_k = 0`): evaluated in `double`
arithmetic every dynamics residual `fg[1 + q_start + t]`, `1 ≤ t < 10`, is 0, while
`v_2 = 1.2000000000000002` is neither `v_0 + dt * (a_0 + a_1)` as a number (with `dt` the
`double` 0.1 or the rational 1/10) nor that formula evaluated in `double` arithmetic. -/
theorem closed_form_counterexample :
    (∀ t, 1 ≤ t → t < (globals64 10).N → ∀ s ∈ state_starts (globals64 10).N,
      (operator_in binary64 lib_at_zero (globals64 10) ⟨[]⟩ (Dvector.alloc 61 (fun _ => 0))
        closed_form_input).get (1 + s + t) = 0) ∧
    closed_form_input.get (v_start 10 + 2) ≠
      closed_form_input.get (v_start 10) + (globals64 10).dt *
        ∑ k ∈ Finset.range 2, closed_form_input.get (a_start 10 + k) ∧
    closed_form_input.get (v_start 10 + 2) ≠
      closed_form_input.get (v_start 10) + 1 / 10 *
        ∑ k ∈ Finset.range 2, closed_form_input.get (a_start 10 + k) ∧
    closed_form_input.get (v_start 10 + 2) ≠
      binary64.add (closed_form_input.get (v_start 10))
        (binary64.mul (globals64 10).dt
          (binary64.add (closed_form_input.get (a_start 10 + 0))
            (closed_form_input.get (a_start 10 + 1)))) := by
  have hv2 : closed_form_input.get (v_start 10 + 2) = 1351079888211149 / 1125899906842624 := rfl
  have hv0 : closed_form_input.get (v_start 10) = 1 := rfl
  have ha0 : closed_form_input.get (a_start 10 + 0) = 1 := rfl
  have ha1 : closed_form_input.get (a_start 10 + 1) = 1 := rfl
  have hdt : (globals64 10).dt = binary64_round 0.1 := rfl
  refine ⟨closed_form_residual_cells _, ?_, ?_, ?_⟩
  · rw [Finset.sum_range_succ, Finset.sum_range_one, hv2, hv0, ha0, ha1, hdt,
      binary64_round_dt]
    norm_num
  · rw [Finset.sum_range_succ, Finset.sum_range_one, hv2, hv0, ha0, ha1]
    norm_num
  · rw [hv2, hv0, ha0, ha1, hdt, closed_form_rounded]
    norm_num

end ClosedForm

/-! ## Zero residuals determine the trajectory, over a faithful arithmetic -/

section TrajectoryIn

variable {R : Type} [LinearOrderedField R]

/-- When all the dynamics residuals left by `FG_eval::operator()` are zero, the six state
values of step `t + 1` are the predictions of lines 116-121 from the values of step `t`,
computed in the arithmetic of the evaluator. -/
theorem feasible_step_in (A : Arith R) (D : R → Prop) (hA : A.Faithful D) (L : Lib R)
    (p : Params R) (self : FG_eval R) (fg vars : Dvector R)
    (hD : ∀ i, i < n_vars p.N → D (vars.get i))
    (hz : ∀ t, 1 ≤ t → t < p.N → ∀ s ∈ state_starts p.N,
      (operator_in A L p self fg vars).get (1 + s + t) = A.zero)
    (t : Nat) (ht : t + 1 < p.N) :
    vars.get (x_start p.N + (t + 1)) = A.add (vars.get (x_start p.N + t))
        (A.mul (A.mul (vars.get (v_start p.N + t)) (L.cos (vars.get (psi_start p.N + t))))
          p.dt) ∧
    vars.get (y_start p.N + (t + 1)) = A.add (vars.get (y_start p.N + t))
        (A.mul (A.mul (vars.get (v_start p.N + t)) (L.sin (vars.get (psi_start p.N + t))))
          p.dt) ∧
    vars.get (psi_start p.N + (t + 1)) = A.add (vars.get (psi_start p.N + t))
        (A.div (A.mul (A.mul (vars.get (v_start p.N + t)) (vars.get (delta_start p.N + t)))
          p.dt) p.Lf) ∧
    vars.get (v_start p.N + (t + 1)) = A.add (vars.get (v_start p.N + t))
        (A.mul (vars.get (a_start p.N + t)) p.dt) ∧
    vars.get (cte_start p.N + (t + 1)) =
        A.add (A.sub (polyeval_in A self (vars.get (x_start p.N + t)))
            (vars.get (y_start p.N + t)))
          (A.mul (A.mul (vars.get (v_start p.N + t))
            (L.sin (vars.get (epsi_start p.N + t)))) p.dt) ∧
    vars.get (epsi_start p.N + (t + 1)) =
        A.add (A.sub (vars.get (psi_start p.N + t))
            (L.atan (d_polyeval_in A self (vars.get (x_start p.N + t)))))
          (A.div (A.mul (A.mul (vars.get (v_start p.N + t))
            (vars.get (delta_start p.N + t))) p.dt) p.Lf) := by
  have e : ∀ a : Nat, a + (t + 1) - 1 = a + t := fun a => by omega
  have r := operator_in_residuals A L p self fg vars (t + 1) (by omega) ht
  have hall : ∀ w ∈ dynamics_writes_in A L p self vars (t + 1), w.2 = A.zero := by
    intro w hw
    have hfst : w.1 ∈ (state_starts p.N).map (fun s => 1 + s + (t + 1)) :=
      List.mem_map_of_mem Prod.fst hw
    obtain ⟨s, hs, es⟩ := List.mem_map.mp hfst
    rw [← r w hw, ← es]
    exact hz (t + 1) (by omega) ht s hs
  simp only [dynamics_writes_in, List.forall_mem_cons, List.not_mem_nil, e] at hall
  obtain ⟨h1, h2, h3, h4, h5, h6, -⟩ := hall
  have c : ∀ a b c : R, D a → A.sub a (A.add b c) = A.zero → a = A.add b c :=
    fun a b c ha h => hA.sub_eq_zero a _ ha (hA.add_mem b c) h
  exact ⟨c _ _ _ (hD _ (by simp only [x_start, n_vars]; omega)) h1,
    c _ _ _ (hD _ (by simp only [y_start, n_vars]; omega)) h2,
    c _ _ _ (hD _ (by simp only [psi_start, n_vars]; omega)) h3,
    c _ _ _ (hD _ (by simp only [v_start, n_vars]; omega)) h4,
    c _ _ _ (hD _ (by simp only [cte_start, n_vars]; omega)) h5,
    c _ _ _ (hD _ (by simp only [epsi_start, n_vars]; omega)) h6⟩

/-- Claim C19, amended. Over every faithful arithmetic (that of an ordered field, and that of
`double`), for every horizon `N ≥ 2`, every coefficient sequence and any two decision vectors
`u` and `w` of numbers of the arithmetic: if all the dynamics residuals
`fg[1 + q_start + t]`, `1 ≤ t < N`, left by `FG_eval::operator()` are zero for both, `u` and
`w` agree on the six first-step state cells and agree on the whole delta and a blocks, then
`u` and `w` agree on every cell below `n_vars`; and such a vector satisfies
`v_{t+1} = v_t + a_t * dt` at every step `t + 1 < N`, the sum and the product being those of
the evaluator. -/
theorem dynamics_determine_trajectory (A : Arith R) (D : R → Prop) (L : Lib R)
    (p : Params R) (self : FG_eval R) (fgu fgw u w : Dvector R) (hA : A.Faithful D)
    (hN : 2 ≤ p.N)
    (hDu : ∀ i, i < n_vars p.N → D (u.get i)) (hDw : ∀ i, i < n_vars p.N → D (w.get i))
    (hu : ∀ t, 1 ≤ t → t < p.N → ∀ s ∈ state_starts p.N,
      (operator_in A L p self fgu u).get (1 + s + t) = A.zero)
    (hw : ∀ t, 1 ≤ t → t < p.N → ∀ s ∈ state_starts p.N,
      (operator_in A L p self fgw w).get (1 + s + t) = A.zero)
    (h0 : ∀ s ∈ state_starts p.N, u.get s = w.get s)
    (hd : ∀ k, k < p.N - 1 → u.get (delta_start p.N + k) = w.get (delta_start p.N + k))
    (ha : ∀ k, k < p.N - 1 → u.get (a_start p.N + k) = w.get (a_start p.N + k)) :
    (∀ i, i < n_vars p.N → u.get i = w.get i) ∧
    (∀ t, t + 1 < p.N → u.get (v_start p.N + (t + 1))
      = A.add (u.get (v_start p.N + t)) (A.mul (u.get (a_start p.N + t)) p.dt)) := by
  have su := feasible_step_in A D hA L p self fgu u hDu hu
  have sw := feasible_step_in A D hA L p self fgw w hDw hw
  have key : ∀ t, t < p.N →
      u.get (x_start p.N + t) = w.get (x_start p.N + t) ∧
      u.get (y_start p.N + t) = w.get (y_start p.N + t) ∧
      u.get (psi_start p.N + t) = w.get (psi_start p.N + t) ∧
      u.get (v_start p.N + t) = w.get (v_start p.N + t) ∧
      u.get (cte_start p.N + t) = w.get (cte_start p.N + t) ∧
      u.get (epsi_start p.N + t) = w.get (epsi_start p.N + t) := by
    intro t
    induction t with
    | zero =>
      intro _
      have hm : ∀ s, (s = x_start p.N ∨ s = y_start p.N ∨ s = psi_start p.N ∨
          s = v_start p.N ∨ s = cte_start p.N ∨ s = epsi_start p.N) → u.get s = w.get s :=
        fun s hs => h0 s (by simpa [state_starts] using hs)
      exact ⟨hm _ (Or.inl rfl), hm _ (Or.inr (Or.inl rfl)),
        hm _ (Or.inr (Or.inr (Or.inl rfl))), hm _ (Or.inr (Or.inr (Or.inr (Or.inl rfl)))),
        hm _ (Or.inr (Or.inr (Or.inr (Or.inr (Or.inl rfl))))),
        hm _ (Or.inr (Or.inr (Or.inr (Or.inr (Or.inr rfl)))))⟩
    | succ t ih =>
      intro ht
      obtain ⟨ex, ey, epsi, ev, -, eepsi⟩ := ih (by omega)
      obtain ⟨u1, u2, u3, u4, u5, u6⟩ := su t ht
      obtain ⟨w1, w2, w3, w4, w5, w6⟩ := sw t ht
      have ed := hd t (by omega)
      have ea := ha t (by omega)
      refine ⟨?_, ?_, ?_, ?_, ?_, ?_⟩
      · rw [u1, w1, ex, ev, epsi]
      · rw [u2, w2, ey, ev, epsi]
      · rw [u3, w3, epsi, ev, ed]
      · rw [u4, w4, ev, ea]
      · rw [u5, w5, ex, ey, ev, eepsi]
      · rw [u6, w6, epsi, ex, ev, ed]
  constructor
  · intro i hi
    have h1 : 1 ≤ p.N := by omega
    rcases Nat.lt_or_ge i (p.N * 6) with hlt | hge
    · obtain ⟨q, t, hq, ht, he⟩ : ∃ q t, q < 6 ∧ t < p.N ∧ i = p.N * q + t := by
        refine ⟨i / p.N, i % p.N, ?_, Nat.mod_lt _ h1, (Nat.div_add_mod i p.N).symm⟩
        rw [Nat.div_lt_iff_lt_mul h1]
        omega
      obtain ⟨k0, k1, k2, k3, k4, k5⟩ := key t ht
      subst he
      interval_cases q
      · exact k0
      · exact k1
      · exact k2
      · exact k3
      · exact k4
      · exact k5
    · rcases Nat.lt_or_ge i (a_start p.N) with hlt | hge2
      · have h := hd (i - delta_start p.N) (by simp only [delta_start, a_start] at *; omega)
        rwa [Nat.add_sub_cancel' (by simpa only [delta_start] using hge)] at h
      · have h := ha (i - a_start p.N) (by simp only [n_vars, a_start] at *; omega)
        rwa [Nat.add_sub_cancel' hge2] at h
  · intro t ht
    exact (su t ht).2.2.2.1

/-- Witness for `dynamics_determine_trajectory` in the arithmetic of `double`: horizon 10,
the polynomial with no coefficient, `u = w = closed_form_input` evaluated from two different
entry contents of `fg`; all 54 dynamics residuals are 0 for both, and the theorem gives
`v_2 = v_1 + a_1 * dt` with the rounded sum and product. -/
theorem dynamics_determine_trajectory_witness :
    2 ≤ (globals64 10).N ∧
    (∀ t, 1 ≤ t → t < (globals64 10).N → ∀ s ∈ state_starts (globals64 10).N,
      (operator_in binary64 lib_at_zero (globals64 10) ⟨[]⟩ (Dvector.alloc 61 (fun _ => 0))
        closed_form_input).get (1 + s + t) = binary64.zero) ∧
    closed_form_input.get (v_start (globals64 10).N + (1 + 1))
      = binary64.add (closed_form_input.get (v_start (globals64 10).N + 1))
        (binary64.mul (closed_form_input.get (a_start (globals64 10).N + 1))
          (globals64 10).dt) :=
  ⟨by decide, closed_form_residual_cells _,
    (dynamics_determine_trajectory binary64 on_grid lib_at_zero (globals64 10) ⟨[]⟩
      (Dvector.alloc 61 (fun _ => 0)) (Dvector.alloc 61 (fun _ => 7))
      closed_form_input closed_form_input binary64_faithful (by decide)
      closed_form_input_on_grid closed_form_input_on_grid
      (closed_form_residual_cells _) (closed_form_residual_cells _)
      (fun _ _ => rfl) (fun _ _ => rfl) (fun _ _ => rfl)).2 1 (by decide)⟩

end TrajectoryIn

/-! ## A run in `double` arithmetic with cost zero -/

section ZeroCost

/-- The literal `30` is a `double`. -/
theorem binary64_round_thirty : binary64_round 30 = 30 :=
  binary64_round_pos_eq _ _ 4 8444249301319680 (by norm_num) (by norm_num) (by norm_num)
    (by norm_num) (by norm_num) (by norm_num)

/-- In `double` arithmetic the square of 0 is 0. -/
theorem binary64_pow_zero_two : binary64.pow 0 2 = 0 := by
  simp [binary64, binary64_pow, binary64_round_zero]

/-- In `double` arithmetic the square of `2 ^ (-600)` underflows to 0. -/
theorem binary64_pow_underflow : binary64.pow (1 / 2 ^ 600) 2 = 0 := by
  show binary64_round (binary64_round (1 * (1 / 2 ^ 600)) * (1 / 2 ^ 600)) = 0
  have h1 : binary64_round (1 * (1 / 2 ^ 600)) = 1 / 2 ^ 600 :=
    binary64_round_pos_eq _ _ (-600) 4503599627370496 (by norm_num) (by norm_num)
      (by norm_num) (by norm_num) (by norm_num) (by norm_num)
  have h2 : binary64_round (1 / 2 ^ 600 * (1 / 2 ^ 600)) = (0 : ℤ) * 2 ^ (-1074 : ℤ) :=
    binary64_round_subnormal _ 0 (by norm_num [abs_of_pos]) (by norm_num [abs_of_pos])
  rw [h1, h2]
  simp

/-- In `double` arithmetic `30 - ref_v` is 0 and so is its square. -/
theorem binary64_pow_ref : binary64.pow (binary64.sub 30 (globals64 10).ref_v) 2 = 0 := by
  show binary64.pow (binary64_round (30 - binary64_round 30)) 2 = 0
  rw [binary64_round_thirty, sub_self, binary64_round_zero, binary64_pow_zero_two]

/-- In `double` arithmetic `0 + 0` is 0. -/
theorem binary64_add_zero_zero : binary64.add 0 0 = 0 := by
  show binary64_round (0 + 0) = 0
  rw [add_zero, binary64_round_zero]

/-- The `cte` block of `zero_cost_input`. -/
theorem zero_cost_input_cte (i : Nat) :
    zero_cost_input.get (cte_start 10 + i) = if i = 0 then 1 / 2 ^ 600 else 0 := by
  by_cases h : i = 0
  · subst h
    rfl
  · have h1 : ¬ (cte_start 10 + i = 40) := by simp only [cte_start]; omega
    have h2 : ¬ (30 ≤ cte_start 10 + i ∧ cte_start 10 + i < 40) := by
      simp only [cte_start]; omega
    simp only [zero_cost_input, Dvector.get, Dvector.alloc, if_neg h, if_neg h1, if_neg h2]

/-- The speed block of `zero_cost_input`. -/
theorem zero_cost_input_v (i : Nat) (hi : i < 10) :
    zero_cost_input.get (v_start 10 + i) = 30 := by
  have h1 : ¬ (v_start 10 + i = 40) := by simp only [v_start]; omega
  have h2 : 30 ≤ v_start 10 + i ∧ v_start 10 + i < 40 := by
    simp only [v_start]; omega
  simp only [zero_cost_input, Dvector.get, Dvector.alloc, if_neg h1, if_pos h2]

/-- Every cell of `zero_cost_input` from 41 on is 0. -/
theorem zero_cost_input_tail (j : Nat) (hj : 41 ≤ j) : zero_cost_input.get j = 0 := by
  have h1 : ¬ (j = 40) := by omega
  have h2 : ¬ (30 ≤ j ∧ j < 40) := by omega
  simp only [zero_cost_input, Dvector.get, Dvector.alloc, if_neg h1, if_neg h2]

/-- In `double` arithmetic the cost loops leave `fg[0] = 0` on `zero_cost_input`. -/
theorem zero_cost_stage (fg : Dvector ℚ) :
    (cost_stage_in binary64 (globals64 10) fg zero_cost_input).get 0 = 0 := by
  have e50 : ∀ i, zero_cost_input.get (epsi_start 10 + i) = 0 := fun i =>
    zero_cost_input_tail _ (by simp only [epsi_start]; omega)
  have e60 : ∀ i, zero_cost_input.get (delta_start 10 + i) = 0 := fun i =>
    zero_cost_input_tail _ (by simp only [delta_start]; omega)
  have e61 : ∀ i, zero_cost_input.get (delta_start 10 + i + 1) = 0 := fun i =>
    zero_cost_input_tail _ (by simp only [delta_start]; omega)
  have e69 : ∀ i, zero_cost_input.get (a_start 10 + i) = 0 := fun i =>
    zero_cost_input_tail _ (by simp only [a_start]; omega)
  have e70 : ∀ i, zero_cost_input.get (a_start 10 + i + 1) = 0 := fun i =>
    zero_cost_input_tail _ (by simp only [a_start]; omega)
  have hsub : binary64.sub 0 0 = 0 := binary64_sub_eq_zero 0 0 rfl
  have hmul : binary64.mul (binary64.lit 200) 0 = 0 := by
    show binary64_round (binary64_round _ * 0) = 0
    rw [mul_zero, binary64_round_zero]
  unfold cost_stage_in
  refine forLoop_invariant_bounds (fun _ (s : Dvector ℚ) => s.get 0 = 0) 0 _ _ _ (Nat.zero_le _) ?_ ?_
  · refine forLoop_invariant_bounds (fun _ (s : Dvector ℚ) => s.get 0 = 0) 0 _ _ _ (Nat.zero_le _) ?_ ?_
    · refine forLoop_invariant_bounds (fun _ (s : Dvector ℚ) => s.get 0 = 0) 0 _ _ _ (Nat.zero_le _) ?_ ?_
      · exact Dvector.get_set_self _ _ _
      · intro i s _ hi h
        have hi' : i < 10 := hi
        show binary64.add (binary64.add (binary64.add (s.get 0)
            (binary64.pow (zero_cost_input.get (cte_start 10 + i)) 2))
            (binary64.pow (zero_cost_input.get (epsi_start 10 + i)) 2))
            (binary64.pow (binary64.sub (zero_cost_input.get (v_start 10 + i))
              (globals64 10).ref_v) 2) = 0
        rw [h, zero_cost_input_cte, e50, zero_cost_input_v i hi', binary64_pow_ref,
          binary64_pow_zero_two]
        by_cases h0 : i = 0
        · rw [if_pos h0, binary64_pow_underflow, binary64_add_zero_zero,
            binary64_add_zero_zero, binary64_add_zero_zero]
        · rw [if_neg h0, binary64_pow_zero_two, binary64_add_zero_zero,
            binary64_add_zero_zero, binary64_add_zero_zero]
    · intro i s _ _ h
      show binary64.add (binary64.add (s.get 0)
          (binary64.pow (zero_cost_input.get (delta_start 10 + i)) 2))
          (binary64.pow (zero_cost_input.get (a_start 10 + i)) 2) = 0
      rw [h, e60, e69, binary64_pow_zero_two, binary64_add_zero_zero, binary64_add_zero_zero]
  · intro i s _ _ h
    show binary64.add (binary64.add (s.get 0) (binary64.mul (binary64.lit 200)
        (binary64.pow (binary64.sub (zero_cost_input.get (delta_start 10 + i + 1))
          (zero_cost_input.get (delta_start 10 + i))) 2)))
        (binary64.pow (binary64.sub (zero_cost_input.get (a_start 10 + i + 1))
          (zero_cost_input.get (a_start 10 + i))) 2) = 0
    rw [h, e60, e61, e69, e70, hsub, binary64_pow_zero_two, hmul, binary64_add_zero_zero,
      binary64_add_zero_zero]

/-- Claim C20, as stated, fails in the arithmetic of the code. Horizon 10, the decision
vector `zero_cost_input` (speed block 30, `cte_0 = 2 ^ (-600)`, all else 0): evaluated in
`double` arithmetic the cost `fg[0]` is 0, because the square of `cte_0` underflows to 0,
while `cte_0` is not 0. -/
theorem zero_cost_counterexample :
    (operator_in binary64 lib_at_zero (globals64 10) ⟨[]⟩ (Dvector.alloc 61 (fun _ => 0))
      zero_cost_input).get 0 = 0 ∧
    zero_cost_input.get (cte_start 10 + 0) ≠ 0 := by
  constructor
  · exact (operator_in_get_zero binary64 lib_at_zero (globals64 10) ⟨[]⟩ _ zero_cost_input
      (by decide)).trans (zero_cost_stage _)
  · rw [zero_cost_input_cte, if_pos rfl]
    norm_num

end ZeroCost

/-! ## Sign and zero of the cost over a faithful arithmetic -/

section CostSignIn

variable {R : Type} [LinearOrderedField R]

/-- Adding a non-negative term to a non-negative sum: the result is non-negative, and it is
zero exactly when the sum and the term are. -/
theorem faithful_accumulate (A : Arith R) (D : R → Prop) (hA : A.Faithful D) (c x : R)
    (hc : A.zero ≤ c) (hDc : D c) (hx : A.zero ≤ x) (hDx : D x) :
    A.zero ≤ A.add c x ∧ D (A.add c x) ∧ (A.add c x = A.zero ↔ c = A.zero ∧ x = A.zero) := by
  refine ⟨hA.add_nonneg c x hc hx, hA.add_mem c x, hA.add_eq_zero c x hDc hDx hc hx, ?_⟩
  rintro ⟨h1, h2⟩
  rw [h1, h2]
  exact hA.add_zero

/-- A loop that adds non-negative terms to `fg[0]`: afterwards `fg[0]` is non-negative, and
it is zero exactly when it was zero before and every pass added zero (`T i`). -/
theorem forLoop_cost_zero_iff (A : Arith R) (D : R → Prop) (body : Nat → Dvector R → Dvector R)
    (step : Nat → R → R) (T : Nat → Prop) (n : Nat) (fg : Dvector R)
    (hbody : ∀ i s, (body i s).get 0 = step i (s.get 0))
    (hstep : ∀ i c, i < n → A.zero ≤ c → D c →
      A.zero ≤ step i c ∧ D (step i c) ∧ (step i c = A.zero ↔ c = A.zero ∧ T i))
    (h0 : A.zero ≤ fg.get 0) (hD : D (fg.get 0)) :
    A.zero ≤ (forLoop 0 n body fg).get 0 ∧ D ((forLoop 0 n body fg).get 0) ∧
    ((forLoop 0 n body fg).get 0 = A.zero ↔ fg.get 0 = A.zero ∧ ∀ i, i < n → T i) := by
  refine forLoop_invariant_bounds
    (fun i (s : Dvector R) => A.zero ≤ s.get 0 ∧ D (s.get 0) ∧
      (s.get 0 = A.zero ↔ fg.get 0 = A.zero ∧ ∀ j, j < i → T j))
    0 n body fg (Nat.zero_le n) ⟨h0, hD, ?_⟩ ?_
  · exact ⟨fun h => ⟨h, fun j hj => absurd hj (Nat.not_lt_zero j)⟩, fun h => h.1⟩
  · intro i s _ hi ⟨h1, h2, h3⟩
    obtain ⟨k1, k2, k3⟩ := hstep i (s.get 0) hi h1 h2
    rw [hbody]
    refine ⟨k1, k2, ?_⟩
    rw [k3, h3]
    constructor
    · rintro ⟨⟨a, b⟩, c⟩
      refine ⟨a, fun j hj => ?_⟩
      rcases Nat.lt_succ_iff_lt_or_eq.mp hj with hlt | heq
      · exact b j hlt
      · rw [heq]
        exact c
    · rintro ⟨a, b⟩
      exact ⟨⟨a, fun j hj => b j (Nat.lt_succ_of_lt hj)⟩, b i (Nat.lt_succ_self i)⟩

/-- Claim C20, amended. Over every faithful arithmetic (that of an ordered field, and that of
`double`), for every horizon `N ≥ 2` and every decision vector: the cost `fg[0]` left by
`FG_eval::operator()` is non-negative; it is zero if and only if every term that the three
cost loops add is zero as computed, that is the squares of `cte_t`, `epsi_t` and
`v_t - ref_v` for `t < N`, the squares of `delta_t` and `a_t` for `t < N - 1`, and
`200 * (delta_{t+1} - delta_t)^2` and `(a_{t+1} - a_t)^2` for `t < N - 2`; and it is zero
if `cte_t = 0`, `epsi_t = 0`, `v_t = ref_v` for `t < N` and `delta_t = 0`, `a_t = 0` for
`t < N - 1`. -/
theorem operator_cost_nonneg_zero_iff (A : Arith R) (D : R → Prop) (L : Lib R)
    (p : Params R) (self : FG_eval R) (fg vars : Dvector R) (hA : A.Faithful D)
    (hN : 2 ≤ p.N) :
    A.zero ≤ (operator_in A L p self fg vars).get 0 ∧
    ((operator_in A L p self fg vars).get 0 = A.zero ↔
      (∀ t, t < p.N → A.pow (vars.get (cte_start p.N + t)) 2 = A.zero ∧
        A.pow (vars.get (epsi_start p.N + t)) 2 = A.zero ∧
        A.pow (A.sub (vars.get (v_start p.N + t)) p.ref_v) 2 = A.zero) ∧
      (∀ t, t < p.N - 1 → A.pow (vars.get (delta_start p.N + t)) 2 = A.zero ∧
        A.pow (vars.get (a_start p.N + t)) 2 = A.zero) ∧
      (∀ t, t < p.N - 2 →
        A.mul (A.lit 200) (A.pow (A.sub (vars.get (delta_start p.N + t + 1))
          (vars.get (delta_start p.N + t))) 2) = A.zero ∧
        A.pow (A.sub (vars.get (a_start p.N + t + 1)) (vars.get (a_start p.N + t))) 2
          = A.zero)) ∧
    ((∀ t, t < p.N → vars.get (cte_start p.N + t) = A.zero ∧
        vars.get (epsi_start p.N + t) = A.zero ∧ vars.get (v_start p.N + t) = p.ref_v) →
      (∀ t, t < p.N - 1 → vars.get (delta_start p.N + t) = A.zero ∧
        vars.get (a_start p.N + t) = A.zero) →
      (operator_in A L p self fg vars).get 0 = A.zero) := by
  have sq := fun x => (⟨hA.sq_nonneg x, hA.pow_mem x 2⟩ : A.zero ≤ A.pow x 2 ∧ D (A.pow x 2))
  have l1 := forLoop_cost_zero_iff A D (ref_cost_body_in A p vars)
    (fun i c => A.add (A.add (A.add c (A.pow (vars.get (cte_start p.N + i)) 2))
      (A.pow (vars.get (epsi_start p.N + i)) 2))
      (A.pow (A.sub (vars.get (v_start p.N + i)) p.ref_v) 2))
    (fun i => A.pow (vars.get (cte_start p.N + i)) 2 = A.zero ∧
      A.pow (vars.get (epsi_start p.N + i)) 2 = A.zero ∧
      A.pow (A.sub (vars.get (v_start p.N + i)) p.ref_v) 2 = A.zero)
    p.N (fg.set 0 A.zero) (fun i s => by simp [ref_cost_body_in])
    (fun i c _ hc hDc => by
      obtain ⟨a1, a2, a3⟩ := faithful_accumulate A D hA c _ hc hDc (sq _).1 (sq _).2
      obtain ⟨b1, b2, b3⟩ := faithful_accumulate A D hA _ _ a1 a2
        (sq (vars.get (epsi_start p.N + i))).1 (sq _).2
      obtain ⟨c1, c2, c3⟩ := faithful_accumulate A D hA _ _ b1 b2
        (sq (A.sub (vars.get (v_start p.N + i)) p.ref_v)).1 (sq _).2
      refine ⟨c1, c2, ?_⟩
      rw [c3, b3, a3]
      simp only [and_assoc])
    (le_of_le_of_eq hA.zero_le (Dvector.get_set_self _ _ _).symm)
    ((Dvector.get_set_self fg 0 A.zero).symm ▸ hA.zero_mem)
  obtain ⟨n1, d1, z1⟩ := l1
  have z1' := z1.trans (and_iff_right (Dvector.get_set_self fg 0 A.zero))
  have l2 := forLoop_cost_zero_iff A D (actuator_cost_body_in A p vars)
    (fun i c => A.add (A.add c (A.pow (vars.get (delta_start p.N + i)) 2))
      (A.pow (vars.get (a_start p.N + i)) 2))
    (fun i => A.pow (vars.get (delta_start p.N + i)) 2 = A.zero ∧
      A.pow (vars.get (a_start p.N + i)) 2 = A.zero)
    (p.N - 1) _ (fun i s => by simp [actuator_cost_body_in])
    (fun i c _ hc hDc => by
      obtain ⟨a1, a2, a3⟩ := faithful_accumulate A D hA c _ hc hDc (sq _).1 (sq _).2
      obtain ⟨b1, b2, b3⟩ := faithful_accumulate A D hA _ _ a1 a2
        (sq (vars.get (a_start p.N + i))).1 (sq _).2
      refine ⟨b1, b2, ?_⟩
      rw [b3, a3]
      simp only [and_assoc])
    n1 d1
  obtain ⟨n2, d2, z2⟩ := l2
  have l3 := forLoop_cost_zero_iff A D (seq_cost_body_in A p vars)
    (fun i c => A.add (A.add c (A.mul (A.lit 200)
        (A.pow (A.sub (vars.get (delta_start p.N + i + 1))
          (vars.get (delta_start p.N + i))) 2)))
      (A.pow (A.sub (vars.get (a_start p.N + i + 1)) (vars.get (a_start p.N + i))) 2))
    (fun i => A.mul (A.lit 200) (A.pow (A.sub (vars.get (delta_start p.N + i + 1))
          (vars.get (delta_start p.N + i))) 2) = A.zero ∧
      A.pow (A.sub (vars.get (a_start p.N + i + 1)) (vars.get (a_start p.N + i))) 2
        = A.zero)
    (p.N - 2) _ (fun i s => by simp [seq_cost_body_in])
    (fun i c _ hc hDc => by
      obtain ⟨a1, a2, a3⟩ := faithful_accumulate A D hA c _ hc hDc
        (hA.mul_nonneg 200 _ (sq _).1) (hA.mul_mem _ _)
      obtain ⟨b1, b2, b3⟩ := faithful_accumulate A D hA _ _ a1 a2
        (sq (A.sub (vars.get (a_start p.N + i + 1)) (vars.get (a_start p.N + i)))).1
        (sq _).2
      refine ⟨b1, b2, ?_⟩
      rw [b3, a3]
      simp only [and_assoc])
    n2 d2
  obtain ⟨n3, -, z3⟩ := l3
  have hcost : (operator_in A L p self fg vars).get 0
      = (forLoop 0 (p.N - 2) (seq_cost_body_in A p vars)
          (forLoop 0 (p.N - 1) (actuator_cost_body_in A p vars)
            (forLoop 0 p.N (ref_cost_body_in A p vars) (fg.set 0 A.zero)))).get 0 :=
    operator_in_get_zero A L p self fg vars (by omega)
  rw [hcost]
  have hiff := (z3.trans (and_congr_left' (z2.trans (and_congr_left' z1')))).trans and_assoc
  refine ⟨n3, hiff, fun h1 h2 => hiff.mpr ⟨fun t ht => ?_, fun t ht => ?_, fun t ht => ?_⟩⟩
  · obtain ⟨e1, e2, e3⟩ := h1 t ht
    rw [e1, e2, e3, hA.sub_self, hA.sq_zero]
    exact ⟨rfl, rfl, rfl⟩
  · obtain ⟨e1, e2⟩ := h2 t ht
    rw [e1, e2, hA.sq_zero]
    exact ⟨rfl, rfl⟩
  · obtain ⟨e1, e2⟩ := h2 t (by omega)
    obtain ⟨e3, e4⟩ := h2 (t + 1) (by omega)
    rw [Nat.add_assoc, Nat.add_assoc, e1, e2, e3, e4, hA.sub_self, hA.sq_zero, hA.mul_zero]
    exact ⟨rfl, rfl⟩

/-- Witness for `operator_cost_nonneg_zero_iff` in the arithmetic of `double`: horizon 10,
the decision vector `zero_cost_input` (speed block 30, `cte_0 = 2 ^ (-600)`, all else 0).
The cost is 0, so by the theorem every term is 0 as computed, among them the square of
`cte_0`. -/
theorem operator_cost_nonneg_zero_iff_witness :
    2 ≤ (globals64 10).N ∧
    (operator_in binary64 lib_at_zero (globals64 10) ⟨[]⟩ (Dvector.alloc 61 (fun _ => 0))
      zero_cost_input).get 0 = binary64.zero ∧
    binary64.pow (zero_cost_input.get (cte_start (globals64 10).N + 0)) 2 = binary64.zero := by
  have hc : (operator_in binary64 lib_at_zero (globals64 10) ⟨[]⟩
      (Dvector.alloc 61 (fun _ => 0)) zero_cost_input).get 0 = binary64.zero :=
    (operator_in_get_zero binary64 lib_at_zero (globals64 10) ⟨[]⟩ _ zero_cost_input
      (by decide)).trans (zero_cost_stage _)
  exact ⟨by decide, hc,
    (((operator_cost_nonneg_zero_iff binary64 on_grid lib_at_zero (globals64 10) ⟨[]⟩
      (Dvector.alloc 61 (fun _ => 0)) zero_cost_input binary64_faithful
      (by decide)).2.1.mp hc).1 0 (by decide)).1⟩

end CostSignIn

end MPC
